import Mathlib

/-!
# NAT mapping table of the simple router (`router/sr_nat.c`)

A shallow embedding of `sr_nat.c`.  The C code works on hand-rolled singly
linked lists, so the state is a small heap: addresses are natural numbers,
`NULL` is `0`, and the memory holding `struct sr_nat_mapping` and
`struct sr_nat_connection` blocks is a function from addresses to records.
A block that was passed to `free` keeps its last content (the C code never
clears it) and is marked as not live.

Every `while`/`for` loop that follows `next` pointers takes a fuel argument
and returns `none` when the fuel runs out, which is how a walk over a cyclic
chain shows up.  The mutex calls and the `printf` calls have no effect on the
modelled state and are left out; every operation holds the lock from its first
to its last statement, so a run under the lock is a serial order of the
modelled operations.

The result of `malloc` and the value of `time(NULL)` are arguments.  The
reaper reads the clock once per pass, and `check_tcp_conns` reads it again in
every call, so a pass takes the clock read of the pass and the clock reads of
its sweeps.
-/

namespace SrNat

/-- Addresses of heap blocks. -/
abbrev Ptr := Nat

/-- The null pointer. -/
abbrev NULL : Ptr := 0

/-- Modelled from the spec: the enum `sr_nat_mapping_type` of `sr_nat.h`
(`kind ∈ {ICMP, TCP}`). -/
inductive sr_nat_mapping_type where
  | nat_mapping_icmp
  | nat_mapping_tcp
  deriving DecidableEq, Repr, Inhabited

/-- Modelled from the spec: the enum of coarse TCP states of `sr_nat.h`.
`sr_nat.c` itself only writes `CLOSED` and tests for `ESTABLISHED`. -/
inductive sr_nat_tcp_state where
  | CLOSED
  | SYN_SENT
  | SYN_RECEIVED
  | ESTABLISHED
  | FIN_WAIT
  | CLOSE_WAIT
  | CLOSING
  | LAST_ACK
  | TIME_WAIT
  deriving DecidableEq, Repr, Inhabited

open sr_nat_mapping_type sr_nat_tcp_state

/-- The record `struct sr_nat_connection`.  Its declaration is in `sr_nat.h`;
the fields are those that `sr_nat.c` reads and writes. -/
structure sr_nat_connection where
  ip : Nat
  tcp_state : sr_nat_tcp_state
  last_updated : Int
  next : Ptr
  deriving DecidableEq, Repr, Inhabited

/-- The record `struct sr_nat_mapping`.  Its declaration is in `sr_nat.h`; the
fields are those that `sr_nat.c` reads and writes (`ip_int` is a `uint32_t`,
`aux_int` and `aux_ext` are `uint16_t`, `last_updated` is a `time_t`). -/
structure sr_nat_mapping where
  type : sr_nat_mapping_type
  ip_int : Nat
  aux_int : Nat
  aux_ext : Nat
  last_updated : Int
  conns : Ptr
  next : Ptr
  deriving DecidableEq, Repr, Inhabited

/-- The record `struct sr_nat`, declared in `sr_nat.h`, with the fields that
`sr_nat.c` reads and writes, together with the heap:
`mapping_mem`/`conn_mem` give the content of the block at an address and
`mapping_live`/`conn_live` tell whether the block is currently allocated.
The two pools are the arrays `available_ports` and
`available_icmp_identifiers`, indexed by slot number. -/
structure sr_nat where
  mappings : Ptr
  mapping_mem : Ptr → sr_nat_mapping
  mapping_live : Ptr → Bool
  conn_mem : Ptr → sr_nat_connection
  conn_live : Ptr → Bool
  available_ports : Nat → Nat
  available_icmp_identifiers : Nat → Nat
  icmp_query_timeout : Int
  tcp_estb_timeout : Int
  tcp_trns_timeout : Int

/-- The C library `difftime` on whole-second timestamps: the difference in
seconds. -/
def difftime (time1 time0 : Int) : Int := time1 - time0

/-! ## Heap writes -/

/-- Writes `p->next = v` for a mapping block. -/
def set_mapping_next (nat : sr_nat) (p v : Ptr) : sr_nat :=
  { nat with
    mapping_mem := fun a =>
      if a = p then { nat.mapping_mem a with next := v } else nat.mapping_mem a }

/-- Writes `p->conns = v` for a mapping block. -/
def set_mapping_conns (nat : sr_nat) (p v : Ptr) : sr_nat :=
  { nat with
    mapping_mem := fun a =>
      if a = p then { nat.mapping_mem a with conns := v } else nat.mapping_mem a }

/-- Writes `c->next = v` for a connection block. -/
def set_conn_next (nat : sr_nat) (c v : Ptr) : sr_nat :=
  { nat with
    conn_mem := fun a =>
      if a = c then { nat.conn_mem a with next := v } else nat.conn_mem a }

/-- The call `free(p)` on a mapping block. -/
def free_mapping (nat : sr_nat) (p : Ptr) : sr_nat :=
  { nat with mapping_live := fun a => if a = p then false else nat.mapping_live a }

/-- The call `free(c)` on a connection block. -/
def free_conn (nat : sr_nat) (c : Ptr) : sr_nat :=
  { nat with conn_live := fun a => if a = c then false else nat.conn_live a }

/-- Writes `pool[i] = v`. -/
def pool_set (pool : Nat → Nat) (i v : Nat) : Nat → Nat :=
  fun j => if j = i then v else pool j

/-! ## `sr_nat_init` -/

/-- The part of `sr_nat_init` after the thread set-up: `nat->mappings = NULL`. -/
def sr_nat_init (nat : sr_nat) : sr_nat :=
  { nat with mappings := NULL }

/-! ## Lookups -/

/-- The `while` loop of `sr_nat_lookup_external`; the result is `foundMapping`. -/
def sr_nat_lookup_external_loop (nat : sr_nat) (aux_ext : Nat)
    (type : sr_nat_mapping_type) : Nat → Ptr → Option Ptr
  | 0, _ => none
  | fuel + 1, currMapping =>
    if currMapping = NULL then some NULL
    else if (nat.mapping_mem currMapping).type = type
        ∧ (nat.mapping_mem currMapping).aux_ext = aux_ext then
      some currMapping
    else
      sr_nat_lookup_external_loop nat aux_ext type fuel (nat.mapping_mem currMapping).next

/-- The function `sr_nat_lookup_external`. -/
def sr_nat_lookup_external (fuel : Nat) (nat : sr_nat) (aux_ext : Nat)
    (type : sr_nat_mapping_type) : Option Ptr :=
  sr_nat_lookup_external_loop nat aux_ext type fuel nat.mappings

/-- The `while` loop of `sr_nat_lookup_internal`; the result is `foundMapping`. -/
def sr_nat_lookup_internal_loop (nat : sr_nat) (ip_int aux_int : Nat)
    (type : sr_nat_mapping_type) : Nat → Ptr → Option Ptr
  | 0, _ => none
  | fuel + 1, currMapping =>
    if currMapping = NULL then some NULL
    else if (nat.mapping_mem currMapping).type = type
        ∧ (nat.mapping_mem currMapping).aux_int = aux_int
        ∧ (nat.mapping_mem currMapping).ip_int = ip_int then
      some currMapping
    else
      sr_nat_lookup_internal_loop nat ip_int aux_int type fuel
        (nat.mapping_mem currMapping).next

/-- The function `sr_nat_lookup_internal`. -/
def sr_nat_lookup_internal (fuel : Nat) (nat : sr_nat) (ip_int aux_int : Nat)
    (type : sr_nat_mapping_type) : Option Ptr :=
  sr_nat_lookup_internal_loop nat ip_int aux_int type fuel nat.mappings

/-! ## Insert -/

/-- The function `sr_nat_insert_mapping`.  `newMapping` is the address returned
by `malloc` and `now` the value of `time(NULL)`.  The `assert` on the `malloc`
result aborts, which is `none`.  The fields that the C code does not assign
(`aux_ext`) keep what the block held. -/
def sr_nat_insert_mapping (nat : sr_nat) (ip_int aux_int : Nat)
    (type : sr_nat_mapping_type) (now : Int) (newMapping : Ptr) :
    Option (Ptr × sr_nat) :=
  if newMapping = NULL then none
  else
    some (newMapping,
      { nat with
        mappings := newMapping
        mapping_live := fun a => if a = newMapping then true else nat.mapping_live a
        mapping_mem := fun a =>
          if a = newMapping then
            { nat.mapping_mem newMapping with
              type := type
              last_updated := now
              ip_int := ip_int
              aux_int := aux_int
              conns := NULL
              next := nat.mappings }
          else nat.mapping_mem a })

/-! ## The two allocators -/

/-- The `for` loop of the two allocators: `n` iterations are left and `i` is
the loop counter; the result is the first `i` with `pool[i] == 0`. -/
def first_free_slot (pool : Nat → Nat) : Nat → Nat → Option Nat
  | 0, _ => none
  | n + 1, i => if pool i = 0 then some i else first_free_slot pool n (i + 1)

/-- The function `generate_unique_port`; `MIN_PORT` and `TOTAL_PORTS` are the
macros of `sr_nat.h`.  The loop `for (i = MIN_PORT; i <= TOTAL_PORTS; i++)`
runs `TOTAL_PORTS + 1 - MIN_PORT` times at most. -/
def generate_unique_port (MIN_PORT TOTAL_PORTS : Nat) (nat : sr_nat) : Int × sr_nat :=
  match first_free_slot nat.available_ports (TOTAL_PORTS + 1 - MIN_PORT) MIN_PORT with
  | some i => ((i : Int), { nat with available_ports := pool_set nat.available_ports i 1 })
  | none => (-1, nat)

/-- The function `generate_unique_icmp_identifier`; `MIN_ICMP_IDENTIFIER` and
`TOTAL_ICMP_IDENTIFIERS` are the macros of `sr_nat.h`. -/
def generate_unique_icmp_identifier (MIN_ICMP_IDENTIFIER TOTAL_ICMP_IDENTIFIERS : Nat)
    (nat : sr_nat) : Int × sr_nat :=
  match first_free_slot nat.available_icmp_identifiers
      (TOTAL_ICMP_IDENTIFIERS + 1 - MIN_ICMP_IDENTIFIER) MIN_ICMP_IDENTIFIER with
  | some i =>
    ((i : Int),
      { nat with
        available_icmp_identifiers := pool_set nat.available_icmp_identifiers i 1 })
  | none => (-1, nat)

/-! ## Connections of one mapping -/

/-- The `while` loop of `sr_nat_lookup_tcp_con`. -/
def sr_nat_lookup_tcp_con_loop (nat : sr_nat) (ip_con : Nat) : Nat → Ptr → Option Ptr
  | 0, _ => none
  | fuel + 1, currConn =>
    if currConn = NULL then some NULL
    else if (nat.conn_mem currConn).ip = ip_con then some currConn
    else sr_nat_lookup_tcp_con_loop nat ip_con fuel (nat.conn_mem currConn).next

/-- The function `sr_nat_lookup_tcp_con`. -/
def sr_nat_lookup_tcp_con (fuel : Nat) (nat : sr_nat) (mapping : Ptr) (ip_con : Nat) :
    Option Ptr :=
  sr_nat_lookup_tcp_con_loop nat ip_con fuel (nat.mapping_mem mapping).conns

/-- The function `sr_nat_insert_tcp_con`; `newConn` is the address returned by
`malloc` and `now` the value of `time(NULL)`. -/
def sr_nat_insert_tcp_con (nat : sr_nat) (mapping : Ptr) (ip_con : Nat) (now : Int)
    (newConn : Ptr) : Option (Ptr × sr_nat) :=
  if newConn = NULL then none
  else
    let currConn := (nat.mapping_mem mapping).conns
    some (newConn,
      set_mapping_conns
        { nat with
          conn_live := fun a => if a = newConn then true else nat.conn_live a
          conn_mem := fun a =>
            if a = newConn then
              { ip := ip_con, tcp_state := CLOSED, last_updated := now, next := currConn }
            else nat.conn_mem a }
        mapping newConn)

/-- The search loop shared by `destroy_tcp_conn` and `destroy_nat_mapping`:
`for (; prev->next != NULL && prev->next != target; prev = prev->next) {}`.
The result is the final value of `prev`. -/
def find_prev (next : Ptr → Ptr) (target : Ptr) : Nat → Ptr → Option Ptr
  | 0, _ => none
  | fuel + 1, prev =>
    if next prev ≠ NULL ∧ next prev ≠ target then find_prev next target fuel (next prev)
    else some prev

/-- The function `destroy_tcp_conn`. -/
def destroy_tcp_conn (fuel : Nat) (nat : sr_nat) (mapping conn : Ptr) : Option sr_nat :=
  let prevConn := (nat.mapping_mem mapping).conns
  if prevConn ≠ NULL then
    if prevConn = conn then
      some (free_conn (set_mapping_conns nat mapping (nat.conn_mem conn).next) conn)
    else
      match find_prev (fun c => (nat.conn_mem c).next) conn fuel prevConn with
      | none => none
      | some prevConn =>
        if prevConn = NULL then some nat
        else some (free_conn (set_conn_next nat prevConn (nat.conn_mem conn).next) conn)
  else some nat

/-- The `while` loop of `check_tcp_conns`.  `F` is the fuel handed to each call
of `destroy_tcp_conn`, `curtime` the value of `time(NULL)`. -/
def check_tcp_conns_loop (F : Nat) (curtime : Int) (nat_mapping : Ptr) :
    Nat → sr_nat → Ptr → Option sr_nat
  | 0, _, _ => none
  | fuel + 1, nat, currConn =>
    if currConn = NULL then some nat
    else
      let nextConn := (nat.conn_mem currConn).next
      if (nat.conn_mem currConn).tcp_state = ESTABLISHED then
        if difftime curtime (nat.conn_mem currConn).last_updated > nat.tcp_estb_timeout then
          match destroy_tcp_conn F nat nat_mapping currConn with
          | none => none
          | some nat1 => check_tcp_conns_loop F curtime nat_mapping fuel nat1 nextConn
        else check_tcp_conns_loop F curtime nat_mapping fuel nat nextConn
      else
        if difftime curtime (nat.conn_mem currConn).last_updated > nat.tcp_trns_timeout then
          match destroy_tcp_conn F nat nat_mapping currConn with
          | none => none
          | some nat1 => check_tcp_conns_loop F curtime nat_mapping fuel nat1 nextConn
        else check_tcp_conns_loop F curtime nat_mapping fuel nat nextConn

/-- The function `check_tcp_conns`. -/
def check_tcp_conns (fuel : Nat) (curtime : Int) (nat : sr_nat) (nat_mapping : Ptr) :
    Option sr_nat :=
  check_tcp_conns_loop fuel curtime nat_mapping fuel nat (nat.mapping_mem nat_mapping).conns

/-! ## Removing a mapping -/

/-- The `while` loop at the end of `destroy_nat_mapping` that frees the
connection records of the mapping. -/
def free_conns_loop : Nat → sr_nat → Ptr → Option sr_nat
  | 0, _, _ => none
  | fuel + 1, nat, currConn =>
    if currConn = NULL then some nat
    else
      let nextConn := (nat.conn_mem currConn).next
      free_conns_loop fuel (free_conn nat currConn) nextConn

/-- The release of the slot in `destroy_nat_mapping`: the entry `aux_ext` of the
pool of the type of the mapping is written `0`. -/
def release_slot (nat : sr_nat) (nat_mapping : Ptr) : sr_nat :=
  if (nat.mapping_mem nat_mapping).type = nat_mapping_icmp then
    { nat with
      available_icmp_identifiers :=
        pool_set nat.available_icmp_identifiers (nat.mapping_mem nat_mapping).aux_ext 0 }
  else if (nat.mapping_mem nat_mapping).type = nat_mapping_tcp then
    { nat with
      available_ports :=
        pool_set nat.available_ports (nat.mapping_mem nat_mapping).aux_ext 0 }
  else nat

/-- The second half of `destroy_nat_mapping`, after the unlink: the slot of the
mapping is released, the connection records are freed and then the mapping. -/
def release_mapping (fuel : Nat) (nat : sr_nat) (nat_mapping : Ptr) : Option sr_nat :=
  match free_conns_loop fuel (release_slot nat nat_mapping)
      (nat.mapping_mem nat_mapping).conns with
  | none => none
  | some nat2 => some (free_mapping nat2 nat_mapping)

/-- The function `destroy_nat_mapping`. -/
def destroy_nat_mapping (fuel : Nat) (nat : sr_nat) (nat_mapping : Ptr) : Option sr_nat :=
  let prevMapping := nat.mappings
  if prevMapping ≠ NULL then
    if prevMapping = nat_mapping then
      release_mapping fuel { nat with mappings := (nat.mapping_mem nat_mapping).next }
        nat_mapping
    else
      match find_prev (fun p => (nat.mapping_mem p).next) nat_mapping fuel prevMapping with
      | none => none
      | some prevMapping =>
        if prevMapping = NULL then some nat
        else
          release_mapping fuel
            (set_mapping_next nat prevMapping (nat.mapping_mem nat_mapping).next) nat_mapping
  else some nat

/-! ## The reaper -/

/-- The inner `while` loop of `sr_nat_timeout`, one pass over the table.  `F` is
the fuel handed to the calls of `check_tcp_conns` and `destroy_nat_mapping`;
`curtime` is the value of `time(NULL)` read by `sr_nat_timeout` at the start of
the pass.  `check_tcp_conns` reads the clock itself: `clock i` is the value of
`time(NULL)` inside the call of `check_tcp_conns` made in round `i` of the
loop, the rounds being counted from `0`.  The test `difftime(...) > 0.5` on a
whole number of seconds is `2 * difftime(...) > 1`. -/
def sr_nat_timeout_loop (F : Nat) (curtime : Int) (clock : Nat → Int) :
    Nat → Nat → sr_nat → Ptr → Option sr_nat
  | 0, _, _, _ => none
  | fuel + 1, i, nat, currMapping =>
    if currMapping = NULL then some nat
    else
      let nextMapping := (nat.mapping_mem currMapping).next
      if (nat.mapping_mem currMapping).type = nat_mapping_icmp then
        if difftime curtime (nat.mapping_mem currMapping).last_updated
            > nat.icmp_query_timeout then
          match destroy_nat_mapping F nat currMapping with
          | none => none
          | some nat1 => sr_nat_timeout_loop F curtime clock fuel (i + 1) nat1 nextMapping
        else sr_nat_timeout_loop F curtime clock fuel (i + 1) nat nextMapping
      else if (nat.mapping_mem currMapping).type = nat_mapping_tcp then
        match check_tcp_conns F (clock i) nat currMapping with
        | none => none
        | some nat1 =>
          if (nat1.mapping_mem currMapping).conns = NULL
              ∧ 2 * difftime curtime (nat1.mapping_mem currMapping).last_updated > 1 then
            match destroy_nat_mapping F nat1 currMapping with
            | none => none
            | some nat2 => sr_nat_timeout_loop F curtime clock fuel (i + 1) nat2 nextMapping
          else sr_nat_timeout_loop F curtime clock fuel (i + 1) nat1 nextMapping
      else sr_nat_timeout_loop F curtime clock fuel (i + 1) nat nextMapping

/-- One pass of the reaper: the body of the outer `while (1)` of
`sr_nat_timeout` between taking and releasing the lock.  `curtime` is the
clock read of the pass and `clock` gives the clock reads of the calls of
`check_tcp_conns`, round by round. -/
def sr_nat_timeout_pass (fuel : Nat) (curtime : Int) (clock : Nat → Int) (nat : sr_nat) :
    Option sr_nat :=
  sr_nat_timeout_loop fuel curtime clock fuel 0 nat nat.mappings

/-! ## Reading the heap as lists -/

/-- `Seg next p q l`: following `next` from `p` passes through the blocks `l`,
none of them `NULL`, in this order, and arrives at `q`. -/
def Seg (next : Ptr → Ptr) : Ptr → Ptr → List Ptr → Prop
  | p, q, [] => p = q
  | p, q, a :: l => p = a ∧ a ≠ NULL ∧ Seg next (next a) q l

/-- The `next` link of mapping blocks. -/
def mnext (nat : sr_nat) : Ptr → Ptr := fun p => (nat.mapping_mem p).next

/-- The `next` link of connection blocks. -/
def cnext (nat : sr_nat) : Ptr → Ptr := fun c => (nat.conn_mem c).next

/-- The mapping list of `nat` is the `NULL`-terminated chain of the blocks `l`
(head first). -/
def IsTable (nat : sr_nat) (l : List Ptr) : Prop :=
  Seg (mnext nat) nat.mappings NULL l

/-- The connection list of the mapping at `m` is the `NULL`-terminated chain of
the blocks `cs`. -/
def IsConns (nat : sr_nat) (m : Ptr) (cs : List Ptr) : Prop :=
  Seg (cnext nat) (nat.mapping_mem m).conns NULL cs

/-- The mapping at `q` is held in the table. -/
def InTable (nat : sr_nat) (q : Ptr) : Prop :=
  ∃ l, IsTable nat l ∧ q ∈ l

/-- The fields of a mapping apart from its list link. -/
def same_fields (a b : sr_nat_mapping) : Prop :=
  a.type = b.type ∧ a.ip_int = b.ip_int ∧ a.aux_int = b.aux_int ∧ a.aux_ext = b.aux_ext
    ∧ a.last_updated = b.last_updated ∧ a.conns = b.conns

/-- The test of `sr_nat_lookup_internal` on the block at `p`. -/
def matches_internal (nat : sr_nat) (ip_int aux_int : Nat) (type : sr_nat_mapping_type)
    (p : Ptr) : Bool :=
  decide ((nat.mapping_mem p).type = type ∧ (nat.mapping_mem p).aux_int = aux_int
    ∧ (nat.mapping_mem p).ip_int = ip_int)

/-- The test of `sr_nat_lookup_external` on the block at `p`. -/
def matches_external (nat : sr_nat) (aux_ext : Nat) (type : sr_nat_mapping_type)
    (p : Ptr) : Bool :=
  decide ((nat.mapping_mem p).type = type ∧ (nat.mapping_mem p).aux_ext = aux_ext)

/-- States reached from a first state by further calls of
`sr_nat_insert_mapping` whose new mapping satisfies `allowed`, and by calls of
`destroy_nat_mapping` on mappings held in the table other than `m`.  The
inserts get a block that is not live from `malloc`. -/
inductive Later (m : Ptr) (allowed : sr_nat_mapping → Prop) : sr_nat → sr_nat → Prop where
  | start (a : sr_nat) : Later m allowed a a
  | insert {a b c : sr_nat} (ip_int aux_int : Nat) (type : sr_nat_mapping_type) (now : Int)
      (newMapping r : Ptr) :
      Later m allowed a b → b.mapping_live newMapping = false →
      sr_nat_insert_mapping b ip_int aux_int type now newMapping = some (r, c) →
      allowed (c.mapping_mem r) → Later m allowed a c
  | remove {a b c : sr_nat} (fuel : Nat) (q : Ptr) :
      Later m allowed a b → q ≠ m → InTable b q →
      destroy_nat_mapping fuel b q = some c → Later m allowed a c

/-- The state after the unlink step of `destroy_nat_mapping` for a mapping `q`
whose predecessors in the table are `pre`: the head pointer moves when `q` is
the head, the `next` link of the last block of `pre` is rewritten otherwise. -/
def unlinked (nat : sr_nat) (pre : List Ptr) (q : Ptr) : sr_nat :=
  match pre.getLast? with
  | none => { nat with mappings := (nat.mapping_mem q).next }
  | some b => set_mapping_next nat b (nat.mapping_mem q).next

/-- The state after the release step of `destroy_nat_mapping` for a mapping `m`
with connection records `cs`: the slot `aux_ext` of the pool of its type is
written `0`, the records `cs` and the block `m` are freed. -/
def released (nat : sr_nat) (m : Ptr) (cs : List Ptr) : sr_nat :=
  { nat with
    available_icmp_identifiers :=
      if (nat.mapping_mem m).type = nat_mapping_icmp then
        pool_set nat.available_icmp_identifiers (nat.mapping_mem m).aux_ext 0
      else nat.available_icmp_identifiers
    available_ports :=
      if (nat.mapping_mem m).type = nat_mapping_tcp then
        pool_set nat.available_ports (nat.mapping_mem m).aux_ext 0
      else nat.available_ports
    conn_live := fun c => if c ∈ cs then false else nat.conn_live c
    mapping_live := fun a => if a = m then false else nat.mapping_live a }

/-- Whether `Seg` holds can be computed. -/
instance Seg_decidable (next : Ptr → Ptr) : (p q : Ptr) → (l : List Ptr) →
    Decidable (Seg next p q l)
  | p, q, [] => inferInstanceAs (Decidable (p = q))
  | p, q, a :: l =>
    have := Seg_decidable next (next a) q l
    inferInstanceAs (Decidable (p = a ∧ a ≠ NULL ∧ Seg next (next a) q l))

instance IsTable_decidable (nat : sr_nat) (l : List Ptr) : Decidable (IsTable nat l) :=
  Seg_decidable _ _ _ _

instance IsConns_decidable (nat : sr_nat) (m : Ptr) (cs : List Ptr) :
    Decidable (IsConns nat m cs) :=
  Seg_decidable _ _ _ _

instance same_fields_decidable (a b : sr_nat_mapping) : Decidable (same_fields a b) :=
  inferInstanceAs (Decidable (_ ∧ _))

/-- A state with an empty table, all pool entries `0` and every block zeroed
and not live; the timeouts are those of the router's defaults. -/
def empty_nat : sr_nat :=
  { mappings := NULL
    mapping_mem := fun _ => default
    mapping_live := fun _ => false
    conn_mem := fun _ => default
    conn_live := fun _ => false
    available_ports := fun _ => 0
    available_icmp_identifiers := fun _ => 0
    icmp_query_timeout := 60
    tcp_estb_timeout := 7440
    tcp_trns_timeout := 300 }

/-- The state after a call of `sr_nat_insert_mapping` (the state itself when
the call aborts). -/
def state_after_insert (nat : sr_nat) (ip_int aux_int : Nat) (type : sr_nat_mapping_type)
    (now : Int) (newMapping : Ptr) : sr_nat :=
  match sr_nat_insert_mapping nat ip_int aux_int type now newMapping with
  | some (_, nat1) => nat1
  | none => nat

/-- The state after a call of `destroy_nat_mapping` (the state itself when the
fuel runs out). -/
def state_after_destroy (fuel : Nat) (nat : sr_nat) (nat_mapping : Ptr) : sr_nat :=
  match destroy_nat_mapping fuel nat nat_mapping with
  | some nat1 => nat1
  | none => nat

/-- Example state: `empty_nat` after the insert of the ICMP tuple `(10, 20)` at
time `100` into the block at address `1`. -/
def example_nat1 : sr_nat := state_after_insert empty_nat 10 20 nat_mapping_icmp 100 1

/-- Example state: `example_nat1` after the insert of the ICMP tuple `(11, 21)`
into the block at address `2`. -/
def example_nat2 : sr_nat := state_after_insert example_nat1 11 21 nat_mapping_icmp 100 2

/-- Example state: `example_nat2` after the insert of the TCP tuple `(12, 22)`
into the block at address `3`. -/
def example_nat3 : sr_nat := state_after_insert example_nat2 12 22 nat_mapping_tcp 100 3

/-- Example state: `example_nat3` after `destroy_nat_mapping` on the block at
address `2`. -/
def example_nat4 : sr_nat := state_after_destroy 5 example_nat3 2

/-- Example state: `example_nat1` after the insert of the TCP tuple `(12, 22)`
into the block at address `3`. -/
def example_nat5 : sr_nat := state_after_insert example_nat1 12 22 nat_mapping_tcp 100 3

/-- Example state: `example_nat5` after the insert of the TCP tuple `(13, 23)`
into the block at address `4`. -/
def example_nat6 : sr_nat := state_after_insert example_nat5 13 23 nat_mapping_tcp 100 4

/-- Example state: `example_nat6` after `destroy_nat_mapping` on the block at
address `3`. -/
def example_nat7 : sr_nat := state_after_destroy 5 example_nat6 3

/-- What an allocator call is specified to do to its pool: `ret` is the
smallest slot of `[lo, hi]` whose entry is `0`, that entry becomes `1` and
every other entry stays; or no entry of `[lo, hi]` is `0`, `ret` is `-1` and
the pool stays.  The last line is the "if and only if" of the `-1` result. -/
def AllocatesFirstFree (lo hi : Nat) (pool : Nat → Nat) (ret : Int) (pool2 : Nat → Nat) :
    Prop :=
  ((∃ i, lo ≤ i ∧ i ≤ hi ∧ pool i = 0 ∧ (∀ j, lo ≤ j → j < i → pool j ≠ 0)
        ∧ ret = (i : Int) ∧ pool2 i = 1 ∧ ∀ j, j ≠ i → pool2 j = pool j)
      ∨ ((∀ j, lo ≤ j → j ≤ hi → pool j ≠ 0) ∧ ret = -1 ∧ pool2 = pool))
    ∧ (ret = -1 ↔ ∀ j, lo ≤ j → j ≤ hi → pool j ≠ 0)

/-- Example state: an empty table over blocks whose stale content has
`aux_ext = 1024`; all pool entries are `0`. -/
def stale_nat : sr_nat :=
  { empty_nat with mapping_mem := fun _ => { (default : sr_nat_mapping) with aux_ext := 1024 } }

/-- Example state: `stale_nat` after the insert of the TCP tuple `(12, 22)` into
the block at address `1`. -/
def stale_nat1 : sr_nat := state_after_insert stale_nat 12 22 nat_mapping_tcp 100 1

/-- Example state: an empty table with every entry of both pools in use. -/
def full_nat : sr_nat :=
  { empty_nat with
    available_ports := fun _ => 1
    available_icmp_identifiers := fun _ => 1 }

/-- Example state: `full_nat` after the insert of the ICMP tuple `(10, 20)` into
the block at address `1`. -/
def full_nat1 : sr_nat := state_after_insert full_nat 10 20 nat_mapping_icmp 100 1

/-- The state after a call of `sr_nat_insert_tcp_con` (the state itself when
the call aborts). -/
def state_after_insert_tcp_con (nat : sr_nat) (mapping : Ptr) (ip_con : Nat) (now : Int)
    (newConn : Ptr) : sr_nat :=
  match sr_nat_insert_tcp_con nat mapping ip_con now newConn with
  | some (_, nat1) => nat1
  | none => nat

/-- Example state: `example_nat3` after a connection record for the peer `99` is
added to the TCP mapping at address `3`, in the connection block at address
`7`. -/
def example_nat8 : sr_nat := state_after_insert_tcp_con example_nat3 3 99 100 7

/-- Example state: the table holds the ICMP mappings at the addresses `2` and
`1`, in this order, with the identifiers `6` and `5`, both marked used. -/
def twice_nat : sr_nat :=
  { empty_nat with
    mappings := 2
    mapping_mem := fun a =>
      if a = 1 then
        { type := nat_mapping_icmp, ip_int := 10, aux_int := 20, aux_ext := 5,
          last_updated := 100, conns := NULL, next := NULL }
      else if a = 2 then
        { type := nat_mapping_icmp, ip_int := 11, aux_int := 21, aux_ext := 6,
          last_updated := 100, conns := NULL, next := 1 }
      else default
    mapping_live := fun a => decide (a = 1 ∨ a = 2)
    available_icmp_identifiers := fun i => if i = 5 ∨ i = 6 then 1 else 0 }

/-- Example state: `twice_nat` after `destroy_nat_mapping` on the mapping at
address `2`. -/
def once_nat : sr_nat := state_after_destroy 5 twice_nat 2

/-- Example state: `once_nat` after `generate_unique_icmp_identifier` over the
range `[5, 6]`, which hands out the identifier `6` again. -/
def realloc_nat : sr_nat := (generate_unique_icmp_identifier 5 6 once_nat).2

/-- Example state: `realloc_nat` after a second `destroy_nat_mapping` on the
block at address `2`, which left the table in `once_nat`. -/
def again_nat : sr_nat := state_after_destroy 5 realloc_nat 2

/-- The state after the unlink step of `destroy_tcp_conn` for a record `c` of
the mapping `m` whose predecessors in the connection list are `pre`: `m->conns`
moves when `c` is the head, the `next` link of the last record of `pre` is
rewritten otherwise. -/
def conn_unlinked (nat : sr_nat) (m : Ptr) (pre : List Ptr) (c : Ptr) : sr_nat :=
  match pre.getLast? with
  | none => set_mapping_conns nat m (nat.conn_mem c).next
  | some b => set_conn_next nat b (nat.conn_mem c).next

/-- The expiry rule of `check_tcp_conns` for the connection record at `c`. -/
def conn_expired (nat : sr_nat) (curtime : Int) (c : Ptr) : Bool :=
  if (nat.conn_mem c).tcp_state = ESTABLISHED then
    decide (difftime curtime (nat.conn_mem c).last_updated > nat.tcp_estb_timeout)
  else
    decide (difftime curtime (nat.conn_mem c).last_updated > nat.tcp_trns_timeout)

/-- The connection records of a list that `check_tcp_conns` keeps. -/
def conns_kept (nat : sr_nat) (curtime : Int) (cs : List Ptr) : List Ptr :=
  cs.filter (fun c => !conn_expired nat curtime c)

/-- The clock read of the sweep of the mapping at `p` in a pass over the table
`l`: the pass visits the mappings in table order, one per round, so the
mapping at position `k` is swept at `clock k`. -/
def sweep_clock (clock : Nat → Int) (l : List Ptr) (p : Ptr) : Int :=
  clock (l.indexOf p)

/-- The expiry rule of `sr_nat_timeout` for the mapping at `p`, whose connection
records are `cs p`, at the clock read `curtime` of the pass: an ICMP mapping
expires when it is idle for more than `icmp_query_timeout`; a TCP mapping
expires when `check_tcp_conns`, which runs at its own clock read `tm p`, keeps
none of its records and the mapping is idle for more than half a second. -/
def mapping_expired (nat : sr_nat) (curtime : Int) (tm : Ptr → Int) (cs : Ptr → List Ptr)
    (p : Ptr) : Bool :=
  if (nat.mapping_mem p).type = nat_mapping_icmp then
    decide (difftime curtime (nat.mapping_mem p).last_updated > nat.icmp_query_timeout)
  else if (nat.mapping_mem p).type = nat_mapping_tcp then
    decide (conns_kept nat (tm p) (cs p) = []
      ∧ 2 * difftime curtime (nat.mapping_mem p).last_updated > 1)
  else false

/-- The connection records of the mapping at `p` after a reaper pass whose
sweep of `p` reads the clock as `tm p`. -/
def conns_after_pass (nat : sr_nat) (tm : Ptr → Int) (cs : Ptr → List Ptr) (p : Ptr) :
    List Ptr :=
  if (nat.mapping_mem p).type = nat_mapping_tcp then conns_kept nat (tm p) (cs p) else cs p

/-- A well-formed heap: the table is the chain `l`, the connection list of each
held mapping `p` is the chain `cs p`, and two held mappings share no
connection record. -/
structure WellFormed (nat : sr_nat) (l : List Ptr) (cs : Ptr → List Ptr) : Prop where
  table : IsTable nat l
  conns : ∀ p ∈ l, IsConns nat p (cs p)
  disjoint : ∀ p ∈ l, ∀ q ∈ l, p ≠ q → ∀ c ∈ cs p, c ∉ cs q

/-- The fields of a mapping that the reaper reads and never writes. -/
def same_static (x y : sr_nat_mapping) : Prop :=
  x.type = y.type ∧ x.ip_int = y.ip_int ∧ x.aux_int = y.aux_int ∧ x.aux_ext = y.aux_ext
    ∧ x.last_updated = y.last_updated

/-- The fields of a connection record that the reaper reads and never writes. -/
def same_conn_static (x y : sr_nat_connection) : Prop :=
  x.ip = y.ip ∧ x.tcp_state = y.tcp_state ∧ x.last_updated = y.last_updated

/-- The data that the reaper reads and never writes is the same in `a` and `b`:
the fields of the mapping blocks apart from `conns` and `next`, the fields of
the connection blocks apart from `next`, and the three timeouts. -/
def Static (a b : sr_nat) : Prop :=
  (∀ p, same_static (b.mapping_mem p) (a.mapping_mem p))
    ∧ (∀ c, same_conn_static (b.conn_mem c) (a.conn_mem c))
    ∧ b.icmp_query_timeout = a.icmp_query_timeout
    ∧ b.tcp_estb_timeout = a.tcp_estb_timeout
    ∧ b.tcp_trns_timeout = a.tcp_trns_timeout

/-- The reaper pass removes the TCP mapping at `q`, which holds the port `i`. -/
def frees_port (nat : sr_nat) (curtime : Int) (tm : Ptr → Int) (cs : Ptr → List Ptr)
    (q : Ptr) (i : Nat) : Prop :=
  mapping_expired nat curtime tm cs q = true ∧ (nat.mapping_mem q).type = nat_mapping_tcp
    ∧ (nat.mapping_mem q).aux_ext = i

/-- The reaper pass removes the ICMP mapping at `q`, which holds the
identifier `i`. -/
def frees_icmp_identifier (nat : sr_nat) (curtime : Int) (tm : Ptr → Int)
    (cs : Ptr → List Ptr) (q : Ptr) (i : Nat) : Prop :=
  mapping_expired nat curtime tm cs q = true ∧ (nat.mapping_mem q).type = nat_mapping_icmp
    ∧ (nat.mapping_mem q).aux_ext = i

/-- What a reaper pass over the mappings `rest` does to the liveness of the
mapping blocks and to the two pools, from the state `base` to the state `nat1`;
the expiry rule is evaluated in `nat`.  The block of each expired mapping is
freed and no other; the pool entry of each expired mapping is written `0` and
no other entry changes. -/
def PassFrame (base nat : sr_nat) (curtime : Int) (tm : Ptr → Int) (cs : Ptr → List Ptr)
    (rest : List Ptr) (nat1 : sr_nat) : Prop :=
  (∀ q, q ∈ rest → mapping_expired nat curtime tm cs q = true → nat1.mapping_live q = false)
    ∧ (∀ q, ¬ (q ∈ rest ∧ mapping_expired nat curtime tm cs q = true) →
        nat1.mapping_live q = base.mapping_live q)
    ∧ (∀ i, (∃ q ∈ rest, frees_port nat curtime tm cs q i) → nat1.available_ports i = 0)
    ∧ (∀ i, (¬ ∃ q ∈ rest, frees_port nat curtime tm cs q i) →
        nat1.available_ports i = base.available_ports i)
    ∧ (∀ i, (∃ q ∈ rest, frees_icmp_identifier nat curtime tm cs q i) →
        nat1.available_icmp_identifiers i = 0)
    ∧ (∀ i, (¬ ∃ q ∈ rest, frees_icmp_identifier nat curtime tm cs q i) →
        nat1.available_icmp_identifiers i = base.available_icmp_identifiers i)

/-- The state after a reaper pass (the state itself when the fuel runs out). -/
def state_after_pass (fuel : Nat) (curtime : Int) (clock : Nat → Int) (nat : sr_nat) :
    sr_nat :=
  match sr_nat_timeout_pass fuel curtime clock nat with
  | some nat1 => nat1
  | none => nat

/-- The removal rule of the connection sweep in the words of the
specification: the record is `ESTABLISHED` and idle for more than
`tcp_estb_timeout`, or it is not `ESTABLISHED` and idle for more than
`tcp_trns_timeout`. -/
def sweep_rule (nat : sr_nat) (curtime : Int) (c : Ptr) : Prop :=
  ((nat.conn_mem c).tcp_state = ESTABLISHED
      ∧ curtime - (nat.conn_mem c).last_updated > nat.tcp_estb_timeout)
    ∨ ((nat.conn_mem c).tcp_state ≠ ESTABLISHED
      ∧ curtime - (nat.conn_mem c).last_updated > nat.tcp_trns_timeout)

/-- The pointer `r` is what a first-match scan of the chain `l` returns for the
test `f`: the first block of `l` that passes `f`, or `NULL` when no block of
`l` passes. -/
def FirstMatch (f : Ptr → Bool) (l : List Ptr) (r : Ptr) : Prop :=
  (∃ pre post, l = pre ++ r :: post ∧ f r = true ∧ ∀ a ∈ pre, f a = false)
    ∨ (r = NULL ∧ ∀ a ∈ l, f a = false)

/-- The state after a call of `destroy_tcp_conn` (the state itself when the
fuel runs out). -/
def state_after_destroy_tcp_conn (fuel : Nat) (nat : sr_nat) (mapping conn : Ptr) : sr_nat :=
  match destroy_tcp_conn fuel nat mapping conn with
  | some nat1 => nat1
  | none => nat

/-- Example state: `example_nat8` after a record for the peer `98` is added to
the TCP mapping at address `3`, in the connection block at address `8`; the
connection list is then `8`, `7`. -/
def conn2_nat : sr_nat := state_after_insert_tcp_con example_nat8 3 98 100 8

/-- Example state: `conn2_nat` after `destroy_tcp_conn` on the record at
address `8`; the connection list is then `7` alone. -/
def conn1_nat : sr_nat := state_after_destroy_tcp_conn 5 conn2_nat 3 8

/-- Example state: `conn1_nat` after a second `destroy_tcp_conn` on the block at
address `8`, which is no longer in the connection list. -/
def conn_again_nat : sr_nat := state_after_destroy_tcp_conn 5 conn1_nat 3 8

/-- Example state: the table holds the ICMP mappings at the addresses `2` and
`1`, in this order, both with the identifier `5`, which is marked used; the
first was last updated at time `0`, the second at time `100`. -/
def shared_nat : sr_nat :=
  { empty_nat with
    mappings := 2
    mapping_mem := fun a =>
      if a = 1 then
        { type := nat_mapping_icmp, ip_int := 10, aux_int := 20, aux_ext := 5,
          last_updated := 100, conns := NULL, next := NULL }
      else if a = 2 then
        { type := nat_mapping_icmp, ip_int := 11, aux_int := 21, aux_ext := 5,
          last_updated := 0, conns := NULL, next := 1 }
      else default
    mapping_live := fun a => decide (a = 1 ∨ a = 2)
    available_icmp_identifiers := fun i => if i = 5 then 1 else 0 }

/-- Example state: `shared_nat` after a reaper pass at time `100`. -/
def shared_nat1 : sr_nat := state_after_pass 5 100 (fun _ => 100) shared_nat

theorem Seg_congr {next next2 : Ptr → Ptr} {l : List Ptr} :
    ∀ {p q : Ptr}, (∀ a ∈ l, next a = next2 a) → Seg next p q l → Seg next2 p q l := by
  induction l with
  | nil => intro p q _ h; exact h
  | cons a l ih =>
    intro p q hag h
    obtain ⟨h1, h2, h3⟩ := h
    refine ⟨h1, h2, ?_⟩
    rw [← hag a (List.mem_cons_self a l)]
    exact ih (fun b hb => hag b (List.mem_cons_of_mem a hb)) h3

theorem Seg_append {next : Ptr → Ptr} {l1 l2 : List Ptr} :
    ∀ {p r : Ptr}, Seg next p r (l1 ++ l2) ↔ ∃ q, Seg next p q l1 ∧ Seg next q r l2 := by
  induction l1 with
  | nil =>
    intro p r
    constructor
    · intro h; exact ⟨p, rfl, h⟩
    · rintro ⟨q, h1, h2⟩
      have : p = q := h1
      subst this; exact h2
  | cons a l1 ih =>
    intro p r
    constructor
    · rintro ⟨h1, h2, h3⟩
      obtain ⟨q, h4, h5⟩ := ih.mp h3
      exact ⟨q, ⟨h1, h2, h4⟩, h5⟩
    · rintro ⟨q, ⟨h1, h2, h4⟩, h5⟩
      exact ⟨h1, h2, ih.mpr ⟨q, h4, h5⟩⟩

theorem Seg_ne_null {next : Ptr → Ptr} {l : List Ptr} :
    ∀ {p q : Ptr}, Seg next p q l → ∀ a ∈ l, a ≠ NULL := by
  induction l with
  | nil => intro p q _ a ha; cases ha
  | cons b l ih =>
    intro p q h a ha
    obtain ⟨_, h2, h3⟩ := h
    rcases List.mem_cons.mp ha with rfl | ha
    · exact h2
    · exact ih h3 a ha

theorem Seg_null_unique {next : Ptr → Ptr} {l1 : List Ptr} :
    ∀ {l2 : List Ptr} {p : Ptr}, Seg next p NULL l1 → Seg next p NULL l2 → l1 = l2 := by
  induction l1 with
  | nil =>
    intro l2 p h1 h2
    have hp : p = NULL := h1
    cases l2 with
    | nil => rfl
    | cons b l2 =>
      obtain ⟨h3, h4, _⟩ := h2
      exact absurd (h3.symm.trans hp) h4
  | cons a l1 ih =>
    intro l2 p h1 h2
    obtain ⟨h3, h4, h5⟩ := h1
    cases l2 with
    | nil =>
      have hp : p = NULL := h2
      exact absurd (h3.symm.trans hp) h4
    | cons b l2 =>
      obtain ⟨h6, _, h8⟩ := h2
      have hab : a = b := h3.symm.trans h6
      subst hab
      rw [ih h5 h8]

theorem Seg_null_not_mem {next : Ptr → Ptr} {a : Ptr} {l : List Ptr}
    (h : Seg next a NULL (a :: l)) : a ∉ l := by
  intro ha
  obtain ⟨l1, l2, rfl⟩ := List.append_of_mem ha
  obtain ⟨_, _, h3⟩ := h
  obtain ⟨q, _, h5⟩ := Seg_append.mp h3
  obtain ⟨_, _, h8⟩ := h5
  have := Seg_null_unique h3 h8
  have hlen := congrArg List.length this
  simp at hlen
  omega

theorem Seg_null_nodup {next : Ptr → Ptr} {l : List Ptr} :
    ∀ {p : Ptr}, Seg next p NULL l → l.Nodup := by
  induction l with
  | nil => intro p _; exact List.nodup_nil
  | cons a l ih =>
    intro p h
    have hp : p = a := h.1
    subst hp
    exact List.nodup_cons.mpr ⟨Seg_null_not_mem h, ih h.2.2⟩

theorem Seg_next_mem {next : Ptr → Ptr} {l : List Ptr} :
    ∀ {p q : Ptr}, Seg next p q l → ∀ a ∈ l, next a ∈ l ∨ next a = q := by
  induction l with
  | nil => intro p q _ a ha; cases ha
  | cons b l ih =>
    intro p q h a ha
    obtain ⟨_, _, h3⟩ := h
    rcases List.mem_cons.mp ha with rfl | ha
    · cases l with
      | nil => right; exact h3
      | cons c l => left; rw [h3.1]; simp
    · rcases ih h3 a ha with h | h
      · left; exact List.mem_cons_of_mem b h
      · right; exact h

/-! ## Lookups on a well-formed table -/

theorem lookup_internal_loop_spec (nat : sr_nat) (ip_int aux_int : Nat)
    (type : sr_nat_mapping_type) (l : List Ptr) :
    ∀ (p : Ptr) (fuel : Nat), Seg (mnext nat) p NULL l → l.length < fuel →
      sr_nat_lookup_internal_loop nat ip_int aux_int type fuel p
        = some ((l.find? (matches_internal nat ip_int aux_int type)).getD NULL) := by
  induction l with
  | nil =>
    intro p fuel h hf
    have hp : p = NULL := h
    subst hp
    cases fuel with
    | zero => simp at hf
    | succ n => simp [sr_nat_lookup_internal_loop]
  | cons a l ih =>
    intro p fuel h hf
    obtain ⟨h1, h2, h3⟩ := h
    subst h1
    cases fuel with
    | zero => simp at hf
    | succ n =>
      have hn : l.length < n := by simpa using hf
      by_cases hm : (nat.mapping_mem p).type = type ∧ (nat.mapping_mem p).aux_int = aux_int
          ∧ (nat.mapping_mem p).ip_int = ip_int
      · simp [sr_nat_lookup_internal_loop, h2, hm, List.find?, matches_internal]
      · have hm2 : matches_internal nat ip_int aux_int type p = false := by
          simp only [matches_internal, decide_eq_false_iff_not]; exact hm
        rw [sr_nat_lookup_internal_loop, if_neg h2, if_neg hm, List.find?, hm2]
        exact ih _ n h3 hn

theorem lookup_external_loop_spec (nat : sr_nat) (aux_ext : Nat)
    (type : sr_nat_mapping_type) (l : List Ptr) :
    ∀ (p : Ptr) (fuel : Nat), Seg (mnext nat) p NULL l → l.length < fuel →
      sr_nat_lookup_external_loop nat aux_ext type fuel p
        = some ((l.find? (matches_external nat aux_ext type)).getD NULL) := by
  induction l with
  | nil =>
    intro p fuel h hf
    have hp : p = NULL := h
    subst hp
    cases fuel with
    | zero => simp at hf
    | succ n => simp [sr_nat_lookup_external_loop]
  | cons a l ih =>
    intro p fuel h hf
    obtain ⟨h1, h2, h3⟩ := h
    subst h1
    cases fuel with
    | zero => simp at hf
    | succ n =>
      have hn : l.length < n := by simpa using hf
      by_cases hm : (nat.mapping_mem p).type = type ∧ (nat.mapping_mem p).aux_ext = aux_ext
      · simp [sr_nat_lookup_external_loop, h2, hm, List.find?, matches_external]
      · have hm2 : matches_external nat aux_ext type p = false := by
          simp only [matches_external, decide_eq_false_iff_not]; exact hm
        rw [sr_nat_lookup_external_loop, if_neg h2, if_neg hm, List.find?, hm2]
        exact ih _ n h3 hn

/-- A first match behind a prefix without matches is what `find?` returns. -/
theorem find_first_match (f : Ptr → Bool) (pre post : List Ptr) (m : Ptr)
    (hpre : ∀ a ∈ pre, f a = false) (hm : f m = true) :
    ((pre ++ m :: post).find? f).getD NULL = m := by
  induction pre with
  | nil => simp [List.find?, hm]
  | cons a pre ih =>
    have ha : f a = false := hpre a (List.mem_cons_self a pre)
    simp only [List.cons_append, List.find?, ha]
    exact ih (fun b hb => hpre b (List.mem_cons_of_mem a hb))

/-! ## The search loop of the two destroy functions -/

theorem find_prev_spec (next : Ptr → Ptr) (target b : Ptr) (pre : List Ptr) :
    ∀ (p : Ptr) (fuel : Nat), Seg next p b pre →
      (∀ a ∈ pre, next a ≠ NULL ∧ next a ≠ target) →
      (next b = NULL ∨ next b = target) → pre.length < fuel →
      find_prev next target fuel p = some b := by
  induction pre with
  | nil =>
    intro p fuel h _ hb hf
    have hp : p = b := h
    subst hp
    cases fuel with
    | zero => simp at hf
    | succ n =>
      rw [find_prev, if_neg]
      rintro ⟨h1, h2⟩
      rcases hb with hb | hb
      · exact h1 hb
      · exact h2 hb
  | cons a pre ih =>
    intro p fuel h hpre hb hf
    obtain ⟨h1, _, h3⟩ := h
    subst h1
    cases fuel with
    | zero => simp at hf
    | succ n =>
      have hn : pre.length < n := by simpa using hf
      rw [find_prev, if_pos (hpre p (List.mem_cons_self p pre))]
      exact ih _ n h3 (fun c hc => hpre c (List.mem_cons_of_mem p hc)) hb hn

theorem find_prev_mono (next : Ptr → Ptr) (target : Ptr) :
    ∀ (fuel : Nat) (p r : Ptr) (fuel2 : Nat), find_prev next target fuel p = some r →
      fuel ≤ fuel2 → find_prev next target fuel2 p = some r := by
  intro fuel
  induction fuel with
  | zero => intro p r fuel2 h _; simp [find_prev] at h
  | succ n ih =>
    intro p r fuel2 h hle
    cases fuel2 with
    | zero => omega
    | succ k =>
      have hk : n ≤ k := by omega
      rw [find_prev] at h ⊢
      by_cases hc : next p ≠ NULL ∧ next p ≠ target
      · rw [if_pos hc] at h ⊢
        exact ih _ r k h hk
      · rw [if_neg hc] at h ⊢
        exact h

/-- In a chain `pre ++ b :: t :: post` that ends in `NULL`, the search for `t`
started at the head stops at `b`. -/
theorem find_prev_present (next : Ptr → Ptr) (p b t : Ptr) (pre post : List Ptr)
    (fuel : Nat) (h : Seg next p NULL (pre ++ b :: t :: post)) (hf : pre.length < fuel) :
    find_prev next t fuel p = some b := by
  have hnd := Seg_null_nodup h
  have hnn := Seg_ne_null h
  obtain ⟨q, h1, h2⟩ := Seg_append.mp h
  obtain ⟨hq, _, h3⟩ := h2
  subst hq
  obtain ⟨h4, _, _⟩ := h3
  apply find_prev_spec next t q pre p fuel h1 _ (Or.inr h4) hf
  intro a ha
  have hmem : next a ∈ pre ++ q :: t :: post := by
    rcases Seg_next_mem h1 a ha with h5 | h5
    · exact List.mem_append_left _ h5
    · rw [h5]; simp
  refine ⟨hnn _ hmem, ?_⟩
  intro heq
  rcases Seg_next_mem h1 a ha with h5 | h5
  · rw [heq] at h5
    have := (List.nodup_append.mp hnd).2.2 h5 (by simp)
    exact this
  · rw [heq] at h5
    have h6 := (List.nodup_append.mp hnd).2.1
    rw [h5] at h6
    simp at h6

/-! ## Removing a mapping -/

theorem free_conns_loop_spec (cs : List Ptr) :
    ∀ (nat : sr_nat) (p : Ptr) (fuel : Nat), Seg (cnext nat) p NULL cs → cs.length < fuel →
      free_conns_loop fuel nat p
        = some { nat with conn_live := fun c => if c ∈ cs then false else nat.conn_live c } := by
  induction cs with
  | nil =>
    intro nat p fuel h hf
    have hp : p = NULL := h
    subst hp
    cases fuel with
    | zero => simp at hf
    | succ n => simp [free_conns_loop]
  | cons a cs ih =>
    intro nat p fuel h hf
    obtain ⟨h1, h2, h3⟩ := h
    subst h1
    cases fuel with
    | zero => simp at hf
    | succ n =>
      have hn : cs.length < n := by simpa using hf
      rw [free_conns_loop, if_neg h2]
      have h4 : Seg (cnext (free_conn nat p)) (nat.conn_mem p).next NULL cs := h3
      rw [ih (free_conn nat p) _ n h4 hn]
      simp only [free_conn, Option.some.injEq]
      congr 1
      funext c
      by_cases hc : c = p
      · simp [hc]
      · by_cases hc2 : c ∈ cs <;> simp [hc, hc2]

theorem free_conns_loop_frame :
    ∀ (fuel : Nat) (nat c : sr_nat) (p : Ptr), free_conns_loop fuel nat p = some c →
      c = { nat with conn_live := c.conn_live } := by
  intro fuel
  induction fuel with
  | zero => intro nat c p h; simp [free_conns_loop] at h
  | succ n ih =>
    intro nat c p h
    rw [free_conns_loop] at h
    by_cases hp : p = NULL
    · rw [if_pos hp] at h
      cases h; rfl
    · rw [if_neg hp] at h
      have := ih _ _ _ h
      rw [this]
      simp [free_conn]

theorem release_slot_frame (nat : sr_nat) (m : Ptr) :
    (release_slot nat m).mappings = nat.mappings
      ∧ (release_slot nat m).mapping_mem = nat.mapping_mem
      ∧ (release_slot nat m).mapping_live = nat.mapping_live
      ∧ (release_slot nat m).conn_mem = nat.conn_mem
      ∧ (release_slot nat m).conn_live = nat.conn_live := by
  unfold release_slot
  split_ifs <;> simp

theorem release_mapping_spec (fuel : Nat) (nat : sr_nat) (m : Ptr) (cs : List Ptr)
    (h : IsConns nat m cs) (hf : cs.length < fuel) :
    release_mapping fuel nat m = some (released nat m cs) := by
  have hfr := release_slot_frame nat m
  have h2 : Seg (cnext (release_slot nat m)) (nat.mapping_mem m).conns NULL cs := by
    have : cnext (release_slot nat m) = cnext nat := by
      unfold cnext; rw [hfr.2.2.2.1]
    rw [this]; exact h
  unfold release_mapping
  rw [free_conns_loop_spec cs _ _ fuel h2 hf]
  simp only [free_mapping, released, Option.some.injEq]
  unfold release_slot
  cases ht : (nat.mapping_mem m).type <;> simp

theorem release_mapping_frame (fuel : Nat) (nat c : sr_nat) (m : Ptr)
    (h : release_mapping fuel nat m = some c) :
    c.mappings = nat.mappings ∧ c.mapping_mem = nat.mapping_mem
      ∧ c.mapping_live = (fun a => if a = m then false else nat.mapping_live a)
      ∧ c.conn_mem = nat.conn_mem := by
  have hfr := release_slot_frame nat m
  unfold release_mapping at h
  split at h
  · cases h
  · rename_i nat2 heq
    have h2 := free_conns_loop_frame _ _ _ _ heq
    cases h
    rw [h2]
    simp [free_mapping, hfr]

theorem unlinked_isTable (nat : sr_nat) (pre post : List Ptr) (q : Ptr)
    (h : IsTable nat (pre ++ q :: post)) : IsTable (unlinked nat pre q) (pre ++ post) := by
  have hnd := Seg_null_nodup h
  rcases List.eq_nil_or_concat pre with hpre | ⟨pre2, b, hpre⟩ <;>
    try rw [List.concat_eq_append] at hpre
  · subst hpre
    obtain ⟨_, _, h3⟩ := h
    exact h3
  · subst hpre
    have hlast : (pre2 ++ [b]).getLast? = some b := by simp
    unfold IsTable at h ⊢
    unfold unlinked
    rw [hlast]
    simp only [List.append_assoc, List.singleton_append] at h hnd ⊢
    obtain ⟨r, h1, h2⟩ := Seg_append.mp h
    obtain ⟨hr, hb, h3⟩ := h2
    subst hr
    obtain ⟨_, _, h4⟩ := h3
    have hnd2 := List.nodup_append.mp hnd
    have hb1 : r ∉ pre2 := fun hmem => hnd2.2.2 hmem (by simp)
    have hb2 : r ∉ post := by
      have := (List.nodup_cons.mp hnd2.2.1).1
      intro hmem
      exact this (List.mem_cons_of_mem _ hmem)
    apply Seg_append.mpr
    refine ⟨r, ?_, rfl, hb, ?_⟩
    · apply Seg_congr _ h1
      intro a ha
      have : a ≠ r := fun e => hb1 (e ▸ ha)
      simp [mnext, set_mapping_next, this]
    · have hn : mnext (set_mapping_next nat r (nat.mapping_mem q).next) r
          = (nat.mapping_mem q).next := by
        simp [mnext, set_mapping_next]
      rw [hn]
      apply Seg_congr _ h4
      intro a ha
      have : a ≠ r := fun e => hb2 (e ▸ ha)
      simp [mnext, set_mapping_next, this]

theorem unlinked_fields (nat : sr_nat) (pre : List Ptr) (q p : Ptr) :
    same_fields ((unlinked nat pre q).mapping_mem p) (nat.mapping_mem p) := by
  unfold unlinked
  cases pre.getLast? with
  | none => simp [same_fields]
  | some b =>
    by_cases hp : p = b <;> simp [same_fields, set_mapping_next, hp]

theorem unlinked_frame (nat : sr_nat) (pre : List Ptr) (q : Ptr) :
    (unlinked nat pre q).mapping_live = nat.mapping_live
      ∧ (unlinked nat pre q).conn_mem = nat.conn_mem
      ∧ (unlinked nat pre q).conn_live = nat.conn_live
      ∧ (unlinked nat pre q).available_ports = nat.available_ports
      ∧ (unlinked nat pre q).available_icmp_identifiers = nat.available_icmp_identifiers
      ∧ (unlinked nat pre q).icmp_query_timeout = nat.icmp_query_timeout
      ∧ (unlinked nat pre q).tcp_estb_timeout = nat.tcp_estb_timeout
      ∧ (unlinked nat pre q).tcp_trns_timeout = nat.tcp_trns_timeout := by
  unfold unlinked
  cases pre.getLast? <;> simp [set_mapping_next]

/-- When the mapping `q` is held in the table behind the blocks `pre`, a call
of `destroy_nat_mapping` that returns went through the unlink step for `q`. -/
theorem destroy_nat_mapping_some (fuel : Nat) (nat c : sr_nat) (pre post : List Ptr) (q : Ptr)
    (h : IsTable nat (pre ++ q :: post)) (hd : destroy_nat_mapping fuel nat q = some c) :
    release_mapping fuel (unlinked nat pre q) q = some c := by
  have hnd := Seg_null_nodup h
  have hnn := Seg_ne_null h
  rcases List.eq_nil_or_concat pre with hpre | ⟨pre2, b, hpre⟩ <;>
    try rw [List.concat_eq_append] at hpre
  · subst hpre
    obtain ⟨h1, h2, _⟩ := h
    have h1b : nat.mappings = q := h1
    unfold destroy_nat_mapping at hd
    simp only [h1b, ne_eq, h2, not_false_eq_true, if_true] at hd
    simpa [unlinked, h1b] using hd
  · subst hpre
    have hlast : (pre2 ++ [b]).getLast? = some b := by simp
    have h0 : IsTable nat (pre2 ++ b :: q :: post) := by simpa using h
    have hhead : nat.mappings ≠ NULL ∧ nat.mappings ≠ q := by
      cases pre2 with
      | nil =>
        obtain ⟨h1, h2, _⟩ := h0
        have h1b : nat.mappings = b := h1
        rw [h1b]
        refine ⟨h2, ?_⟩
        intro e
        subst e
        simp at hnd
      | cons a pre3 =>
        obtain ⟨h1, h2, _⟩ := h0
        have h1b : nat.mappings = a := h1
        rw [h1b]
        refine ⟨h2, ?_⟩
        intro e
        subst e
        simp at hnd
    unfold destroy_nat_mapping at hd
    simp only [ne_eq, hhead.1, not_false_eq_true, if_true, hhead.2, if_false] at hd
    split at hd
    · cases hd
    · rename_i r hr
      have hspec := find_prev_present (mnext nat) nat.mappings b q pre2 post
        (max fuel (pre2.length + 1)) h0 (by omega)
      have hmono := find_prev_mono _ _ _ _ _ (max fuel (pre2.length + 1)) hr (by omega)
      have hrb : r = b := by
        have : some r = some b := hmono.symm.trans hspec
        exact Option.some.inj this
      subst hrb
      have hrn : r ≠ NULL := hnn r (by simp)
      rw [if_neg hrn] at hd
      simpa [unlinked, hlast] using hd

/-- With enough fuel `destroy_nat_mapping` on a held mapping returns: the
table loses `q`, the slot of `q` is written `0`, its records and its block are
freed. -/
theorem destroy_nat_mapping_spec (fuel : Nat) (nat : sr_nat) (pre post cs : List Ptr) (q : Ptr)
    (h : IsTable nat (pre ++ q :: post)) (hc : IsConns nat q cs)
    (hf1 : pre.length < fuel) (hf2 : cs.length < fuel) :
    destroy_nat_mapping fuel nat q = some (released (unlinked nat pre q) q cs) := by
  have hnd := Seg_null_nodup h
  have hnn := Seg_ne_null h
  have hq : q ∉ pre := fun hmem => (List.nodup_append.mp hnd).2.2 hmem (by simp)
  have hc2 : IsConns (unlinked nat pre q) q cs := by
    unfold unlinked
    cases hl : pre.getLast? with
    | none => exact hc
    | some b =>
      have hb : b ∈ pre := List.mem_of_getLast?_eq_some hl
      have hqb : q ≠ b := fun e => hq (e ▸ hb)
      simpa [IsConns, set_mapping_next, hqb, cnext] using hc
  rw [← release_mapping_spec fuel _ q cs hc2 hf2]
  rcases List.eq_nil_or_concat pre with hpre | ⟨pre2, b, hpre⟩ <;>
    try rw [List.concat_eq_append] at hpre
  · subst hpre
    obtain ⟨h1, h2, _⟩ := h
    have h1b : nat.mappings = q := h1
    unfold destroy_nat_mapping
    simp [h1b, h2, unlinked]
  · subst hpre
    have hlast : (pre2 ++ [b]).getLast? = some b := by simp
    have h0 : IsTable nat (pre2 ++ b :: q :: post) := by simpa using h
    have hhead : nat.mappings ≠ NULL ∧ nat.mappings ≠ q := by
      cases pre2 with
      | nil =>
        obtain ⟨h1, h2, _⟩ := h0
        have h1b : nat.mappings = b := h1
        rw [h1b]
        refine ⟨h2, ?_⟩
        intro e
        subst e
        simp at hnd
      | cons a pre3 =>
        obtain ⟨h1, h2, _⟩ := h0
        have h1b : nat.mappings = a := h1
        rw [h1b]
        refine ⟨h2, ?_⟩
        intro e
        subst e
        simp at hnd
    have hspec := find_prev_present (mnext nat) nat.mappings b q pre2 post fuel h0
      (by simp at hf1; omega)
    have hbn : b ≠ NULL := hnn b (by simp)
    unfold destroy_nat_mapping
    simp only [ne_eq, hhead.1, not_false_eq_true, if_true, hhead.2, if_false]
    have hspec2 : find_prev (fun p => (nat.mapping_mem p).next) q fuel nat.mappings = some b :=
      hspec
    rw [hspec2]
    simp [hbn, unlinked, hlast]

/-! ## Insert, and states reached later -/

theorem same_fields_refl (a : sr_nat_mapping) : same_fields a a := by
  simp [same_fields]

theorem same_fields_symm {a b : sr_nat_mapping} (h : same_fields a b) : same_fields b a := by
  obtain ⟨h1, h2, h3, h4, h5, h6⟩ := h
  exact ⟨h1.symm, h2.symm, h3.symm, h4.symm, h5.symm, h6.symm⟩

theorem same_fields_trans {a b c : sr_nat_mapping} (h : same_fields a b)
    (h2 : same_fields b c) : same_fields a c := by
  obtain ⟨a1, a2, a3, a4, a5, a6⟩ := h
  obtain ⟨b1, b2, b3, b4, b5, b6⟩ := h2
  exact ⟨a1.trans b1, a2.trans b2, a3.trans b3, a4.trans b4, a5.trans b5, a6.trans b6⟩

theorem IsTable_of_eq {a b : sr_nat} {l : List Ptr} (h1 : b.mappings = a.mappings)
    (h2 : b.mapping_mem = a.mapping_mem) (h : IsTable a l) : IsTable b l := by
  unfold IsTable mnext at h ⊢
  rw [h1, h2]; exact h

theorem insert_mapping_result (nat nat1 : sr_nat) (ip_int aux_int : Nat)
    (type : sr_nat_mapping_type) (now : Int) (newMapping r : Ptr)
    (h : sr_nat_insert_mapping nat ip_int aux_int type now newMapping = some (r, nat1)) :
    newMapping ≠ NULL ∧ r = newMapping ∧ nat1.mappings = newMapping
      ∧ (∀ a, a ≠ newMapping → nat1.mapping_mem a = nat.mapping_mem a)
      ∧ (nat1.mapping_mem newMapping).next = nat.mappings
      ∧ (nat1.mapping_mem newMapping).type = type
      ∧ (nat1.mapping_mem newMapping).ip_int = ip_int
      ∧ (nat1.mapping_mem newMapping).aux_int = aux_int
      ∧ (nat1.mapping_mem newMapping).aux_ext = (nat.mapping_mem newMapping).aux_ext
      ∧ (nat1.mapping_mem newMapping).last_updated = now
      ∧ (nat1.mapping_mem newMapping).conns = NULL
      ∧ (∀ a, nat1.mapping_live a = if a = newMapping then true else nat.mapping_live a) := by
  unfold sr_nat_insert_mapping at h
  by_cases hn : newMapping = NULL
  · rw [if_pos hn] at h; cases h
  · rw [if_neg hn] at h
    cases h
    refine ⟨hn, rfl, rfl, ?_, ?_, ?_, ?_, ?_, ?_, ?_, ?_, ?_⟩ <;> simp
    intro a ha
    simp [ha]

theorem insert_mapping_isTable (nat nat1 : sr_nat) (ip_int aux_int : Nat)
    (type : sr_nat_mapping_type) (now : Int) (newMapping r : Ptr) (l : List Ptr)
    (h : sr_nat_insert_mapping nat ip_int aux_int type now newMapping = some (r, nat1))
    (ht : IsTable nat l) (hfresh : newMapping ∉ l) : IsTable nat1 (newMapping :: l) := by
  obtain ⟨h1, _, h3, h4, h5, _⟩ := insert_mapping_result _ _ _ _ _ _ _ _ h
  refine ⟨h3, h1, ?_⟩
  have : mnext nat1 newMapping = nat.mappings := h5
  rw [this]
  apply Seg_congr _ ht
  intro a ha
  have hne : a ≠ newMapping := fun e => hfresh (e ▸ ha)
  simp [mnext, h4 a hne]

/-- The mapping `m` stays the first mapping with the property `key` through the
steps of `Later`, and keeps its fields. -/
theorem later_first_match (key : sr_nat_mapping → Prop)
    (hkey : ∀ r1 r2, same_fields r1 r2 → (key r1 ↔ key r2)) (m : Ptr) (a b : sr_nat)
    (hl : Later m (fun r => ¬ key r) a b) (post0 : List Ptr)
    (h0 : IsTable a (m :: post0)) (hlive0 : ∀ p ∈ m :: post0, a.mapping_live p = true) :
    ∃ pre post, IsTable b (pre ++ m :: post)
      ∧ (∀ p ∈ pre ++ m :: post, b.mapping_live p = true)
      ∧ (∀ p ∈ pre, ¬ key (b.mapping_mem p))
      ∧ same_fields (b.mapping_mem m) (a.mapping_mem m) := by
  induction hl with
  | start => exact ⟨[], post0, h0, hlive0, by simp, same_fields_refl _⟩
  | @insert b c ip_int aux_int type now newMapping r _ hfresh hins hallow ih =>
    obtain ⟨pre, post, ht, hlive, hpre, hsf⟩ := ih
    obtain ⟨h1, h2, h3, h4, h5, h6, h7, h8, h9, h10, h11, h12⟩ :=
      insert_mapping_result _ _ _ _ _ _ _ _ hins
    subst h2
    have hnot : r ∉ pre ++ m :: post := by
      intro hmem
      have := hlive r hmem
      rw [hfresh] at this
      cases this
    have ht2 := insert_mapping_isTable _ _ _ _ _ _ _ _ _ hins ht hnot
    refine ⟨r :: pre, post, ht2, ?_, ?_, ?_⟩
    · intro p hp
      rw [h12]
      by_cases hpr : p = r
      · simp [hpr]
      · rw [if_neg hpr]
        rcases List.mem_cons.mp hp with hp | hp
        · exact absurd hp hpr
        · exact hlive p hp
    · intro p hp
      rcases List.mem_cons.mp hp with hp | hp
      · subst hp; exact hallow
      · have hne : p ≠ r := fun e => hnot (e ▸ List.mem_append_left _ hp)
        rw [h4 p hne]
        exact hpre p hp
    · have hne : m ≠ r := fun e => hnot (e ▸ (by simp))
      rw [h4 m hne]
      exact hsf
  | @remove b c fuel q _ hq hin hd ih =>
    obtain ⟨pre, post, ht, hlive, hpre, hsf⟩ := ih
    obtain ⟨l2, ht2, hq2⟩ := hin
    have hl2 : l2 = pre ++ m :: post := Seg_null_unique ht2 ht
    subst hl2
    have hnd := Seg_null_nodup ht
    rcases List.mem_append.mp hq2 with hqm | hqm
    · obtain ⟨p1, p2, rfl⟩ := List.append_of_mem hqm
      have ht3 : IsTable b (p1 ++ q :: (p2 ++ m :: post)) := by simpa using ht
      have hrel := destroy_nat_mapping_some fuel b c p1 (p2 ++ m :: post) q ht3 hd
      obtain ⟨f1, f2, f3, _⟩ := release_mapping_frame _ _ _ _ hrel
      have ht4 := IsTable_of_eq f1 f2 (unlinked_isTable b p1 (p2 ++ m :: post) q ht3)
      have hnd3 : (p1 ++ q :: (p2 ++ m :: post)).Nodup := by simpa using hnd
      have hqn : ∀ p ∈ p1 ++ (p2 ++ m :: post), p ≠ q := by
        intro p hp e
        subst e
        have hn := List.nodup_append.mp hnd3
        rcases List.mem_append.mp hp with hp | hp
        · exact hn.2.2 hp (by simp)
        · exact (List.nodup_cons.mp hn.2.1).1 hp
      refine ⟨p1 ++ p2, post, by simpa using ht4, ?_, ?_, ?_⟩
      · intro p hp
        have hp2 : p ∈ p1 ++ (p2 ++ m :: post) := by simpa using hp
        rw [f3]
        simp only [hqn p hp2, if_false, (unlinked_frame b _ q).1]
        apply hlive
        simp only [List.mem_append, List.mem_cons] at hp2 ⊢
        tauto
      · intro p hp
        rw [f2]
        have := hpre p (by
          simp only [List.mem_append, List.mem_cons] at hp ⊢
          tauto)
        exact fun hk => this ((hkey _ _ (unlinked_fields b p1 q p)).mp hk)
      · rw [f2]
        exact same_fields_trans (unlinked_fields b p1 q m) hsf
    · rcases List.mem_cons.mp hqm with hqm | hqm
      · exact absurd hqm hq
      · obtain ⟨p1, p2, rfl⟩ := List.append_of_mem hqm
        have ht3 : IsTable b ((pre ++ m :: p1) ++ q :: p2) := by simpa using ht
        have hrel := destroy_nat_mapping_some fuel b c (pre ++ m :: p1) p2 q ht3 hd
        obtain ⟨f1, f2, f3, _⟩ := release_mapping_frame _ _ _ _ hrel
        have ht4 := IsTable_of_eq f1 f2 (unlinked_isTable b (pre ++ m :: p1) p2 q ht3)
        have hnd3 : ((pre ++ m :: p1) ++ q :: p2).Nodup := by simpa using hnd
        have hqn : ∀ p ∈ (pre ++ m :: p1) ++ p2, p ≠ q := by
          intro p hp e
          subst e
          have hn := List.nodup_append.mp hnd3
          rcases List.mem_append.mp hp with hp | hp
          · exact hn.2.2 hp (by simp)
          · exact (List.nodup_cons.mp hn.2.1).1 hp
        refine ⟨pre, p1 ++ p2, by simpa using ht4, ?_, ?_, ?_⟩
        · intro p hp
          have hp2 : p ∈ (pre ++ m :: p1) ++ p2 := by simpa using hp
          rw [f3]
          simp only [hqn p hp2, if_false, (unlinked_frame b _ q).1]
          apply hlive
          simp only [List.mem_append, List.mem_cons] at hp2 ⊢
          tauto
        · intro p hp
          rw [f2]
          have := hpre p hp
          exact fun hk => this ((hkey _ _ (unlinked_fields b (pre ++ m :: p1) q p)).mp hk)
        · rw [f2]
          exact same_fields_trans (unlinked_fields b (pre ++ m :: p1) q m) hsf

/-! ## Round trips -/

/-- C1: a mapping `m` returned by `sr_nat_insert_mapping` for the internal tuple
`(type, ip_int, aux_int)` is what `sr_nat_lookup_internal` returns for that
tuple, with the fields it had right after the insert, both at once and in
every state reached by inserts of other internal tuples and by removals of
other held mappings; the lookup returns with any fuel above the table
length. -/
theorem roundtrip_internal (nat nat1 nat2 : sr_nat) (l : List Ptr) (ip_int aux_int : Nat)
    (type : sr_nat_mapping_type) (now : Int) (newMapping m : Ptr)
    (htable : IsTable nat l) (hlive : ∀ p ∈ l, nat.mapping_live p = true)
    (hfresh : nat.mapping_live newMapping = false)
    (hins : sr_nat_insert_mapping nat ip_int aux_int type now newMapping = some (m, nat1))
    (hlater : Later m
      (fun r => ¬ (r.type = type ∧ r.aux_int = aux_int ∧ r.ip_int = ip_int)) nat1 nat2) :
    ∃ l2, IsTable nat2 l2 ∧ m ∈ l2
      ∧ same_fields (nat2.mapping_mem m) (nat1.mapping_mem m)
      ∧ ∀ fuel, l2.length < fuel →
          sr_nat_lookup_internal fuel nat2 ip_int aux_int type = some m := by
  obtain ⟨_, h2, _, h4, _, h6, h7, h8, _, _, _, h12⟩ :=
    insert_mapping_result _ _ _ _ _ _ _ _ hins
  subst h2
  have hnot : m ∉ l := by
    intro hmem
    have := hlive m hmem
    rw [hfresh] at this
    cases this
  have ht1 := insert_mapping_isTable _ _ _ _ _ _ _ _ _ hins htable hnot
  have hlive1 : ∀ p ∈ m :: l, nat1.mapping_live p = true := by
    intro p hp
    rw [h12]
    by_cases hpm : p = m
    · simp [hpm]
    · rw [if_neg hpm]
      rcases List.mem_cons.mp hp with hp | hp
      · exact absurd hp hpm
      · exact hlive p hp
  obtain ⟨pre, post, ht, _, hpre, hsf⟩ :=
    later_first_match (fun r => r.type = type ∧ r.aux_int = aux_int ∧ r.ip_int = ip_int)
      (by
        intro r1 r2 h
        obtain ⟨a1, a2, a3, _, _, _⟩ := h
        show (r1.type = type ∧ r1.aux_int = aux_int ∧ r1.ip_int = ip_int)
          ↔ (r2.type = type ∧ r2.aux_int = aux_int ∧ r2.ip_int = ip_int)
        rw [a1, a2, a3])
      m nat1 nat2 hlater l ht1 hlive1
  refine ⟨pre ++ m :: post, ht, by simp, hsf, ?_⟩
  intro fuel hf
  unfold sr_nat_lookup_internal
  rw [lookup_internal_loop_spec nat2 ip_int aux_int type _ _ fuel ht hf]
  congr 1
  apply find_first_match
  · intro a ha
    simp only [matches_internal, decide_eq_false_iff_not]
    exact hpre a ha
  · simp only [matches_internal, decide_eq_true_eq]
    obtain ⟨a1, a2, a3, _, _, _⟩ := hsf
    rw [a1, a2, a3]
    exact ⟨h6, h8, h7⟩

/-- C1, a concrete run: ICMP `(10, 20)` is inserted into the empty table, then
two other tuples are inserted and one of them is removed again. -/
theorem roundtrip_internal_witness :
    ∃ l2, IsTable example_nat4 l2 ∧ 1 ∈ l2
      ∧ same_fields (example_nat4.mapping_mem 1) (example_nat1.mapping_mem 1)
      ∧ ∀ fuel, l2.length < fuel →
          sr_nat_lookup_internal fuel example_nat4 10 20 nat_mapping_icmp = some 1 :=
  roundtrip_internal empty_nat example_nat1 example_nat4 [] 10 20 nat_mapping_icmp 100 1 1
    (by decide) (by simp) rfl rfl
    (Later.remove 5 2
      (Later.insert 12 22 nat_mapping_tcp 100 3 3
        (Later.insert 11 21 nat_mapping_icmp 100 2 2 (Later.start _) rfl rfl (by decide))
        rfl rfl (by decide))
      (by decide) ⟨[3, 2, 1], by decide, by decide⟩ rfl)

/-- C2 as stated fails: ICMP `(10, 20)` is inserted into the empty table and
gets the block at address `1`, whose `aux_ext` the insert leaves at `0`; a
further insert of ICMP `(11, 21)` gets the block at address `2`, also with
`aux_ext` `0`.  The external lookup of `(0, ICMP)` then returns the block at
`2`, whose fields are not those of the first mapping. -/
theorem roundtrip_external_counterexample :
    sr_nat_insert_mapping empty_nat 10 20 nat_mapping_icmp 100 1 = some (1, example_nat1)
      ∧ Later 1 (fun _ => True) example_nat1 example_nat2
      ∧ sr_nat_lookup_external 5 example_nat2 (example_nat1.mapping_mem 1).aux_ext
          nat_mapping_icmp = some 2
      ∧ ¬ same_fields (example_nat2.mapping_mem 2) (example_nat1.mapping_mem 1) :=
  ⟨rfl, Later.insert 11 21 nat_mapping_icmp 100 2 2 (Later.start _) rfl rfl trivial,
    by decide, by decide⟩

/-- C2, amended: a mapping `m` returned by `sr_nat_insert_mapping` is what
`sr_nat_lookup_external` returns for `(m.aux_ext, type)`, with the fields it had
right after the insert, both at once and in every state reached by further
inserts whose new mapping does not have both the type and the `aux_ext` of `m`,
and by removals of other held mappings. -/
theorem roundtrip_external (nat nat1 nat2 : sr_nat) (l : List Ptr) (ip_int aux_int : Nat)
    (type : sr_nat_mapping_type) (now : Int) (newMapping m : Ptr)
    (htable : IsTable nat l) (hlive : ∀ p ∈ l, nat.mapping_live p = true)
    (hfresh : nat.mapping_live newMapping = false)
    (hins : sr_nat_insert_mapping nat ip_int aux_int type now newMapping = some (m, nat1))
    (hlater : Later m
      (fun r => ¬ (r.type = type ∧ r.aux_ext = (nat1.mapping_mem m).aux_ext)) nat1 nat2) :
    ∃ l2, IsTable nat2 l2 ∧ m ∈ l2
      ∧ same_fields (nat2.mapping_mem m) (nat1.mapping_mem m)
      ∧ ∀ fuel, l2.length < fuel →
          sr_nat_lookup_external fuel nat2 (nat1.mapping_mem m).aux_ext type = some m := by
  obtain ⟨_, h2, _, h4, _, h6, _, _, _, _, _, h12⟩ :=
    insert_mapping_result _ _ _ _ _ _ _ _ hins
  subst h2
  have hnot : m ∉ l := by
    intro hmem
    have := hlive m hmem
    rw [hfresh] at this
    cases this
  have ht1 := insert_mapping_isTable _ _ _ _ _ _ _ _ _ hins htable hnot
  have hlive1 : ∀ p ∈ m :: l, nat1.mapping_live p = true := by
    intro p hp
    rw [h12]
    by_cases hpm : p = m
    · simp [hpm]
    · rw [if_neg hpm]
      rcases List.mem_cons.mp hp with hp | hp
      · exact absurd hp hpm
      · exact hlive p hp
  obtain ⟨pre, post, ht, _, hpre, hsf⟩ :=
    later_first_match (fun r => r.type = type ∧ r.aux_ext = (nat1.mapping_mem m).aux_ext)
      (by
        intro r1 r2 h
        obtain ⟨a1, _, _, a4, _, _⟩ := h
        show (r1.type = type ∧ r1.aux_ext = (nat1.mapping_mem m).aux_ext)
          ↔ (r2.type = type ∧ r2.aux_ext = (nat1.mapping_mem m).aux_ext)
        rw [a1, a4])
      m nat1 nat2 hlater l ht1 hlive1
  refine ⟨pre ++ m :: post, ht, by simp, hsf, ?_⟩
  intro fuel hf
  unfold sr_nat_lookup_external
  rw [lookup_external_loop_spec nat2 _ type _ _ fuel ht hf]
  congr 1
  apply find_first_match
  · intro a ha
    simp only [matches_external, decide_eq_false_iff_not]
    exact hpre a ha
  · simp only [matches_external, decide_eq_true_eq]
    obtain ⟨a1, _, _, a4, _, _⟩ := hsf
    rw [a1, a4]
    exact ⟨h6, rfl⟩

/-- C2 amended, a concrete run: ICMP `(10, 20)` is inserted into the empty
table, then two TCP tuples are inserted and one of them is removed again. -/
theorem roundtrip_external_witness :
    ∃ l2, IsTable example_nat7 l2 ∧ 1 ∈ l2
      ∧ same_fields (example_nat7.mapping_mem 1) (example_nat1.mapping_mem 1)
      ∧ ∀ fuel, l2.length < fuel →
          sr_nat_lookup_external fuel example_nat7 (example_nat1.mapping_mem 1).aux_ext
            nat_mapping_icmp = some 1 :=
  roundtrip_external empty_nat example_nat1 example_nat7 [] 10 20 nat_mapping_icmp 100 1 1
    (by decide) (by simp) rfl rfl
    (Later.remove 5 3
      (Later.insert 13 23 nat_mapping_tcp 100 4 4
        (Later.insert 12 22 nat_mapping_tcp 100 3 3 (Later.start _) rfl rfl (by decide))
        rfl rfl (by decide))
      (by decide) ⟨[4, 3, 1], by decide, by decide⟩ rfl)

/-! ## The allocators -/

theorem first_free_slot_some (pool : Nat → Nat) :
    ∀ (n i0 i : Nat), first_free_slot pool n i0 = some i ↔
      (i0 ≤ i ∧ i < i0 + n ∧ pool i = 0 ∧ ∀ j, i0 ≤ j → j < i → pool j ≠ 0) := by
  intro n
  induction n with
  | zero =>
    intro i0 i
    simp only [first_free_slot, add_zero]
    constructor
    · intro h; cases h
    · rintro ⟨h1, h2, _⟩; omega
  | succ n ih =>
    intro i0 i
    rw [first_free_slot]
    by_cases h0 : pool i0 = 0
    · rw [if_pos h0]
      constructor
      · intro h
        cases h
        exact ⟨le_refl _, by omega, h0, fun j h1 h2 => by omega⟩
      · rintro ⟨h1, _, _, h4⟩
        by_contra hne
        have hlt : i0 < i := by
          rcases Nat.lt_or_ge i0 i with h | h
          · exact h
          · exfalso; apply hne; congr 1; omega
        exact h4 i0 (le_refl _) hlt h0
    · rw [if_neg h0, ih]
      constructor
      · rintro ⟨h1, h2, h3, h4⟩
        refine ⟨by omega, by omega, h3, ?_⟩
        intro j hj1 hj2
        rcases Nat.eq_or_lt_of_le hj1 with e | hlt
        · rw [← e]; exact h0
        · exact h4 j hlt hj2
      · rintro ⟨h1, h2, h3, h4⟩
        have hne : i0 ≠ i := fun e => h0 (e ▸ h3)
        exact ⟨by omega, by omega, h3, fun j hj1 hj2 => h4 j (by omega) hj2⟩

theorem first_free_slot_none (pool : Nat → Nat) :
    ∀ (n i0 : Nat), first_free_slot pool n i0 = none ↔
      ∀ j, i0 ≤ j → j < i0 + n → pool j ≠ 0 := by
  intro n
  induction n with
  | zero =>
    intro i0
    simp only [first_free_slot, add_zero, true_iff]
    intro j h1 h2; omega
  | succ n ih =>
    intro i0
    rw [first_free_slot]
    by_cases h0 : pool i0 = 0
    · rw [if_pos h0]
      simp only [reduceCtorEq, false_iff]
      intro h
      exact h i0 (le_refl _) (by omega) h0
    · rw [if_neg h0, ih]
      constructor
      · intro h j hj1 hj2
        rcases Nat.eq_or_lt_of_le hj1 with e | hlt
        · rw [← e]; exact h0
        · exact h j hlt (by omega)
      · intro h j hj1 hj2
        exact h j (by omega) (by omega)

/-- The result of the allocator loop, for either pool: the first free slot in
`[lo, hi]` with the pool written at that slot, or `none`. -/
theorem first_free_slot_range (pool : Nat → Nat) (lo hi : Nat) :
    (∃ i, first_free_slot pool (hi + 1 - lo) lo = some i ∧ lo ≤ i ∧ i ≤ hi ∧ pool i = 0
        ∧ ∀ j, lo ≤ j → j < i → pool j ≠ 0)
      ∨ (first_free_slot pool (hi + 1 - lo) lo = none
        ∧ ∀ j, lo ≤ j → j ≤ hi → pool j ≠ 0) := by
  cases h : first_free_slot pool (hi + 1 - lo) lo with
  | none =>
    right
    refine ⟨rfl, ?_⟩
    intro j h1 h2
    exact (first_free_slot_none pool _ _).mp h j h1 (by omega)
  | some i =>
    left
    obtain ⟨h1, h2, h3, h4⟩ := (first_free_slot_some pool _ _ _).mp h
    exact ⟨i, rfl, h1, by omega, h3, h4⟩

theorem allocatesFirstFree_of_loop (pool : Nat → Nat) (lo hi : Nat) :
    AllocatesFirstFree lo hi pool
      (match first_free_slot pool (hi + 1 - lo) lo with
        | some i => (i : Int)
        | none => -1)
      (match first_free_slot pool (hi + 1 - lo) lo with
        | some i => pool_set pool i 1
        | none => pool) := by
  rcases first_free_slot_range pool lo hi with ⟨i, h1, h2, h3, h4, h5⟩ | ⟨h1, h2⟩
  · rw [h1]
    have hneg : ((i : Int) = -1) ↔ False := by
      constructor
      · intro h; omega
      · intro h; exact h.elim
    refine ⟨Or.inl ⟨i, h2, h3, h4, h5, rfl, by simp [pool_set], ?_⟩, ?_⟩
    · intro j hj
      simp [pool_set, hj]
    · simp only [hneg, false_iff]
      exact fun hall => hall i h2 h3 h4
  · rw [h1]
    refine ⟨Or.inr ⟨h2, rfl, rfl⟩, ?_⟩
    simp only [true_iff]
    exact h2

/-- C6: `generate_unique_port` returns the smallest `i` in
`[MIN_PORT, TOTAL_PORTS]` with `available_ports[i] == 0`, writes `1` to that
entry and changes nothing else in the state; it returns `-1` exactly when no
entry in the range is `0`, and then the pool is unchanged.  The same holds for
`generate_unique_icmp_identifier` over `available_icmp_identifiers` and its
range. -/
theorem allocate_first_free (MIN_PORT TOTAL_PORTS MIN_ICMP_IDENTIFIER
    TOTAL_ICMP_IDENTIFIERS : Nat) (nat : sr_nat) :
    (AllocatesFirstFree MIN_PORT TOTAL_PORTS nat.available_ports
        (generate_unique_port MIN_PORT TOTAL_PORTS nat).1
        (generate_unique_port MIN_PORT TOTAL_PORTS nat).2.available_ports
      ∧ (generate_unique_port MIN_PORT TOTAL_PORTS nat).2
          = { nat with
              available_ports :=
                (generate_unique_port MIN_PORT TOTAL_PORTS nat).2.available_ports })
    ∧ (AllocatesFirstFree MIN_ICMP_IDENTIFIER TOTAL_ICMP_IDENTIFIERS
        nat.available_icmp_identifiers
        (generate_unique_icmp_identifier MIN_ICMP_IDENTIFIER TOTAL_ICMP_IDENTIFIERS nat).1
        (generate_unique_icmp_identifier MIN_ICMP_IDENTIFIER TOTAL_ICMP_IDENTIFIERS
          nat).2.available_icmp_identifiers
      ∧ (generate_unique_icmp_identifier MIN_ICMP_IDENTIFIER TOTAL_ICMP_IDENTIFIERS nat).2
          = { nat with
              available_icmp_identifiers :=
                (generate_unique_icmp_identifier MIN_ICMP_IDENTIFIER TOTAL_ICMP_IDENTIFIERS
                  nat).2.available_icmp_identifiers }) := by
  have hp := allocatesFirstFree_of_loop nat.available_ports MIN_PORT TOTAL_PORTS
  have hi := allocatesFirstFree_of_loop nat.available_icmp_identifiers MIN_ICMP_IDENTIFIER
    TOTAL_ICMP_IDENTIFIERS
  refine ⟨⟨?_, ?_⟩, ?_, ?_⟩
  · unfold generate_unique_port
    cases h : first_free_slot nat.available_ports (TOTAL_PORTS + 1 - MIN_PORT) MIN_PORT with
    | none => rw [h] at hp; exact hp
    | some i => rw [h] at hp; exact hp
  · unfold generate_unique_port
    cases first_free_slot nat.available_ports (TOTAL_PORTS + 1 - MIN_PORT) MIN_PORT <;> rfl
  · unfold generate_unique_icmp_identifier
    cases h : first_free_slot nat.available_icmp_identifiers
        (TOTAL_ICMP_IDENTIFIERS + 1 - MIN_ICMP_IDENTIFIER) MIN_ICMP_IDENTIFIER with
    | none => rw [h] at hi; exact hi
    | some i => rw [h] at hi; exact hi
  · unfold generate_unique_icmp_identifier
    cases first_free_slot nat.available_icmp_identifiers
      (TOTAL_ICMP_IDENTIFIERS + 1 - MIN_ICMP_IDENTIFIER) MIN_ICMP_IDENTIFIER <;> rfl

/-! ## Insert and the pools -/

/-- C4 as stated fails: the TCP tuple `(12, 22)` is inserted into an empty table
with all ports free.  The returned mapping has `aux_ext = 1024` (what its block
held); that port was free before the call and is still free after it, and
`generate_unique_port` would still hand it out. -/
theorem insert_allocates_counterexample :
    sr_nat_insert_mapping stale_nat 12 22 nat_mapping_tcp 100 1 = some (1, stale_nat1)
      ∧ (stale_nat1.mapping_mem 1).aux_ext = 1024
      ∧ stale_nat.available_ports 1024 = 0
      ∧ stale_nat1.available_ports 1024 = 0
      ∧ (generate_unique_port 1024 1024 stale_nat1).1 = 1024 :=
  ⟨rfl, by decide, by decide, by decide, by decide⟩

/-- C4, amended: `sr_nat_insert_mapping` does not use the allocator.  It leaves
both pools as they were, and the `aux_ext` of the returned mapping is what the
block held before the call. -/
theorem insert_keeps_pools (nat nat1 : sr_nat) (ip_int aux_int : Nat)
    (type : sr_nat_mapping_type) (now : Int) (newMapping m : Ptr)
    (hins : sr_nat_insert_mapping nat ip_int aux_int type now newMapping = some (m, nat1)) :
    nat1.available_ports = nat.available_ports
      ∧ nat1.available_icmp_identifiers = nat.available_icmp_identifiers
      ∧ (nat1.mapping_mem m).aux_ext = (nat.mapping_mem m).aux_ext := by
  unfold sr_nat_insert_mapping at hins
  by_cases hn : newMapping = NULL
  · rw [if_pos hn] at hins; cases hins
  · rw [if_neg hn] at hins
    cases hins
    simp

/-- C4 amended, on a concrete insert. -/
theorem insert_keeps_pools_witness :
    stale_nat1.available_ports = stale_nat.available_ports
      ∧ stale_nat1.available_icmp_identifiers = stale_nat.available_icmp_identifiers
      ∧ (stale_nat1.mapping_mem 1).aux_ext = (stale_nat.mapping_mem 1).aux_ext :=
  insert_keeps_pools stale_nat stale_nat1 12 22 nat_mapping_tcp 100 1 1 rfl

/-- C5 as stated fails.  Take the identifier range `[1, 1]`, a pool of one slot:
on empty pools the allocator hands out slot `1` once and then reports `-1`.
The second insert of an ICMP tuple into the empty table is then the insert
number `pool_size + 1`: it returns a mapping and the table holds both.  Also
in a state where every slot is in use and the allocator reports `-1` the
insert returns a mapping. -/
theorem insert_exhaustion_counterexample :
    (generate_unique_icmp_identifier 1 1 empty_nat).1 = 1
      ∧ (generate_unique_icmp_identifier 1 1
          (generate_unique_icmp_identifier 1 1 empty_nat).2).1 = -1
      ∧ sr_nat_insert_mapping empty_nat 10 20 nat_mapping_icmp 100 1 = some (1, example_nat1)
      ∧ sr_nat_insert_mapping example_nat1 11 21 nat_mapping_icmp 100 2
          = some (2, example_nat2)
      ∧ IsTable example_nat2 [2, 1]
      ∧ (generate_unique_icmp_identifier 1 1 full_nat).1 = -1
      ∧ sr_nat_insert_mapping full_nat 10 20 nat_mapping_icmp 100 1 = some (1, full_nat1)
      ∧ IsTable full_nat1 [1] :=
  ⟨by decide, by decide, rfl, rfl, by decide, by decide, rfl, by decide⟩

/-- C5, amended: `sr_nat_insert_mapping` never reports exhaustion.  Whatever the
pools hold, also when no slot is free, it returns the new mapping and puts it
at the head of the table, provided `malloc` returned a block that is not in
the table. -/
theorem insert_never_exhausted (nat : sr_nat) (l : List Ptr) (ip_int aux_int : Nat)
    (type : sr_nat_mapping_type) (now : Int) (newMapping : Ptr)
    (htable : IsTable nat l) (hnull : newMapping ≠ NULL) (hfresh : newMapping ∉ l) :
    ∃ nat1, sr_nat_insert_mapping nat ip_int aux_int type now newMapping
        = some (newMapping, nat1)
      ∧ IsTable nat1 (newMapping :: l) := by
  have h : ∃ nat1, sr_nat_insert_mapping nat ip_int aux_int type now newMapping
      = some (newMapping, nat1) := by
    unfold sr_nat_insert_mapping
    rw [if_neg hnull]
    exact ⟨_, rfl⟩
  obtain ⟨nat1, h1⟩ := h
  exact ⟨nat1, h1, insert_mapping_isTable _ _ _ _ _ _ _ _ _ h1 htable hfresh⟩

/-- C5 amended, on a state whose pools have no free slot. -/
theorem insert_never_exhausted_witness :
    (∀ i, full_nat.available_icmp_identifiers i ≠ 0)
      ∧ ∃ nat1, sr_nat_insert_mapping full_nat 10 20 nat_mapping_icmp 100 1 = some (1, nat1)
        ∧ IsTable nat1 [1] :=
  ⟨fun _ => Nat.one_ne_zero,
    insert_never_exhausted full_nat [] 10 20 nat_mapping_icmp 100 1 (by decide) (by decide)
      (by simp)⟩

/-! ## Removing a held mapping -/

theorem erase_middle (pre post : List Ptr) (m : Ptr) (h : (pre ++ m :: post).Nodup) :
    (pre ++ m :: post).erase m = pre ++ post := by
  have hm : m ∉ pre := fun hmem => (List.nodup_append.mp h).2.2 hmem (by simp)
  rw [List.erase_append_right _ hm, List.erase_cons_head]

/-- With enough fuel `destroy_nat_mapping` on a held mapping returns the state
`released (unlinked nat pre m) m cs`, where `pre` are the mappings in front of
`m`. -/
theorem destroy_nat_mapping_present (fuel : Nat) (nat : sr_nat) (l cs : List Ptr) (m : Ptr)
    (htable : IsTable nat l) (hm : m ∈ l) (hconns : IsConns nat m cs)
    (hf1 : l.length < fuel) (hf2 : cs.length < fuel) :
    ∃ pre post, l = pre ++ m :: post
      ∧ destroy_nat_mapping fuel nat m = some (released (unlinked nat pre m) m cs) := by
  obtain ⟨pre, post, rfl⟩ := List.append_of_mem hm
  refine ⟨pre, post, rfl, ?_⟩
  apply destroy_nat_mapping_spec fuel nat pre post cs m htable hconns _ hf2
  simp at hf1
  omega

theorem released_unlinked_pools (nat : sr_nat) (pre cs : List Ptr) (m : Ptr) :
    (released (unlinked nat pre m) m cs).available_ports
        = (if (nat.mapping_mem m).type = nat_mapping_tcp then
            pool_set nat.available_ports (nat.mapping_mem m).aux_ext 0
          else nat.available_ports)
      ∧ (released (unlinked nat pre m) m cs).available_icmp_identifiers
        = (if (nat.mapping_mem m).type = nat_mapping_icmp then
            pool_set nat.available_icmp_identifiers (nat.mapping_mem m).aux_ext 0
          else nat.available_icmp_identifiers) := by
  obtain ⟨h1, _, _, h4, _, _⟩ := unlinked_fields nat pre m m
  obtain ⟨_, _, _, f4, f5, _⟩ := unlinked_frame nat pre m
  simp only [released, h1, h4, f4, f5, and_self]

/-- After the entry `p` of a pool with no `0` in `[lo, hi]` is written `0`, the
allocator loop returns `p`. -/
theorem first_free_slot_after_release (pool : Nat → Nat) (lo hi p : Nat) (h1 : lo ≤ p)
    (h2 : p ≤ hi) (hfull : ∀ j, lo ≤ j → j ≤ hi → pool j ≠ 0) :
    first_free_slot (pool_set pool p 0) (hi + 1 - lo) lo = some p := by
  rw [first_free_slot_some]
  refine ⟨h1, by omega, by simp [pool_set], ?_⟩
  intro j hj1 hj2
  have hne : j ≠ p := by omega
  simp only [pool_set, hne, if_false]
  exact hfull j hj1 (by omega)

/-- C7: `destroy_nat_mapping` on a held mapping `m` with `aux_ext = p` in the
range of the pool of its type leaves slot `p` of that pool free, and when that
pool had no free slot in its range before, the next allocator call on it
returns `p`. -/
theorem release_then_allocate (MIN_PORT TOTAL_PORTS MIN_ICMP_IDENTIFIER
    TOTAL_ICMP_IDENTIFIERS fuel : Nat) (nat : sr_nat) (l cs : List Ptr) (m : Ptr)
    (htable : IsTable nat l) (hm : m ∈ l) (hconns : IsConns nat m cs)
    (hf1 : l.length < fuel) (hf2 : cs.length < fuel) :
    ∃ nat1, destroy_nat_mapping fuel nat m = some nat1
      ∧ ((nat.mapping_mem m).type = nat_mapping_tcp →
          MIN_PORT ≤ (nat.mapping_mem m).aux_ext →
          (nat.mapping_mem m).aux_ext ≤ TOTAL_PORTS →
          nat1.available_ports (nat.mapping_mem m).aux_ext = 0
            ∧ ((∀ j, MIN_PORT ≤ j → j ≤ TOTAL_PORTS → nat.available_ports j ≠ 0) →
              (generate_unique_port MIN_PORT TOTAL_PORTS nat1).1
                = ((nat.mapping_mem m).aux_ext : Int)))
      ∧ ((nat.mapping_mem m).type = nat_mapping_icmp →
          MIN_ICMP_IDENTIFIER ≤ (nat.mapping_mem m).aux_ext →
          (nat.mapping_mem m).aux_ext ≤ TOTAL_ICMP_IDENTIFIERS →
          nat1.available_icmp_identifiers (nat.mapping_mem m).aux_ext = 0
            ∧ ((∀ j, MIN_ICMP_IDENTIFIER ≤ j → j ≤ TOTAL_ICMP_IDENTIFIERS →
                  nat.available_icmp_identifiers j ≠ 0) →
              (generate_unique_icmp_identifier MIN_ICMP_IDENTIFIER TOTAL_ICMP_IDENTIFIERS
                nat1).1 = ((nat.mapping_mem m).aux_ext : Int))) := by
  obtain ⟨pre, post, _, hd⟩ :=
    destroy_nat_mapping_present fuel nat l cs m htable hm hconns hf1 hf2
  obtain ⟨hp, hi⟩ := released_unlinked_pools nat pre cs m
  refine ⟨_, hd, ?_, ?_⟩
  · intro ht h1 h2
    rw [if_pos ht] at hp
    refine ⟨by rw [hp]; simp [pool_set], ?_⟩
    intro hfull
    unfold generate_unique_port
    rw [hp, first_free_slot_after_release _ _ _ _ h1 h2 hfull]
  · intro ht h1 h2
    rw [if_pos ht] at hi
    refine ⟨by rw [hi]; simp [pool_set], ?_⟩
    intro hfull
    unfold generate_unique_icmp_identifier
    rw [hi, first_free_slot_after_release _ _ _ _ h1 h2 hfull]

/-- C7 on a concrete state: the only mapping is removed from a table whose
pools have no free slot. -/
theorem release_then_allocate_witness :
    ∃ nat1, destroy_nat_mapping 5 full_nat1 1 = some nat1
      ∧ ((full_nat1.mapping_mem 1).type = nat_mapping_tcp →
          0 ≤ (full_nat1.mapping_mem 1).aux_ext →
          (full_nat1.mapping_mem 1).aux_ext ≤ 9 →
          nat1.available_ports (full_nat1.mapping_mem 1).aux_ext = 0
            ∧ ((∀ j, 0 ≤ j → j ≤ 9 → full_nat1.available_ports j ≠ 0) →
              (generate_unique_port 0 9 nat1).1
                = ((full_nat1.mapping_mem 1).aux_ext : Int)))
      ∧ ((full_nat1.mapping_mem 1).type = nat_mapping_icmp →
          0 ≤ (full_nat1.mapping_mem 1).aux_ext →
          (full_nat1.mapping_mem 1).aux_ext ≤ 9 →
          nat1.available_icmp_identifiers (full_nat1.mapping_mem 1).aux_ext = 0
            ∧ ((∀ j, 0 ≤ j → j ≤ 9 → full_nat1.available_icmp_identifiers j ≠ 0) →
              (generate_unique_icmp_identifier 0 9 nat1).1
                = ((full_nat1.mapping_mem 1).aux_ext : Int))) :=
  release_then_allocate 0 9 0 9 5 full_nat1 [1] [] 1 (by decide) (by decide) (by decide)
    (by decide) (by decide)

/-- C8: `destroy_nat_mapping` on a held mapping `m`, wherever it stands in the
table, returns with enough fuel; the table is the old one without `m`, in the
old order, and no mapping changes a field; the entry `aux_ext` of the pool of
the type of `m` is written `0` and nothing else changes in the pools; the
connection records of `m` and the block of `m` are freed and no other block
is. -/
theorem destroy_present (fuel : Nat) (nat : sr_nat) (l cs : List Ptr) (m : Ptr)
    (htable : IsTable nat l) (hm : m ∈ l) (hconns : IsConns nat m cs)
    (hf1 : l.length < fuel) (hf2 : cs.length < fuel) :
    ∃ nat1, destroy_nat_mapping fuel nat m = some nat1
      ∧ IsTable nat1 (l.erase m)
      ∧ (∀ p, same_fields (nat1.mapping_mem p) (nat.mapping_mem p))
      ∧ nat1.available_icmp_identifiers
          = (if (nat.mapping_mem m).type = nat_mapping_icmp then
              pool_set nat.available_icmp_identifiers (nat.mapping_mem m).aux_ext 0
            else nat.available_icmp_identifiers)
      ∧ nat1.available_ports
          = (if (nat.mapping_mem m).type = nat_mapping_tcp then
              pool_set nat.available_ports (nat.mapping_mem m).aux_ext 0
            else nat.available_ports)
      ∧ nat1.conn_mem = nat.conn_mem
      ∧ (∀ c, nat1.conn_live c = if c ∈ cs then false else nat.conn_live c)
      ∧ (∀ p, nat1.mapping_live p = if p = m then false else nat.mapping_live p) := by
  obtain ⟨pre, post, hl, hd⟩ :=
    destroy_nat_mapping_present fuel nat l cs m htable hm hconns hf1 hf2
  subst hl
  obtain ⟨hp, hi⟩ := released_unlinked_pools nat pre cs m
  obtain ⟨f1, f2, f3, _⟩ := unlinked_frame nat pre m
  refine ⟨_, hd, ?_, ?_, hi, hp, ?_, ?_, ?_⟩
  · rw [erase_middle pre post m (Seg_null_nodup htable)]
    exact IsTable_of_eq rfl rfl (unlinked_isTable nat pre post m htable)
  · intro p
    exact unlinked_fields nat pre m p
  · exact f2
  · intro c
    simp [released, f3]
  · intro p
    simp [released, f1]

/-- C8 on a concrete state: the TCP mapping at the head, which owns one
connection record, is removed from a table of three mappings. -/
theorem destroy_present_witness :
    ∃ nat1, destroy_nat_mapping 5 example_nat8 3 = some nat1
      ∧ IsTable nat1 ([3, 2, 1].erase 3)
      ∧ (∀ p, same_fields (nat1.mapping_mem p) (example_nat8.mapping_mem p))
      ∧ nat1.available_icmp_identifiers
          = (if (example_nat8.mapping_mem 3).type = nat_mapping_icmp then
              pool_set example_nat8.available_icmp_identifiers
                (example_nat8.mapping_mem 3).aux_ext 0
            else example_nat8.available_icmp_identifiers)
      ∧ nat1.available_ports
          = (if (example_nat8.mapping_mem 3).type = nat_mapping_tcp then
              pool_set example_nat8.available_ports (example_nat8.mapping_mem 3).aux_ext 0
            else example_nat8.available_ports)
      ∧ nat1.conn_mem = example_nat8.conn_mem
      ∧ (∀ c, nat1.conn_live c = if c ∈ [7] then false else example_nat8.conn_live c)
      ∧ (∀ p, nat1.mapping_live p = if p = 3 then false else example_nat8.mapping_live p) :=
  destroy_present 5 example_nat8 [3, 2, 1] [7] 3 (by decide) (by decide) (by decide)
    (by decide) (by decide)

/-! ## Removing a mapping that is not held -/

/-- C9, the code at the failing input.  The table holds only the mapping at
address `1`; the block at address `2` was removed before and its identifier
`6` has been handed out again.  A second `destroy_nat_mapping` on the block at
`2` is not a no-op: the search loop stops at the last mapping, the test
`prevMapping == NULL` does not fire, the `next` link of the mapping at `1` is
overwritten with the stale link of the block at `2`, which is `1`, and the
identifier `6` is written free.  The table is then a cycle, and a lookup of a
tuple that is not held runs out of any fuel. -/
theorem destroy_absent_not_noop :
    IsTable realloc_nat [1] ∧ realloc_nat.mapping_live 2 = false
      ∧ destroy_nat_mapping 5 realloc_nat 2 = some again_nat
      ∧ (realloc_nat.mapping_mem 1).next = NULL
      ∧ (again_nat.mapping_mem 1).next = 1
      ∧ realloc_nat.available_icmp_identifiers 6 = 1
      ∧ again_nat.available_icmp_identifiers 6 = 0
      ∧ (∀ l, ¬ IsTable again_nat l)
      ∧ (∀ fuel, sr_nat_lookup_internal fuel again_nat 99 99 nat_mapping_icmp = none) := by
  refine ⟨by decide, by decide, rfl, by decide, by decide, by decide, by decide, ?_, ?_⟩
  · intro l hl
    cases l with
    | nil => exact absurd hl (by decide)
    | cons a l =>
      have h1 : a = 1 := by
        have : again_nat.mappings = a := hl.1
        rw [← this]; decide
      subst h1
      have h2 : Seg (mnext again_nat) 1 NULL l := by
        have h3 : Seg (mnext again_nat) (mnext again_nat 1) NULL l := hl.2.2
        have h4 : mnext again_nat 1 = 1 := by decide
        rw [h4] at h3
        exact h3
      cases l with
      | nil => exact absurd h2 (by decide)
      | cons b l =>
        have hb : (1 : Ptr) = b := h2.1
        subst hb
        have hl2 : Seg (mnext again_nat) 1 NULL (1 :: 1 :: l) := ⟨rfl, hl.2.1, hl.2.2⟩
        exact Seg_null_not_mem hl2 (by simp)
  · intro fuel
    unfold sr_nat_lookup_internal
    have hm : again_nat.mappings = 1 := by decide
    rw [hm]
    induction fuel with
    | zero => rfl
    | succ n ih =>
      rw [sr_nat_lookup_internal_loop]
      have h1 : ¬ ((1 : Ptr) = NULL) := by decide
      have h2 : ¬ ((again_nat.mapping_mem 1).type = nat_mapping_icmp
          ∧ (again_nat.mapping_mem 1).aux_int = 99
          ∧ (again_nat.mapping_mem 1).ip_int = 99) := by decide
      have h3 : (again_nat.mapping_mem 1).next = 1 := by decide
      rw [if_neg h1, if_neg h2, h3]
      exact ih

/-! ## Removing a connection record, and the sweep of one mapping -/

theorem head_of_chain {next : Ptr → Ptr} {p a : Ptr} {pre rest : List Ptr} {q : Ptr}
    (h : Seg next p NULL ((a :: pre) ++ q :: rest)) : p ≠ NULL ∧ p ≠ q := by
  have hnd := Seg_null_nodup h
  obtain ⟨h1, h2, _⟩ := h
  subst h1
  refine ⟨h2, ?_⟩
  intro e
  subst e
  simp at hnd

theorem conn_unlinked_isConns (nat : sr_nat) (m : Ptr) (pre post : List Ptr) (c : Ptr)
    (h : IsConns nat m (pre ++ c :: post)) :
    IsConns (conn_unlinked nat m pre c) m (pre ++ post) := by
  have hnd := Seg_null_nodup h
  rcases List.eq_nil_or_concat pre with hpre | ⟨pre2, b, hpre⟩ <;>
    try rw [List.concat_eq_append] at hpre
  · subst hpre
    obtain ⟨_, _, h3⟩ := h
    simpa [IsConns, conn_unlinked, set_mapping_conns, cnext] using h3
  · subst hpre
    have hlast : (pre2 ++ [b]).getLast? = some b := by simp
    unfold IsConns at h ⊢
    unfold conn_unlinked
    rw [hlast]
    simp only [List.append_assoc, List.singleton_append] at h hnd ⊢
    obtain ⟨r, h1, h2⟩ := Seg_append.mp h
    obtain ⟨hr, hb, h3⟩ := h2
    subst hr
    obtain ⟨_, _, h4⟩ := h3
    have hnd2 := List.nodup_append.mp hnd
    have hb1 : r ∉ pre2 := fun hmem => hnd2.2.2 hmem (by simp)
    have hb2 : r ∉ post := by
      have := (List.nodup_cons.mp hnd2.2.1).1
      intro hmem
      exact this (List.mem_cons_of_mem _ hmem)
    apply Seg_append.mpr
    refine ⟨r, ?_, rfl, hb, ?_⟩
    · apply Seg_congr _ h1
      intro a ha
      have : a ≠ r := fun e => hb1 (e ▸ ha)
      simp [cnext, set_conn_next, this]
    · have hn : cnext (set_conn_next nat r (nat.conn_mem c).next) r = (nat.conn_mem c).next := by
        simp [cnext, set_conn_next]
      rw [hn]
      apply Seg_congr _ h4
      intro a ha
      have : a ≠ r := fun e => hb2 (e ▸ ha)
      simp [cnext, set_conn_next, this]

/-- With enough fuel `destroy_tcp_conn` on a record held in the connection list
of `m` returns: the record is unlinked and freed. -/
theorem destroy_tcp_conn_spec (fuel : Nat) (nat : sr_nat) (m : Ptr) (pre post : List Ptr)
    (c : Ptr) (h : IsConns nat m (pre ++ c :: post)) (hf : pre.length < fuel) :
    destroy_tcp_conn fuel nat m c = some (free_conn (conn_unlinked nat m pre c) c) := by
  have hnn := Seg_ne_null h
  rcases List.eq_nil_or_concat pre with hpre | ⟨pre2, b, hpre⟩ <;>
    try rw [List.concat_eq_append] at hpre
  · subst hpre
    obtain ⟨h1, h2, _⟩ := h
    have h1b : (nat.mapping_mem m).conns = c := h1
    unfold destroy_tcp_conn
    simp [h1b, h2, conn_unlinked]
  · subst hpre
    have hlast : (pre2 ++ [b]).getLast? = some b := by simp
    have h0 : Seg (cnext nat) (nat.mapping_mem m).conns NULL (pre2 ++ b :: c :: post) := by
      simpa [IsConns] using h
    have hhead : (nat.mapping_mem m).conns ≠ NULL ∧ (nat.mapping_mem m).conns ≠ c := by
      cases pre2 with
      | nil =>
        have h5 : Seg (cnext nat) (nat.mapping_mem m).conns NULL
            (([b] : List Ptr) ++ c :: post) := by
          simpa using h0
        exact head_of_chain h5
      | cons a pre3 =>
        have h5 : Seg (cnext nat) (nat.mapping_mem m).conns NULL
            ((a :: (pre3 ++ [b])) ++ c :: post) := by simpa using h0
        exact head_of_chain h5
    have hspec := find_prev_present (cnext nat) _ b c pre2 post fuel h0
      (by simp at hf; omega)
    have hbn : b ≠ NULL := hnn b (by simp)
    unfold destroy_tcp_conn
    simp only [ne_eq, hhead.1, not_false_eq_true, if_true, hhead.2, if_false]
    have hspec2 : find_prev (fun c => (nat.conn_mem c).next) c fuel (nat.mapping_mem m).conns
        = some b := hspec
    rw [hspec2]
    simp [hbn, conn_unlinked, hlast]

/-- What the unlink of a connection record leaves alone. -/
theorem conn_unlinked_frame (nat : sr_nat) (m : Ptr) (pre : List Ptr) (c : Ptr) :
    conn_unlinked nat m pre c
        = { nat with
            mapping_mem := (conn_unlinked nat m pre c).mapping_mem
            conn_mem := (conn_unlinked nat m pre c).conn_mem }
      ∧ (∀ p, p ≠ m → (conn_unlinked nat m pre c).mapping_mem p = nat.mapping_mem p)
      ∧ (∀ p, { (conn_unlinked nat m pre c).mapping_mem p with conns := NULL }
          = { nat.mapping_mem p with conns := NULL })
      ∧ (∀ a, a ∉ pre → (conn_unlinked nat m pre c).conn_mem a = nat.conn_mem a)
      ∧ (∀ a, { (conn_unlinked nat m pre c).conn_mem a with next := NULL }
          = { nat.conn_mem a with next := NULL }) := by
  unfold conn_unlinked
  cases hl : pre.getLast? with
  | none =>
    refine ⟨rfl, ?_, ?_, ?_, ?_⟩
    · intro p hp; simp [set_mapping_conns, hp]
    · intro p
      by_cases hp : p = m <;> simp [set_mapping_conns, hp]
    · intro a _; rfl
    · intro a; rfl
  | some b =>
    have hb : b ∈ pre := List.mem_of_getLast?_eq_some hl
    refine ⟨rfl, ?_, ?_, ?_, ?_⟩
    · intro p _; rfl
    · intro p; rfl
    · intro a ha
      have : a ≠ b := fun e => ha (e ▸ hb)
      simp [set_conn_next, this]
    · intro a
      by_cases ha : a = b <;> simp [set_conn_next, ha]

theorem conn_static_fields {x y : sr_nat_connection}
    (h : { x with next := NULL } = { y with next := NULL }) : same_conn_static x y := by
  have h1 := congrArg sr_nat_connection.ip h
  have h2 := congrArg sr_nat_connection.tcp_state h
  have h3 := congrArg sr_nat_connection.last_updated h
  exact ⟨h1, h2, h3⟩

theorem mapping_static_fields {x y : sr_nat_mapping}
    (h : { x with conns := NULL } = { y with conns := NULL }) :
    same_static x y ∧ x.next = y.next := by
  have h1 := congrArg sr_nat_mapping.type h
  have h2 := congrArg sr_nat_mapping.ip_int h
  have h3 := congrArg sr_nat_mapping.aux_int h
  have h4 := congrArg sr_nat_mapping.aux_ext h
  have h5 := congrArg sr_nat_mapping.last_updated h
  have h6 := congrArg sr_nat_mapping.next h
  exact ⟨⟨h1, h2, h3, h4, h5⟩, h6⟩

theorem conn_expired_congr (a b : sr_nat) (curtime : Int) (c : Ptr)
    (h : { b.conn_mem c with next := NULL } = { a.conn_mem c with next := NULL })
    (h1 : b.tcp_estb_timeout = a.tcp_estb_timeout)
    (h2 : b.tcp_trns_timeout = a.tcp_trns_timeout) :
    conn_expired b curtime c = conn_expired a curtime c := by
  obtain ⟨_, f2, f3⟩ := conn_static_fields h
  unfold conn_expired
  rw [f2, f3, h1, h2]

theorem conns_kept_congr (a b : sr_nat) (curtime : Int) (cs : List Ptr)
    (h : ∀ c, { b.conn_mem c with next := NULL } = { a.conn_mem c with next := NULL })
    (h1 : b.tcp_estb_timeout = a.tcp_estb_timeout)
    (h2 : b.tcp_trns_timeout = a.tcp_trns_timeout) :
    conns_kept b curtime cs = conns_kept a curtime cs := by
  unfold conns_kept
  congr 1
  funext c
  rw [conn_expired_congr a b curtime c (h c) h1 h2]

/-- One round of the loop of `check_tcp_conns` on a record `c`: the record is
destroyed when its expiry rule holds, and the loop goes on with the `next`
link read before. -/
theorem check_tcp_conns_loop_step (F : Nat) (curtime : Int) (m : Ptr) (n : Nat)
    (nat : sr_nat) (c : Ptr) (hc : c ≠ NULL) :
    check_tcp_conns_loop F curtime m (n + 1) nat c
      = if conn_expired nat curtime c = true then
          match destroy_tcp_conn F nat m c with
          | none => none
          | some nat1 => check_tcp_conns_loop F curtime m n nat1 (nat.conn_mem c).next
        else check_tcp_conns_loop F curtime m n nat (nat.conn_mem c).next := by
  rw [check_tcp_conns_loop, if_neg hc]
  unfold conn_expired
  by_cases hs : (nat.conn_mem c).tcp_state = ESTABLISHED
  · simp only [hs, if_true, decide_eq_true_eq]
  · simp only [hs, if_false, decide_eq_true_eq]

/-- The sweep of `check_tcp_conns` over the records `rest` that are still to be
visited, with the records `kept` already visited and kept: it returns with
enough fuel, the connection list becomes `kept` followed by the records of
`rest` that are not expired, and only `next` links inside the list, the
`conns` field of the mapping and the liveness of the expired records
change. -/
theorem check_tcp_conns_loop_spec (F : Nat) (curtime : Int) (m : Ptr) :
    ∀ (rest kept : List Ptr) (nat : sr_nat) (curr : Ptr) (fuel : Nat),
      IsConns nat m (kept ++ rest) → Seg (cnext nat) curr NULL rest →
      rest.length < fuel → (kept ++ rest).length < F →
      ∃ nat1, check_tcp_conns_loop F curtime m fuel nat curr = some nat1
        ∧ IsConns nat1 m (kept ++ conns_kept nat curtime rest)
        ∧ nat1 = { nat with
                   mapping_mem := nat1.mapping_mem
                   conn_mem := nat1.conn_mem
                   conn_live := nat1.conn_live }
        ∧ (∀ p, p ≠ m → nat1.mapping_mem p = nat.mapping_mem p)
        ∧ (∀ p, { nat1.mapping_mem p with conns := NULL }
            = { nat.mapping_mem p with conns := NULL })
        ∧ (∀ a, a ∉ kept ++ rest → nat1.conn_mem a = nat.conn_mem a)
        ∧ (∀ a, { nat1.conn_mem a with next := NULL } = { nat.conn_mem a with next := NULL })
        ∧ (∀ a, nat1.conn_live a
            = if a ∈ rest ∧ conn_expired nat curtime a = true then false
              else nat.conn_live a) := by
  intro rest
  induction rest with
  | nil =>
    intro kept nat curr fuel h hs hf _
    have hp : curr = NULL := hs
    subst hp
    cases fuel with
    | zero => simp at hf
    | succ n =>
      refine ⟨nat, by simp [check_tcp_conns_loop], by simpa [conns_kept] using h, rfl,
        fun _ _ => rfl, fun _ => rfl, fun _ _ => rfl, fun _ => rfl, ?_⟩
      intro a; simp
  | cons c rest ih =>
    intro kept nat curr fuel h hs hf hF
    obtain ⟨h1, h2, h3⟩ := hs
    subst h1
    have hnd := Seg_null_nodup h
    cases fuel with
    | zero => simp at hf
    | succ n =>
      have hn : rest.length < n := by simpa using hf
      rw [check_tcp_conns_loop_step F curtime m n nat curr h2]
      by_cases hex : conn_expired nat curtime curr = true
      · rw [if_pos hex]
        have hkl : kept.length < F := by simp at hF; omega
        rw [destroy_tcp_conn_spec F nat m kept rest curr h hkl]
        simp only []
        obtain ⟨g1, g2, g3, g4, g5⟩ := conn_unlinked_frame nat m kept curr
        have hc2 : IsConns (free_conn (conn_unlinked nat m kept curr) curr) m (kept ++ rest) :=
          conn_unlinked_isConns nat m kept rest curr h
        have hs2 : Seg (cnext (free_conn (conn_unlinked nat m kept curr) curr))
            (nat.conn_mem curr).next NULL rest := by
          apply Seg_congr _ h3
          intro a ha
          have hak : a ∉ kept := by
            intro hk
            exact (List.nodup_append.mp hnd).2.2 hk (List.mem_cons_of_mem _ ha)
          simp [cnext, free_conn, g4 a hak]
        have hF2 : (kept ++ rest).length < F := by simp at hF ⊢; omega
        obtain ⟨nat1, e1, e2, e3, e4, e5, e6, e7, e8⟩ :=
          ih kept (free_conn (conn_unlinked nat m kept curr) curr) _ n hc2 hs2 hn hF2
        have hk : conns_kept (free_conn (conn_unlinked nat m kept curr) curr) curtime rest
            = conns_kept nat curtime rest := by
          apply conns_kept_congr
          · intro a; exact g5 a
          · rw [g1]; rfl
          · rw [g1]; rfl
        have hk2 : conns_kept nat curtime (curr :: rest) = conns_kept nat curtime rest := by
          simp [conns_kept, List.filter, hex]
        refine ⟨nat1, e1, ?_, ?_, ?_, ?_, ?_, ?_, ?_⟩
        · rw [hk2, ← hk]; exact e2
        · rw [e3, g1]; rfl
        · intro p hp
          rw [e4 p hp]
          exact g2 p hp
        · intro p
          rw [e5 p]
          exact g3 p
        · intro a ha
          have ha2 : a ∉ kept ++ rest := by
            intro hmem
            apply ha
            simp only [List.mem_append, List.mem_cons] at hmem ⊢
            tauto
          have ha3 : a ∉ kept := fun hk => ha (List.mem_append_left _ hk)
          rw [e6 a ha2]
          exact g4 a ha3
        · intro a
          rw [e7 a]
          exact g5 a
        · intro a
          rw [e8 a]
          have hce : conn_expired (free_conn (conn_unlinked nat m kept curr) curr) curtime a
              = conn_expired nat curtime a := by
            apply conn_expired_congr
            · exact g5 a
            · rw [g1]; rfl
            · rw [g1]; rfl
          rw [hce]
          have hlive : (free_conn (conn_unlinked nat m kept curr) curr).conn_live a
              = if a = curr then false else nat.conn_live a := by
            rw [g1]; rfl
          rw [hlive]
          by_cases hac : a = curr
          · subst hac
            simp [hex]
          · by_cases har : a ∈ rest ∧ conn_expired nat curtime a = true
            · rw [if_pos har, if_pos ⟨List.mem_cons_of_mem _ har.1, har.2⟩]
            · rw [if_neg har, if_neg hac, if_neg]
              rintro ⟨hmem, hexa⟩
              rcases List.mem_cons.mp hmem with e | hmem
              · exact hac e
              · exact har ⟨hmem, hexa⟩
      · rw [if_neg hex]
        have hc2 : IsConns nat m ((kept ++ [curr]) ++ rest) := by simpa using h
        have hF2 : ((kept ++ [curr]) ++ rest).length < F := by simpa using hF
        obtain ⟨nat1, e1, e2, e3, e4, e5, e6, e7, e8⟩ :=
          ih (kept ++ [curr]) nat _ n hc2 h3 hn hF2
        have hk2 : conns_kept nat curtime (curr :: rest)
            = curr :: conns_kept nat curtime rest := by
          simp [conns_kept, List.filter, hex]
        refine ⟨nat1, e1, ?_, e3, e4, e5, ?_, e7, ?_⟩
        · rw [hk2]; simpa using e2
        · intro a ha
          apply e6 a
          simpa using ha
        · intro a
          rw [e8 a]
          by_cases har : a ∈ rest ∧ conn_expired nat curtime a = true
          · rw [if_pos har, if_pos ⟨List.mem_cons_of_mem _ har.1, har.2⟩]
          · rw [if_neg har, if_neg]
            rintro ⟨hmem, hexa⟩
            rcases List.mem_cons.mp hmem with e | hmem
            · subst e; exact hex hexa
            · exact har ⟨hmem, hexa⟩

/-- The function `check_tcp_conns` on a mapping `m` with connection records
`cs`: it returns with any fuel above the length of `cs`, and the connection
list becomes the records of `cs` that are not expired, in the old order. -/
theorem check_tcp_conns_spec (fuel : Nat) (curtime : Int) (nat : sr_nat) (m : Ptr)
    (cs : List Ptr) (h : IsConns nat m cs) (hf : cs.length < fuel) :
    ∃ nat1, check_tcp_conns fuel curtime nat m = some nat1
      ∧ IsConns nat1 m (conns_kept nat curtime cs)
      ∧ nat1 = { nat with
                 mapping_mem := nat1.mapping_mem
                 conn_mem := nat1.conn_mem
                 conn_live := nat1.conn_live }
      ∧ (∀ p, p ≠ m → nat1.mapping_mem p = nat.mapping_mem p)
      ∧ (∀ p, { nat1.mapping_mem p with conns := NULL }
          = { nat.mapping_mem p with conns := NULL })
      ∧ (∀ a, a ∉ cs → nat1.conn_mem a = nat.conn_mem a)
      ∧ (∀ a, { nat1.conn_mem a with next := NULL } = { nat.conn_mem a with next := NULL })
      ∧ (∀ a, nat1.conn_live a
          = if a ∈ cs ∧ conn_expired nat curtime a = true then false else nat.conn_live a) := by
  have := check_tcp_conns_loop_spec fuel curtime m cs [] nat (nat.mapping_mem m).conns fuel
    (by simpa using h) h hf (by simpa using hf)
  simpa [check_tcp_conns] using this

/-! ## One pass of the reaper -/

theorem Static_refl (a : sr_nat) : Static a a :=
  ⟨fun _ => ⟨rfl, rfl, rfl, rfl, rfl⟩, fun _ => ⟨rfl, rfl, rfl⟩, rfl, rfl, rfl⟩

theorem Static_trans {a b c : sr_nat} (h1 : Static a b) (h2 : Static b c) : Static a c := by
  obtain ⟨a1, a2, a3, a4, a5⟩ := h1
  obtain ⟨b1, b2, b3, b4, b5⟩ := h2
  refine ⟨?_, ?_, b3.trans a3, b4.trans a4, b5.trans a5⟩
  · intro p
    obtain ⟨x1, x2, x3, x4, x5⟩ := a1 p
    obtain ⟨y1, y2, y3, y4, y5⟩ := b1 p
    exact ⟨y1.trans x1, y2.trans x2, y3.trans x3, y4.trans x4, y5.trans x5⟩
  · intro c
    obtain ⟨x1, x2, x3⟩ := a2 c
    obtain ⟨y1, y2, y3⟩ := b2 c
    exact ⟨y1.trans x1, y2.trans x2, y3.trans x3⟩

theorem conn_expired_static (a b : sr_nat) (curtime : Int) (h : Static a b) (c : Ptr) :
    conn_expired b curtime c = conn_expired a curtime c := by
  obtain ⟨_, h2, _, h4, h5⟩ := h
  obtain ⟨_, f2, f3⟩ := h2 c
  unfold conn_expired
  rw [f2, f3, h4, h5]

theorem conns_kept_static (a b : sr_nat) (curtime : Int) (h : Static a b) (cs : List Ptr) :
    conns_kept b curtime cs = conns_kept a curtime cs := by
  unfold conns_kept
  congr 1
  funext c
  rw [conn_expired_static a b curtime h c]

theorem mapping_expired_static (a b : sr_nat) (curtime : Int) (tm : Ptr → Int)
    (h : Static a b)
    (cs cs2 : Ptr → List Ptr) (p : Ptr) (hcs : cs2 p = cs p) :
    mapping_expired b curtime tm cs2 p = mapping_expired a curtime tm cs p := by
  obtain ⟨f1, _, _, _, f5⟩ := h.1 p
  unfold mapping_expired
  rw [f1, f5, h.2.2.1, hcs, conns_kept_static a b (tm p) h]

theorem conns_after_pass_static (a b : sr_nat) (tm : Ptr → Int) (h : Static a b)
    (cs cs2 : Ptr → List Ptr) (p : Ptr) (hcs : cs2 p = cs p) :
    conns_after_pass b tm cs2 p = conns_after_pass a tm cs p := by
  obtain ⟨f1, _, _, _, _⟩ := h.1 p
  unfold conns_after_pass
  rw [f1, hcs, conns_kept_static a b (tm p) h]

/-- Bookkeeping for one round of the reaper loop on the mapping `curr`: the
expiry rule and the connection lists computed in the state after the round
agree with those computed before it. -/
theorem pass_round_congr (nat natX : sr_nat) (curtime : Int) (tm : Ptr → Int)
    (cs csX : Ptr → List Ptr)
    (curr : Ptr) (rest : List Ptr) (hcr : curr ∉ rest) (hst : Static nat natX)
    (h1 : ∀ p, p ≠ curr → csX p = cs p)
    (h2 : csX curr = conns_after_pass nat tm cs curr) :
    (fun p => if p ∈ rest then conns_after_pass natX tm csX p else csX p)
        = (fun p => if p ∈ curr :: rest then conns_after_pass nat tm cs p else cs p)
      ∧ rest.filter (fun p => !mapping_expired natX curtime tm csX p)
        = rest.filter (fun p => !mapping_expired nat curtime tm cs p) := by
  constructor
  · funext p
    by_cases hp : p ∈ rest
    · have hne : p ≠ curr := fun e => hcr (e ▸ hp)
      rw [if_pos hp, if_pos (List.mem_cons_of_mem _ hp)]
      exact conns_after_pass_static nat natX tm hst cs csX p (h1 p hne)
    · rw [if_neg hp]
      by_cases hc : p = curr
      · subst hc
        rw [if_pos (List.mem_cons_self _ _)]
        exact h2
      · rw [if_neg, h1 p hc]
        intro hmem
        rcases List.mem_cons.mp hmem with e | hmem
        · exact hc e
        · exact hp hmem
  · apply List.filter_congr
    intro p hp
    have hne : p ≠ curr := fun e => hcr (e ▸ hp)
    rw [mapping_expired_static nat natX curtime tm hst cs csX p (h1 p hne)]

theorem unlinked_mem_out (nat : sr_nat) (pre : List Ptr) (q a : Ptr) (ha : a ∉ pre) :
    (unlinked nat pre q).mapping_mem a = nat.mapping_mem a := by
  unfold unlinked
  cases hl : pre.getLast? with
  | none => rfl
  | some b =>
    have hb : b ∈ pre := List.mem_of_getLast?_eq_some hl
    have : a ≠ b := fun e => ha (e ▸ hb)
    simp [set_mapping_next, this]

/-- The state after `destroy_nat_mapping` on the mapping `curr` that a reaper
round is visiting: the heap is still well formed, without `curr`; the `next`
link read before the call still leads through the mappings not yet visited;
the data the reaper reads is unchanged. -/
theorem destroy_round (nat : sr_nat) (kept rest : List Ptr) (cs : Ptr → List Ptr)
    (curr : Ptr) (X : List Ptr) (h : WellFormed nat (kept ++ curr :: rest) cs) :
    WellFormed (released (unlinked nat kept curr) curr X) (kept ++ rest) cs
      ∧ Seg (mnext (released (unlinked nat kept curr) curr X))
          (nat.mapping_mem curr).next NULL rest
      ∧ Static nat (released (unlinked nat kept curr) curr X) := by
  have hnd := Seg_null_nodup h.table
  obtain ⟨_, f2, _, _, _, f6, f7, f8⟩ := unlinked_frame nat kept curr
  have hsub : ∀ p, p ∈ kept ++ rest → p ∈ kept ++ curr :: rest := by
    intro p hp
    simp only [List.mem_append, List.mem_cons] at hp ⊢
    tauto
  refine ⟨⟨?_, ?_, ?_⟩, ?_, ?_⟩
  · exact IsTable_of_eq rfl rfl (unlinked_isTable nat kept rest curr h.table)
  · intro p hp
    have hc := h.conns p (hsub p hp)
    obtain ⟨_, _, _, _, _, g6⟩ := unlinked_fields nat kept curr p
    unfold IsConns cnext at hc ⊢
    have e1 : (released (unlinked nat kept curr) curr X).conn_mem = nat.conn_mem := f2
    have e2 : ((released (unlinked nat kept curr) curr X).mapping_mem p).conns
        = (nat.mapping_mem p).conns := g6
    rw [e1, e2]
    exact hc
  · intro p hp q hq hpq
    exact h.disjoint p (hsub p hp) q (hsub q hq) hpq
  · obtain ⟨r, _, h2⟩ := Seg_append.mp h.table
    obtain ⟨hr, _, h3⟩ := h2
    subst hr
    apply Seg_congr _ h3
    intro a ha
    have hak : a ∉ kept := by
      intro hk
      exact (List.nodup_append.mp hnd).2.2 hk (List.mem_cons_of_mem _ ha)
    have : (released (unlinked nat kept r) r X).mapping_mem a = nat.mapping_mem a :=
      unlinked_mem_out nat kept r a hak
    simp [mnext, this]
  · refine ⟨?_, ?_, f6, f7, f8⟩
    · intro p
      obtain ⟨g1, g2, g3, g4, g5, _⟩ := unlinked_fields nat kept curr p
      exact ⟨g1, g2, g3, g4, g5⟩
    · intro c
      have e1 : (released (unlinked nat kept curr) curr X).conn_mem = nat.conn_mem := f2
      rw [e1]
      exact ⟨rfl, rfl, rfl⟩

theorem PassFrame_nil (nat : sr_nat) (curtime : Int) (tm : Ptr → Int)
    (cs : Ptr → List Ptr) :
    PassFrame nat nat curtime tm cs [] nat := by
  refine ⟨?_, fun _ _ => rfl, ?_, fun _ _ => rfl, ?_, fun _ _ => rfl⟩
  · intro q hq; cases hq
  · rintro i ⟨q, hq, _⟩; cases hq
  · rintro i ⟨q, hq, _⟩; cases hq

theorem PassFrame_congr (base nat natX nat1 : sr_nat) (curtime : Int) (tm : Ptr → Int)
    (cs csX : Ptr → List Ptr) (rest : List Ptr) (hst : Static nat natX)
    (hcs : ∀ q ∈ rest, csX q = cs q) (h : PassFrame base natX curtime tm csX rest nat1) :
    PassFrame base nat curtime tm cs rest nat1 := by
  have he : ∀ q ∈ rest,
      mapping_expired natX curtime tm csX q = mapping_expired nat curtime tm cs q :=
    fun q hq => mapping_expired_static nat natX curtime tm hst cs csX q (hcs q hq)
  have hp : ∀ i, (∃ q ∈ rest, frees_port natX curtime tm csX q i)
      ↔ (∃ q ∈ rest, frees_port nat curtime tm cs q i) := by
    intro i
    constructor
    · rintro ⟨q, hq, h1, h2, h3⟩
      obtain ⟨f1, _, _, f4, _⟩ := hst.1 q
      exact ⟨q, hq, by rw [← he q hq]; exact h1, by rw [← f1]; exact h2,
        by rw [← f4]; exact h3⟩
    · rintro ⟨q, hq, h1, h2, h3⟩
      obtain ⟨f1, _, _, f4, _⟩ := hst.1 q
      exact ⟨q, hq, by rw [he q hq]; exact h1, by rw [f1]; exact h2, by rw [f4]; exact h3⟩
  have hi : ∀ i, (∃ q ∈ rest, frees_icmp_identifier natX curtime tm csX q i)
      ↔ (∃ q ∈ rest, frees_icmp_identifier nat curtime tm cs q i) := by
    intro i
    constructor
    · rintro ⟨q, hq, h1, h2, h3⟩
      obtain ⟨f1, _, _, f4, _⟩ := hst.1 q
      exact ⟨q, hq, by rw [← he q hq]; exact h1, by rw [← f1]; exact h2,
        by rw [← f4]; exact h3⟩
    · rintro ⟨q, hq, h1, h2, h3⟩
      obtain ⟨f1, _, _, f4, _⟩ := hst.1 q
      exact ⟨q, hq, by rw [he q hq]; exact h1, by rw [f1]; exact h2, by rw [f4]; exact h3⟩
  obtain ⟨a1, a2, a3, a4, a5, a6⟩ := h
  refine ⟨?_, ?_, ?_, ?_, ?_, ?_⟩
  · intro q hq hex
    exact a1 q hq (by rw [he q hq]; exact hex)
  · intro q hq
    apply a2 q
    rintro ⟨h1, h2⟩
    exact hq ⟨h1, by rw [← he q h1]; exact h2⟩
  · intro i hex
    exact a3 i ((hp i).mpr hex)
  · intro i hex
    exact a4 i (fun hh => hex ((hp i).mp hh))
  · intro i hex
    exact a5 i ((hi i).mpr hex)
  · intro i hex
    exact a6 i (fun hh => hex ((hi i).mp hh))

/-- A reaper round that keeps the mapping `p`, followed by the rest of the
pass. -/
theorem PassFrame_cons_kept (nat natX nat1 : sr_nat) (curtime : Int) (tm : Ptr → Int)
    (cs : Ptr → List Ptr)
    (p : Ptr) (rest : List Ptr) (hex : mapping_expired nat curtime tm cs p = false)
    (hlive : natX.mapping_live = nat.mapping_live)
    (hports : natX.available_ports = nat.available_ports)
    (hicmp : natX.available_icmp_identifiers = nat.available_icmp_identifiers)
    (h : PassFrame natX nat curtime tm cs rest nat1) :
    PassFrame nat nat curtime tm cs (p :: rest) nat1 := by
  obtain ⟨a1, a2, a3, a4, a5, a6⟩ := h
  refine ⟨?_, ?_, ?_, ?_, ?_, ?_⟩
  · intro q hq hexq
    rcases List.mem_cons.mp hq with e | hq
    · subst e; rw [hex] at hexq; cases hexq
    · exact a1 q hq hexq
  · intro q hq
    rw [← hlive]
    apply a2 q
    rintro ⟨h1, h2⟩
    exact hq ⟨List.mem_cons_of_mem _ h1, h2⟩
  · rintro i ⟨q, hq, hf⟩
    rcases List.mem_cons.mp hq with e | hq
    · subst e; rw [hf.1] at hex; cases hex
    · exact a3 i ⟨q, hq, hf⟩
  · intro i hn
    rw [← hports]
    apply a4 i
    rintro ⟨q, hq, hf⟩
    exact hn ⟨q, List.mem_cons_of_mem _ hq, hf⟩
  · rintro i ⟨q, hq, hf⟩
    rcases List.mem_cons.mp hq with e | hq
    · subst e; rw [hf.1] at hex; cases hex
    · exact a5 i ⟨q, hq, hf⟩
  · intro i hn
    rw [← hicmp]
    apply a6 i
    rintro ⟨q, hq, hf⟩
    exact hn ⟨q, List.mem_cons_of_mem _ hq, hf⟩

/-- A reaper round that removes the mapping `p`, followed by the rest of the
pass. -/
theorem PassFrame_cons_removed (nat natX nat1 : sr_nat) (curtime : Int) (tm : Ptr → Int)
    (cs : Ptr → List Ptr) (p : Ptr) (rest : List Ptr) (hpr : p ∉ rest)
    (hex : mapping_expired nat curtime tm cs p = true)
    (hlive : natX.mapping_live = fun a => if a = p then false else nat.mapping_live a)
    (hports : natX.available_ports
      = (if (nat.mapping_mem p).type = nat_mapping_tcp then
          pool_set nat.available_ports (nat.mapping_mem p).aux_ext 0
        else nat.available_ports))
    (hicmp : natX.available_icmp_identifiers
      = (if (nat.mapping_mem p).type = nat_mapping_icmp then
          pool_set nat.available_icmp_identifiers (nat.mapping_mem p).aux_ext 0
        else nat.available_icmp_identifiers))
    (h : PassFrame natX nat curtime tm cs rest nat1) :
    PassFrame nat nat curtime tm cs (p :: rest) nat1 := by
  obtain ⟨a1, a2, a3, a4, a5, a6⟩ := h
  refine ⟨?_, ?_, ?_, ?_, ?_, ?_⟩
  · intro q hq hexq
    rcases List.mem_cons.mp hq with e | hq
    · subst e
      rw [a2 q (fun hh => hpr hh.1), hlive]
      simp
    · exact a1 q hq hexq
  · intro q hq
    have hqp : q ≠ p := by
      intro e
      subst e
      exact hq ⟨List.mem_cons_self _ _, hex⟩
    rw [a2 q (fun hh => hq ⟨List.mem_cons_of_mem _ hh.1, hh.2⟩), hlive]
    simp [hqp]
  · rintro i ⟨q, hq, hf⟩
    by_cases hr : ∃ q ∈ rest, frees_port nat curtime tm cs q i
    · exact a3 i hr
    · rcases List.mem_cons.mp hq with e | hq
      · subst e
        rw [a4 i hr, hports, if_pos hf.2.1, ← hf.2.2]
        simp [pool_set]
      · exact absurd ⟨q, hq, hf⟩ hr
  · intro i hn
    have hr : ¬ ∃ q ∈ rest, frees_port nat curtime tm cs q i := by
      rintro ⟨q, hq, hf⟩
      exact hn ⟨q, List.mem_cons_of_mem _ hq, hf⟩
    rw [a4 i hr, hports]
    by_cases ht : (nat.mapping_mem p).type = nat_mapping_tcp
    · rw [if_pos ht]
      have hne : i ≠ (nat.mapping_mem p).aux_ext := by
        intro e
        exact hn ⟨p, List.mem_cons_self _ _, hex, ht, e.symm⟩
      simp [pool_set, hne]
    · rw [if_neg ht]
  · rintro i ⟨q, hq, hf⟩
    by_cases hr : ∃ q ∈ rest, frees_icmp_identifier nat curtime tm cs q i
    · exact a5 i hr
    · rcases List.mem_cons.mp hq with e | hq
      · subst e
        rw [a6 i hr, hicmp, if_pos hf.2.1, ← hf.2.2]
        simp [pool_set]
      · exact absurd ⟨q, hq, hf⟩ hr
  · intro i hn
    have hr : ¬ ∃ q ∈ rest, frees_icmp_identifier nat curtime tm cs q i := by
      rintro ⟨q, hq, hf⟩
      exact hn ⟨q, List.mem_cons_of_mem _ hq, hf⟩
    rw [a6 i hr, hicmp]
    by_cases ht : (nat.mapping_mem p).type = nat_mapping_icmp
    · rw [if_pos ht]
      have hne : i ≠ (nat.mapping_mem p).aux_ext := by
        intro e
        exact hn ⟨p, List.mem_cons_self _ _, hex, ht, e.symm⟩
      simp [pool_set, hne]
    · rw [if_neg ht]

/-- The state after `check_tcp_conns` on the TCP mapping `curr` that a reaper
round is visiting: the heap is still well formed, with the connection list of
`curr` swept; the table links and the data the reaper reads are unchanged. -/
theorem sweep_round (nat nat1 : sr_nat) (curtime : Int) (kept rest : List Ptr)
    (cs : Ptr → List Ptr) (curr : Ptr) (h : WellFormed nat (kept ++ curr :: rest) cs)
    (e2 : IsConns nat1 curr (conns_kept nat curtime (cs curr)))
    (e3 : nat1 = { nat with
                   mapping_mem := nat1.mapping_mem
                   conn_mem := nat1.conn_mem
                   conn_live := nat1.conn_live })
    (e4 : ∀ p, p ≠ curr → nat1.mapping_mem p = nat.mapping_mem p)
    (e5 : ∀ p, { nat1.mapping_mem p with conns := NULL }
        = { nat.mapping_mem p with conns := NULL })
    (e6 : ∀ a, a ∉ cs curr → nat1.conn_mem a = nat.conn_mem a)
    (e7 : ∀ a, { nat1.conn_mem a with next := NULL } = { nat.conn_mem a with next := NULL }) :
    WellFormed nat1 (kept ++ curr :: rest)
        (fun p => if p = curr then conns_kept nat curtime (cs curr) else cs p)
      ∧ Static nat nat1
      ∧ (∀ p, (nat1.mapping_mem p).next = (nat.mapping_mem p).next) := by
  have hnext : ∀ p, (nat1.mapping_mem p).next = (nat.mapping_mem p).next :=
    fun p => (mapping_static_fields (e5 p)).2
  have hcurr : curr ∈ kept ++ curr :: rest := by simp
  have hsub : ∀ p c, c ∈ (if p = curr then conns_kept nat curtime (cs curr) else cs p) →
      c ∈ cs p := by
    intro p c hc
    by_cases hp : p = curr
    · subst hp
      rw [if_pos rfl] at hc
      exact (List.mem_filter.mp hc).1
    · rw [if_neg hp] at hc
      exact hc
  refine ⟨⟨?_, ?_, ?_⟩, ?_, hnext⟩
  · have hm : nat1.mappings = nat.mappings := by rw [e3]
    have hn : mnext nat1 = mnext nat := by
      funext p
      exact hnext p
    unfold IsTable
    rw [hm, hn]
    exact h.table
  · intro p hp
    by_cases hpc : p = curr
    · subst hpc
      simp only [if_true]
      exact e2
    · simp only [hpc, if_false]
      have hc := h.conns p hp
      unfold IsConns at hc ⊢
      rw [e4 p hpc]
      apply Seg_congr _ hc
      intro a ha
      have hna : a ∉ cs curr := h.disjoint p hp curr hcurr hpc a ha
      simp [cnext, e6 a hna]
  · intro p hp q hq hpq c hc hc2
    exact h.disjoint p hp q hq hpq c (hsub p c hc) (hsub q c hc2)
  · refine ⟨fun p => (mapping_static_fields (e5 p)).1, fun c => conn_static_fields (e7 c),
      by rw [e3], by rw [e3], by rw [e3]⟩

theorem isConns_nil_iff (nat : sr_nat) (m : Ptr) (cs : List Ptr) (h : IsConns nat m cs) :
    (nat.mapping_mem m).conns = NULL ↔ cs = [] := by
  cases cs with
  | nil => simp only [iff_true]; exact h
  | cons a cs =>
    obtain ⟨h1, h2, _⟩ := h
    simp only [reduceCtorEq, iff_false]
    intro e
    exact h2 (h1.symm.trans e)

/-- The loop of `sr_nat_timeout` over the mappings `rest` that are still to be
visited, with the mappings `kept` already visited and kept, on a well-formed
heap.  With enough fuel the loop returns; the table becomes `kept` followed by
the mappings of `rest` that are not expired, in the old order; the heap is
still well formed, the connection list of each visited TCP mapping being the
swept one; the data the reaper reads is unchanged. -/
theorem sr_nat_timeout_loop_spec (F : Nat) (curtime : Int) (clock : Nat → Int)
    (tm : Ptr → Int) :
    ∀ (rest kept : List Ptr) (nat : sr_nat) (cs : Ptr → List Ptr) (curr : Ptr)
      (fuel i : Nat),
      WellFormed nat (kept ++ rest) cs → Seg (mnext nat) curr NULL rest →
      rest.length < fuel → (kept ++ rest).length < F → (∀ p ∈ rest, (cs p).length < F) →
      (∀ x ∈ rest.enumFrom i, clock x.1 = tm x.2) →
      ∃ nat1, sr_nat_timeout_loop F curtime clock fuel i nat curr = some nat1
        ∧ WellFormed nat1
            (kept ++ rest.filter (fun p => !mapping_expired nat curtime tm cs p))
            (fun p => if p ∈ rest then conns_after_pass nat tm cs p else cs p)
        ∧ Static nat nat1
        ∧ PassFrame nat nat curtime tm cs rest nat1 := by
  intro rest
  induction rest with
  | nil =>
    intro kept nat cs curr fuel i hwf hs hf _ _ _
    have hp : curr = NULL := hs
    subst hp
    cases fuel with
    | zero => simp at hf
    | succ n =>
      refine ⟨nat, by simp [sr_nat_timeout_loop], ?_, Static_refl nat,
        PassFrame_nil nat curtime tm cs⟩
      simpa using hwf
  | cons curr rest ih =>
    intro kept nat cs p fuel i hwf hs hf hF hcs hclk
    obtain ⟨h1, h2, h3⟩ := hs
    subst h1
    have hnd := Seg_null_nodup hwf.table
    have hcr : p ∉ rest := by
      have := (List.nodup_append.mp hnd).2.1
      exact (List.nodup_cons.mp this).1
    have hpin : p ∈ kept ++ p :: rest := by simp
    have hkl : kept.length < F := by simp at hF; omega
    have hF2 : (kept ++ rest).length < F := by simp at hF ⊢; omega
    have hF3 : ((kept ++ [p]) ++ rest).length < F := by simpa using hF
    have hcs2 : ∀ q ∈ rest, (cs q).length < F := fun q hq => hcs q (List.mem_cons_of_mem _ hq)
    have hwf3 : WellFormed nat ((kept ++ [p]) ++ rest) cs := by simpa using hwf
    have hck : clock i = tm p := hclk (i, p) (by simp [List.enumFrom])
    have hclk2 : ∀ x ∈ rest.enumFrom (i + 1), clock x.1 = tm x.2 := by
      intro x hx
      exact hclk x (by simp only [List.enumFrom, List.mem_cons]; exact Or.inr hx)
    cases fuel with
    | zero => simp at hf
    | succ n =>
      have hn : rest.length < n := by simpa using hf
      rw [sr_nat_timeout_loop, if_neg h2, hck]
      simp only []
      cases ht : (nat.mapping_mem p).type with
      | nat_mapping_icmp =>
        simp only [if_true]
        have hcap : cs p = conns_after_pass nat tm cs p := by
          simp [conns_after_pass, ht]
        by_cases hex : difftime curtime (nat.mapping_mem p).last_updated
            > nat.icmp_query_timeout
        · rw [if_pos hex]
          rw [destroy_nat_mapping_spec F nat kept rest (cs p) p hwf.table
            (hwf.conns p hpin) hkl (hcs p (List.mem_cons_self _ _))]
          simp only []
          obtain ⟨w1, w2, w3⟩ := destroy_round nat kept rest cs p (cs p) hwf
          obtain ⟨nat1, e1, e2, e3, e4⟩ := ih kept _ cs _ n (i + 1) w1 w2 hn hF2 hcs2 hclk2
          obtain ⟨c1, c2⟩ := pass_round_congr nat _ curtime tm cs cs p rest hcr w3
            (fun _ _ => rfl) hcap
          have hexp : mapping_expired nat curtime tm cs p = true := by
            simp [mapping_expired, ht, hex]
          have hpf := PassFrame_cons_removed nat _ nat1 curtime tm cs p rest hcr hexp
            (by simp [released, (unlinked_frame nat kept p).1])
            (released_unlinked_pools nat kept (cs p) p).1
            (released_unlinked_pools nat kept (cs p) p).2
            (PassFrame_congr _ nat _ nat1 curtime tm cs cs rest w3 (fun _ _ => rfl) e4)
          refine ⟨nat1, e1, ?_, Static_trans w3 e3, hpf⟩
          rw [c1, c2] at e2
          simpa [List.filter, hexp] using e2
        · rw [if_neg hex]
          obtain ⟨nat1, e1, e2, e3, e4⟩ :=
            ih (kept ++ [p]) nat cs _ n (i + 1) hwf3 h3 hn hF3 hcs2 hclk2
          obtain ⟨c1, c2⟩ := pass_round_congr nat nat curtime tm cs cs p rest hcr
            (Static_refl nat) (fun _ _ => rfl) hcap
          have hexp : mapping_expired nat curtime tm cs p = false := by
            simp [mapping_expired, ht, hex]
          have hpf := PassFrame_cons_kept nat nat nat1 curtime tm cs p rest hexp rfl rfl rfl e4
          refine ⟨nat1, e1, ?_, e3, hpf⟩
          rw [c1] at e2
          simpa [List.filter, hexp] using e2
      | nat_mapping_tcp =>
        simp only [reduceCtorEq, if_false, if_true]
        obtain ⟨nat1, s1, s2, s3, s4, s5, s6, s7, _⟩ :=
          check_tcp_conns_spec F (tm p) nat p (cs p) (hwf.conns p hpin)
            (hcs p (List.mem_cons_self _ _))
        rw [s1]
        simp only []
        obtain ⟨v1, v2, v3⟩ := sweep_round nat nat1 (tm p) kept rest cs p hwf s2 s3 s4 s5 s6 s7
        have hcap : (fun q => if q = p then conns_kept nat (tm p) (cs p) else cs q) p
            = conns_after_pass nat tm cs p := by
          simp [conns_after_pass, ht]
        have hcsX : ∀ q, q ≠ p →
            (fun q => if q = p then conns_kept nat (tm p) (cs p) else cs q) q = cs q := by
          intro q hq
          simp [hq]
        have hlu : (nat1.mapping_mem p).last_updated = (nat.mapping_mem p).last_updated :=
          (v2.1 p).2.2.2.2
        have hnil := isConns_nil_iff nat1 p _ s2
        have hcsl : ∀ q ∈ rest,
            ((fun q => if q = p then conns_kept nat (tm p) (cs p) else cs q) q).length < F := by
          intro q hq
          have hqp : q ≠ p := fun e => hcr (e ▸ hq)
          simp only [hqp, if_false]
          exact hcs2 q hq
        have hcsr : ∀ q ∈ rest,
            (fun q => if q = p then conns_kept nat (tm p) (cs p) else cs q) q = cs q :=
          fun q hq => hcsX q (fun e => hcr (e ▸ hq))
        have hl1 : nat1.mapping_live = nat.mapping_live := by rw [s3]
        have hp1 : nat1.available_ports = nat.available_ports := by rw [s3]
        have hi1 : nat1.available_icmp_identifiers = nat.available_icmp_identifiers := by
          rw [s3]
        by_cases hex : (nat1.mapping_mem p).conns = NULL
            ∧ 2 * difftime curtime (nat1.mapping_mem p).last_updated > 1
        · rw [if_pos hex]
          have hlen : (conns_kept nat (tm p) (cs p)).length < F := by
            rw [hnil.mp hex.1]
            simp
            omega
          have hconn : IsConns nat1 p (conns_kept nat (tm p) (cs p)) := s2
          rw [destroy_nat_mapping_spec F nat1 kept rest _ p v1.table hconn hkl hlen]
          simp only []
          obtain ⟨w1, w2, w3⟩ := destroy_round nat1 kept rest _ p
            (conns_kept nat (tm p) (cs p)) v1
          rw [v3 p] at w2
          obtain ⟨nat2, e1, e2, e3, e4⟩ := ih kept _ _ _ n (i + 1) w1 w2 hn hF2 hcsl hclk2
          obtain ⟨c1, c2⟩ := pass_round_congr nat _ curtime tm cs _ p rest hcr
            (Static_trans v2 w3) hcsX hcap
          have hexp : mapping_expired nat curtime tm cs p = true := by
            rw [hlu] at hex
            simp [mapping_expired, ht, hnil.mp hex.1, hex.2]
          obtain ⟨t1, _, _, t4, _⟩ := v2.1 p
          have hpools := released_unlinked_pools nat1 kept (conns_kept nat (tm p) (cs p)) p
          rw [t1, t4, hp1, hi1] at hpools
          have hpf := PassFrame_cons_removed nat _ nat2 curtime tm cs p rest hcr hexp
            (by simp [released, (unlinked_frame nat1 kept p).1, hl1])
            hpools.1 hpools.2
            (PassFrame_congr _ nat _ nat2 curtime tm cs _ rest (Static_trans v2 w3) hcsr e4)
          refine ⟨nat2, e1, ?_, Static_trans (Static_trans v2 w3) e3, hpf⟩
          rw [c1, c2] at e2
          simpa [List.filter, hexp] using e2
        · rw [if_neg hex]
          have v1b : WellFormed nat1 ((kept ++ [p]) ++ rest)
              (fun q => if q = p then conns_kept nat (tm p) (cs p) else cs q) := by
            simpa using v1
          have h3b : Seg (mnext nat1) (nat.mapping_mem p).next NULL rest := by
            have hn2 : mnext nat1 = mnext nat := by
              funext q
              exact v3 q
            rw [hn2]
            exact h3
          obtain ⟨nat2, e1, e2, e3, e4⟩ :=
            ih (kept ++ [p]) nat1 _ _ n (i + 1) v1b h3b hn hF3 hcsl hclk2
          obtain ⟨c1, c2⟩ := pass_round_congr nat nat1 curtime tm cs _ p rest hcr v2 hcsX hcap
          have hexp : mapping_expired nat curtime tm cs p = false := by
            rw [hlu] at hex
            simp only [mapping_expired, ht, reduceCtorEq, if_false, if_true,
              decide_eq_false_iff_not]
            intro hh
            exact hex ⟨hnil.mpr hh.1, hh.2⟩
          have hpf := PassFrame_cons_kept nat nat1 nat2 curtime tm cs p rest hexp hl1 hp1 hi1
            (PassFrame_congr _ nat _ nat2 curtime tm cs _ rest v2 hcsr e4)
          refine ⟨nat2, e1, ?_, Static_trans v2 e3, hpf⟩
          rw [c1, c2] at e2
          simpa [List.filter, hexp] using e2

theorem enumFrom_indexOf (l : List Ptr) :
    ∀ (i : Nat), l.Nodup → ∀ x ∈ l.enumFrom i, x.1 = i + l.indexOf x.2 := by
  induction l with
  | nil => intro i _ x hx; cases hx
  | cons a l ih =>
    intro i hnd x hx
    simp only [List.enumFrom, List.mem_cons] at hx
    rcases hx with e | hx
    · rw [e]; simp
    · have hmem : x.2 ∈ l := by
        obtain ⟨_, _, h3⟩ := List.mem_enumFrom hx
        rw [h3]
        exact List.getElem_mem ..
      have hne : x.2 ≠ a := fun e => (List.nodup_cons.mp hnd).1 (e ▸ hmem)
      have h1 := ih (i + 1) (List.nodup_cons.mp hnd).2 x hx
      rw [List.indexOf_cons_ne _ (Ne.symm hne), h1]
      omega

/-- One pass of the reaper on a well-formed heap: with fuel above the table
length and above the length of every connection list the pass returns; the
table becomes the old table without the expired mappings, in the old order,
and the heap is still well formed.  The sweep of each TCP mapping runs at its
own clock read. -/
theorem sr_nat_timeout_pass_spec (fuel : Nat) (curtime : Int) (clock : Nat → Int)
    (nat : sr_nat) (l : List Ptr) (cs : Ptr → List Ptr) (hwf : WellFormed nat l cs)
    (hf : l.length < fuel) (hcs : ∀ p ∈ l, (cs p).length < fuel) :
    ∃ nat1, sr_nat_timeout_pass fuel curtime clock nat = some nat1
      ∧ WellFormed nat1
          (l.filter (fun p => !mapping_expired nat curtime (sweep_clock clock l) cs p))
          (fun p => if p ∈ l then conns_after_pass nat (sweep_clock clock l) cs p else cs p)
      ∧ Static nat nat1
      ∧ PassFrame nat nat curtime (sweep_clock clock l) cs l nat1 := by
  have hclk : ∀ x ∈ l.enumFrom 0, clock x.1 = sweep_clock clock l x.2 := by
    intro x hx
    have := enumFrom_indexOf l 0 (Seg_null_nodup hwf.table) x hx
    unfold sweep_clock
    rw [this]
    simp
  have := sr_nat_timeout_loop_spec fuel curtime clock (sweep_clock clock l) l [] nat cs
    nat.mappings fuel 0 (by simpa using hwf) hwf.table hf (by simpa using hf) hcs hclk
  simpa [sr_nat_timeout_pass] using this

/-! ## Expiry of ICMP mappings -/

/-- C10: one reaper pass on a well-formed heap returns with enough fuel, and an
ICMP mapping is held in the table after the pass exactly when it was held
before and `curtime - last_updated <= icmp_query_timeout`.  A held ICMP mapping
with `last_updated = curtime - (icmp_query_timeout + 1)` is gone; one with
`last_updated = curtime` is still held (for a timeout that is not negative).
The pass changes no field by which a mapping is ICMP or idle.  This holds
whatever the clock reads of the connection sweeps are. -/
theorem icmp_expiry (fuel : Nat) (curtime : Int) (clock : Nat → Int) (nat : sr_nat)
    (l : List Ptr) (cs : Ptr → List Ptr) (hwf : WellFormed nat l cs) (hf : l.length < fuel)
    (hcs : ∀ p ∈ l, (cs p).length < fuel) :
    ∃ nat1 l1, sr_nat_timeout_pass fuel curtime clock nat = some nat1 ∧ IsTable nat1 l1
      ∧ (∀ p, (nat.mapping_mem p).type = nat_mapping_icmp →
          (p ∈ l1 ↔ p ∈ l
            ∧ curtime - (nat.mapping_mem p).last_updated ≤ nat.icmp_query_timeout))
      ∧ (∀ p ∈ l, (nat.mapping_mem p).type = nat_mapping_icmp →
          (nat.mapping_mem p).last_updated = curtime - (nat.icmp_query_timeout + 1) →
          p ∉ l1)
      ∧ (∀ p ∈ l, (nat.mapping_mem p).type = nat_mapping_icmp →
          (nat.mapping_mem p).last_updated = curtime → 0 ≤ nat.icmp_query_timeout →
          p ∈ l1)
      ∧ (∀ p, same_static (nat1.mapping_mem p) (nat.mapping_mem p)) := by
  obtain ⟨nat1, h1, h2, h3, _⟩ :=
    sr_nat_timeout_pass_spec fuel curtime clock nat l cs hwf hf hcs
  have key : ∀ p, (nat.mapping_mem p).type = nat_mapping_icmp →
      (p ∈ l.filter (fun p => !mapping_expired nat curtime (sweep_clock clock l) cs p) ↔ p ∈ l
        ∧ curtime - (nat.mapping_mem p).last_updated ≤ nat.icmp_query_timeout) := by
    intro p ht
    rw [List.mem_filter]
    simp only [mapping_expired, ht, if_true, difftime, Bool.not_eq_true',
      decide_eq_false_iff_not, not_lt]
  refine ⟨nat1, _, h1, h2.table, key, ?_, ?_, h3.1⟩
  · intro p _ ht hlu hmem
    have := ((key p ht).mp hmem).2
    rw [hlu] at this
    omega
  · intro p hp ht hlu hpos
    apply (key p ht).mpr
    refine ⟨hp, ?_⟩
    rw [hlu]
    omega

/-- C10 on a concrete state: at time `161` the two ICMP mappings of
`example_nat8`, last updated at time `100`, are past the timeout of `60`; the
sweep of the TCP mapping reads the clock one second later. -/
theorem icmp_expiry_witness :
    ∃ nat1 l1, sr_nat_timeout_pass 5 161 (fun _ => 162) example_nat8 = some nat1
      ∧ IsTable nat1 l1
      ∧ (∀ p, (example_nat8.mapping_mem p).type = nat_mapping_icmp →
          (p ∈ l1 ↔ p ∈ [3, 2, 1]
            ∧ 161 - (example_nat8.mapping_mem p).last_updated
              ≤ example_nat8.icmp_query_timeout))
      ∧ (∀ p ∈ [3, 2, 1], (example_nat8.mapping_mem p).type = nat_mapping_icmp →
          (example_nat8.mapping_mem p).last_updated
            = 161 - (example_nat8.icmp_query_timeout + 1) →
          p ∉ l1)
      ∧ (∀ p ∈ [3, 2, 1], (example_nat8.mapping_mem p).type = nat_mapping_icmp →
          (example_nat8.mapping_mem p).last_updated = 161 →
          0 ≤ example_nat8.icmp_query_timeout → p ∈ l1)
      ∧ (∀ p, same_static (nat1.mapping_mem p) (example_nat8.mapping_mem p)) :=
  icmp_expiry 5 161 (fun _ => 162) example_nat8 [3, 2, 1] (fun p => if p = 3 then [7] else [])
    ⟨by decide, by decide, by decide⟩ (by decide) (by decide)

/-! ## More fuel never changes a result -/

theorem conn_expired_iff (nat : sr_nat) (curtime : Int) (c : Ptr) :
    conn_expired nat curtime c = true ↔ sweep_rule nat curtime c := by
  unfold conn_expired sweep_rule difftime
  by_cases hs : (nat.conn_mem c).tcp_state = ESTABLISHED
  · simp [hs]
  · simp [hs]

/-- C11: one reaper pass on a well-formed heap returns with enough fuel, and a
TCP mapping is held after the pass exactly when it was held before and it is
not the case that both its swept connection list is empty and
`curtime - last_updated` exceeds half a second, where `curtime` is the clock
read of the pass; the established and transitory timeouts play no part in
this test.  The swept connection list of the mapping at `p` is what
`check_tcp_conns` keeps at its own clock read `sweep_clock clock l p`, whatever
that read is.  A TCP mapping that is still held has the swept connection
list. -/
theorem tcp_mapping_reap (fuel : Nat) (curtime : Int) (clock : Nat → Int) (nat : sr_nat)
    (l : List Ptr) (cs : Ptr → List Ptr) (hwf : WellFormed nat l cs) (hf : l.length < fuel)
    (hcs : ∀ p ∈ l, (cs p).length < fuel) :
    ∃ nat1 l1, sr_nat_timeout_pass fuel curtime clock nat = some nat1 ∧ IsTable nat1 l1
      ∧ (∀ p, (nat.mapping_mem p).type = nat_mapping_tcp →
          (p ∈ l1 ↔ p ∈ l
            ∧ ¬ (conns_kept nat (sweep_clock clock l p) (cs p) = []
              ∧ 2 * (curtime - (nat.mapping_mem p).last_updated) > 1)))
      ∧ (∀ p ∈ l1, (nat.mapping_mem p).type = nat_mapping_tcp →
          IsConns nat1 p (conns_kept nat (sweep_clock clock l p) (cs p)))
      ∧ (∀ p, same_static (nat1.mapping_mem p) (nat.mapping_mem p)) := by
  obtain ⟨nat1, h1, h2, h3, _⟩ :=
    sr_nat_timeout_pass_spec fuel curtime clock nat l cs hwf hf hcs
  have key : ∀ p, (nat.mapping_mem p).type = nat_mapping_tcp →
      (p ∈ l.filter (fun p => !mapping_expired nat curtime (sweep_clock clock l) cs p) ↔
        p ∈ l
        ∧ ¬ (conns_kept nat (sweep_clock clock l p) (cs p) = []
          ∧ 2 * (curtime - (nat.mapping_mem p).last_updated) > 1)) := by
    intro p ht
    rw [List.mem_filter]
    simp only [mapping_expired, ht, reduceCtorEq, if_false, if_true, difftime,
      Bool.not_eq_true', decide_eq_false_iff_not]
  refine ⟨nat1, _, h1, h2.table, key, ?_, h3.1⟩
  intro p hp ht
  have hpl : p ∈ l := (List.mem_filter.mp hp).1
  have := h2.conns p hp
  simpa [hpl, conns_after_pass, ht] using this

/-- C11 on a concrete state: the pass reads the clock as `400` and the sweep
of the TCP mapping of `example_nat8` reads it as `401`, one second later.  At
`401` the only connection record of the mapping is past the transitory timeout
of `300`, which it is not at `400`; the record is removed and the mapping goes
with it, as the two ICMP mappings do, and the table is empty after the pass.
With a sweep that reads `400` the TCP mapping stays. -/
theorem tcp_mapping_reap_witness :
    IsTable (state_after_pass 5 400 (fun _ => 401) example_nat8) []
      ∧ IsTable (state_after_pass 5 400 (fun _ => 400) example_nat8) [3]
      ∧ conns_kept example_nat8 400 [7] = [7] ∧ conns_kept example_nat8 401 [7] = []
      ∧ ∃ nat1 l1, sr_nat_timeout_pass 5 400 (fun _ => 401) example_nat8 = some nat1
        ∧ IsTable nat1 l1
        ∧ (∀ p, (example_nat8.mapping_mem p).type = nat_mapping_tcp →
            (p ∈ l1 ↔ p ∈ [3, 2, 1]
              ∧ ¬ (conns_kept example_nat8 (sweep_clock (fun _ => 401) [3, 2, 1] p)
                    ((fun p => if p = 3 then [7] else []) p) = []
                ∧ 2 * (400 - (example_nat8.mapping_mem p).last_updated) > 1)))
        ∧ (∀ p ∈ l1, (example_nat8.mapping_mem p).type = nat_mapping_tcp →
            IsConns nat1 p
              (conns_kept example_nat8 (sweep_clock (fun _ => 401) [3, 2, 1] p)
                ((fun p => if p = 3 then [7] else []) p)))
        ∧ (∀ p, same_static (nat1.mapping_mem p) (example_nat8.mapping_mem p)) :=
  ⟨by decide, by decide, by decide, by decide,
    tcp_mapping_reap 5 400 (fun _ => 401) example_nat8 [3, 2, 1]
      (fun p => if p = 3 then [7] else []) ⟨by decide, by decide, by decide⟩ (by decide)
      (by decide)⟩

/-- C12: `check_tcp_conns` on a mapping with connection records `cs` returns
with enough fuel and leaves exactly the records of `cs` that do not meet the
removal rule, in their old order and with their fields unchanged; each record
is judged by its own state and idle time, and a record idle for exactly its
timeout is kept. -/
theorem connection_sweep (fuel : Nat) (curtime : Int) (nat : sr_nat) (m : Ptr)
    (cs : List Ptr) (h : IsConns nat m cs) (hf : cs.length < fuel) :
    ∃ nat1 cs1, check_tcp_conns fuel curtime nat m = some nat1 ∧ IsConns nat1 m cs1
      ∧ List.Sublist cs1 cs
      ∧ (∀ c, c ∈ cs1 ↔ c ∈ cs ∧ ¬ sweep_rule nat curtime c)
      ∧ (∀ c, same_conn_static (nat1.conn_mem c) (nat.conn_mem c))
      ∧ (∀ c ∈ cs, (nat.conn_mem c).tcp_state = ESTABLISHED →
          curtime - (nat.conn_mem c).last_updated = nat.tcp_estb_timeout → c ∈ cs1)
      ∧ (∀ c ∈ cs, (nat.conn_mem c).tcp_state ≠ ESTABLISHED →
          curtime - (nat.conn_mem c).last_updated = nat.tcp_trns_timeout → c ∈ cs1) := by
  obtain ⟨nat1, e1, e2, _, _, _, _, e7, _⟩ := check_tcp_conns_spec fuel curtime nat m cs h hf
  have key : ∀ c, c ∈ conns_kept nat curtime cs
      ↔ c ∈ cs ∧ ¬ sweep_rule nat curtime c := by
    intro c
    unfold conns_kept
    rw [List.mem_filter, ← conn_expired_iff]
    simp
  refine ⟨nat1, conns_kept nat curtime cs, e1, e2, List.filter_sublist cs, key,
    fun c => conn_static_fields (e7 c), ?_, ?_⟩
  · intro c hc hs hd
    apply (key c).mpr
    refine ⟨hc, ?_⟩
    rintro (⟨_, h2⟩ | ⟨h1, _⟩)
    · omega
    · exact h1 hs
  · intro c hc hs hd
    apply (key c).mpr
    refine ⟨hc, ?_⟩
    rintro (⟨h1, _⟩ | ⟨_, h2⟩)
    · exact hs h1
    · omega

/-- C12 on a concrete state: the sweep of the TCP mapping of `example_nat8` at
time `400`, when its record is idle for exactly the transitory timeout. -/
theorem connection_sweep_witness :
    ∃ nat1 cs1, check_tcp_conns 5 400 example_nat8 3 = some nat1 ∧ IsConns nat1 3 cs1
      ∧ List.Sublist cs1 [7]
      ∧ (∀ c, c ∈ cs1 ↔ c ∈ [7] ∧ ¬ sweep_rule example_nat8 400 c)
      ∧ (∀ c, same_conn_static (nat1.conn_mem c) (example_nat8.conn_mem c))
      ∧ (∀ c ∈ [7], (example_nat8.conn_mem c).tcp_state = ESTABLISHED →
          400 - (example_nat8.conn_mem c).last_updated = example_nat8.tcp_estb_timeout →
          c ∈ cs1)
      ∧ (∀ c ∈ [7], (example_nat8.conn_mem c).tcp_state ≠ ESTABLISHED →
          400 - (example_nat8.conn_mem c).last_updated = example_nat8.tcp_trns_timeout →
          c ∈ cs1) :=
  connection_sweep 5 400 example_nat8 3 [7] (by decide) (by decide)

/-! ## Lookups and insert on a well-formed table -/

theorem firstMatch_find (f : Ptr → Bool) (l : List Ptr) :
    FirstMatch f l ((l.find? f).getD NULL) := by
  induction l with
  | nil => right; simp
  | cons a l ih =>
    by_cases ha : f a = true
    · have hr : ((a :: l).find? f).getD NULL = a := by simp [List.find?, ha]
      rw [hr]
      left
      exact ⟨[], l, by simp, ha, by simp⟩
    · have ha2 : f a = false := by simpa using ha
      have hr : ((a :: l).find? f).getD NULL = (l.find? f).getD NULL := by
        simp [List.find?, ha2]
      rw [hr]
      generalize (List.find? f l).getD NULL = r at ih ⊢
      rcases ih with ⟨pre, post, h1, h2, h3⟩ | ⟨h1, h2⟩
      · left
        refine ⟨a :: pre, post, by rw [h1]; simp, h2, ?_⟩
        intro b hb
        rcases List.mem_cons.mp hb with e | hb
        · rw [e]; exact ha2
        · exact h3 b hb
      · right
        refine ⟨h1, ?_⟩
        intro b hb
        rcases List.mem_cons.mp hb with e | hb
        · rw [e]; exact ha2
        · exact h2 b hb

theorem firstMatch_null_iff (f : Ptr → Bool) (l : List Ptr) (r : Ptr)
    (hl : ∀ a ∈ l, a ≠ NULL) (h : FirstMatch f l r) :
    r = NULL ↔ ∀ a ∈ l, f a = false := by
  rcases h with ⟨pre, post, h1, h2, _⟩ | ⟨h1, h2⟩
  · have hr : r ∈ l := by rw [h1]; simp
    constructor
    · intro e
      exact absurd e (hl r hr)
    · intro hall
      rw [hall r hr] at h2
      cases h2
  · exact ⟨fun _ => h2, fun _ => h1⟩

/-- C13: on a well-formed table `sr_nat_lookup_internal` returns, with enough
fuel, the first mapping in table order whose `(type, ip_int, aux_int)` is the
key, and `sr_nat_lookup_external` the first whose `(type, aux_ext)` is the
key; each returns `NULL` exactly when no held mapping matches.  Both are
functions of the state that return a pointer only: they write nothing. -/
theorem lookup_hit_and_miss (fuel : Nat) (nat : sr_nat) (l : List Ptr) (ip_int aux_int : Nat)
    (aux_ext : Nat) (type : sr_nat_mapping_type) (htable : IsTable nat l)
    (hf : l.length < fuel) :
    (∃ r, sr_nat_lookup_internal fuel nat ip_int aux_int type = some r
        ∧ FirstMatch
            (fun p => decide ((nat.mapping_mem p).type = type
              ∧ (nat.mapping_mem p).ip_int = ip_int ∧ (nat.mapping_mem p).aux_int = aux_int))
            l r
        ∧ (r = NULL ↔ ∀ p ∈ l, ¬ ((nat.mapping_mem p).type = type
            ∧ (nat.mapping_mem p).ip_int = ip_int ∧ (nat.mapping_mem p).aux_int = aux_int)))
      ∧ (∃ r, sr_nat_lookup_external fuel nat aux_ext type = some r
        ∧ FirstMatch
            (fun p => decide ((nat.mapping_mem p).type = type
              ∧ (nat.mapping_mem p).aux_ext = aux_ext))
            l r
        ∧ (r = NULL ↔ ∀ p ∈ l, ¬ ((nat.mapping_mem p).type = type
            ∧ (nat.mapping_mem p).aux_ext = aux_ext))) := by
  have hnn := Seg_ne_null htable
  constructor
  · have hfun : (fun p => decide ((nat.mapping_mem p).type = type
        ∧ (nat.mapping_mem p).ip_int = ip_int ∧ (nat.mapping_mem p).aux_int = aux_int))
        = matches_internal nat ip_int aux_int type := by
      funext p
      simp only [matches_internal, decide_eq_decide]
      tauto
    have hfm := firstMatch_find (matches_internal nat ip_int aux_int type) l
    refine ⟨_, lookup_internal_loop_spec nat ip_int aux_int type l _ fuel htable hf, ?_, ?_⟩
    · rw [hfun]; exact hfm
    · rw [firstMatch_null_iff _ l _ hnn hfm]
      constructor
      · intro h p hp
        have := h p hp
        simp only [matches_internal, decide_eq_false_iff_not] at this
        tauto
      · intro h p hp
        have := h p hp
        simp only [matches_internal, decide_eq_false_iff_not]
        tauto
  · have hfm := firstMatch_find (matches_external nat aux_ext type) l
    refine ⟨_, lookup_external_loop_spec nat aux_ext type l _ fuel htable hf, hfm, ?_⟩
    rw [firstMatch_null_iff _ l _ hnn hfm]
    constructor
    · intro h p hp
      have := h p hp
      simpa only [matches_external, decide_eq_false_iff_not] using this
    · intro h p hp
      have := h p hp
      simpa only [matches_external, decide_eq_false_iff_not] using this

/-- C13 on a concrete state: lookups in the table of `example_nat3`. -/
theorem lookup_hit_and_miss_witness :
    (∃ r, sr_nat_lookup_internal 5 example_nat3 11 21 nat_mapping_icmp = some r
        ∧ FirstMatch
            (fun p => decide ((example_nat3.mapping_mem p).type = nat_mapping_icmp
              ∧ (example_nat3.mapping_mem p).ip_int = 11
              ∧ (example_nat3.mapping_mem p).aux_int = 21))
            [3, 2, 1] r
        ∧ (r = NULL ↔ ∀ p ∈ [3, 2, 1],
            ¬ ((example_nat3.mapping_mem p).type = nat_mapping_icmp
            ∧ (example_nat3.mapping_mem p).ip_int = 11
            ∧ (example_nat3.mapping_mem p).aux_int = 21)))
      ∧ (∃ r, sr_nat_lookup_external 5 example_nat3 0 nat_mapping_icmp = some r
        ∧ FirstMatch
            (fun p => decide ((example_nat3.mapping_mem p).type = nat_mapping_icmp
              ∧ (example_nat3.mapping_mem p).aux_ext = 0))
            [3, 2, 1] r
        ∧ (r = NULL ↔ ∀ p ∈ [3, 2, 1],
            ¬ ((example_nat3.mapping_mem p).type = nat_mapping_icmp
            ∧ (example_nat3.mapping_mem p).aux_ext = 0))) :=
  lookup_hit_and_miss 5 example_nat3 [3, 2, 1] 11 21 0 nat_mapping_icmp (by decide) (by decide)

/-- C14: `sr_nat_insert_mapping` with a block from `malloc` that is not in the
table returns that block and makes it the head of the table, with
`type`, `ip_int`, `aux_int` as given, `last_updated = now` and no connection
record, followed by the old mappings in the old order, each with its old
content, whether or not a held mapping already has the same internal tuple;
the table is longer by one. -/
theorem insert_prepends (nat : sr_nat) (l : List Ptr) (ip_int aux_int : Nat)
    (type : sr_nat_mapping_type) (now : Int) (newMapping : Ptr)
    (htable : IsTable nat l) (hnull : newMapping ≠ NULL) (hfresh : newMapping ∉ l) :
    ∃ nat1, sr_nat_insert_mapping nat ip_int aux_int type now newMapping
        = some (newMapping, nat1)
      ∧ IsTable nat1 (newMapping :: l)
      ∧ (newMapping :: l).length = l.length + 1
      ∧ (nat1.mapping_mem newMapping).type = type
      ∧ (nat1.mapping_mem newMapping).ip_int = ip_int
      ∧ (nat1.mapping_mem newMapping).aux_int = aux_int
      ∧ (nat1.mapping_mem newMapping).last_updated = now
      ∧ IsConns nat1 newMapping []
      ∧ (∀ p ∈ l, nat1.mapping_mem p = nat.mapping_mem p)
      ∧ nat1.conn_mem = nat.conn_mem := by
  have h : ∃ nat1, sr_nat_insert_mapping nat ip_int aux_int type now newMapping
      = some (newMapping, nat1) := by
    unfold sr_nat_insert_mapping
    rw [if_neg hnull]
    exact ⟨_, rfl⟩
  obtain ⟨nat1, h1⟩ := h
  obtain ⟨_, _, _, h4, _, h6, h7, h8, _, h10, h11, _⟩ :=
    insert_mapping_result _ _ _ _ _ _ _ _ h1
  refine ⟨nat1, h1, insert_mapping_isTable _ _ _ _ _ _ _ _ _ h1 htable hfresh, by simp,
    h6, h7, h8, h10, h11, ?_, ?_⟩
  · intro p hp
    exact h4 p (fun e => hfresh (e ▸ hp))
  · unfold sr_nat_insert_mapping at h1
    rw [if_neg hnull] at h1
    cases h1
    rfl

/-- C14 on a concrete state: a second mapping for the ICMP tuple `(10, 20)`,
which `example_nat3` already holds, is inserted into the block at address
`4`. -/
theorem insert_prepends_witness :
    ∃ nat1, sr_nat_insert_mapping example_nat3 10 20 nat_mapping_icmp 200 4 = some (4, nat1)
      ∧ IsTable nat1 (4 :: [3, 2, 1])
      ∧ (4 :: [3, 2, 1]).length = [3, 2, 1].length + 1
      ∧ (nat1.mapping_mem 4).type = nat_mapping_icmp
      ∧ (nat1.mapping_mem 4).ip_int = 10
      ∧ (nat1.mapping_mem 4).aux_int = 20
      ∧ (nat1.mapping_mem 4).last_updated = 200
      ∧ IsConns nat1 4 []
      ∧ (∀ p ∈ [3, 2, 1], nat1.mapping_mem p = example_nat3.mapping_mem p)
      ∧ nat1.conn_mem = example_nat3.conn_mem :=
  insert_prepends example_nat3 [3, 2, 1] 10 20 nat_mapping_icmp 200 4 (by decide) (by decide)
    (by decide)

/-! ## Connection records of one mapping -/

theorem lookup_tcp_con_loop_spec (nat : sr_nat) (ip_con : Nat) (cs : List Ptr) :
    ∀ (p : Ptr) (fuel : Nat), Seg (cnext nat) p NULL cs → cs.length < fuel →
      sr_nat_lookup_tcp_con_loop nat ip_con fuel p
        = some ((cs.find? (fun c => decide ((nat.conn_mem c).ip = ip_con))).getD NULL) := by
  induction cs with
  | nil =>
    intro p fuel h hf
    have hp : p = NULL := h
    subst hp
    cases fuel with
    | zero => simp at hf
    | succ n => simp [sr_nat_lookup_tcp_con_loop]
  | cons a cs ih =>
    intro p fuel h hf
    obtain ⟨h1, h2, h3⟩ := h
    subst h1
    cases fuel with
    | zero => simp at hf
    | succ n =>
      have hn : cs.length < n := by simpa using hf
      by_cases hm : (nat.conn_mem p).ip = ip_con
      · simp [sr_nat_lookup_tcp_con_loop, h2, hm, List.find?]
      · have hm2 : decide ((nat.conn_mem p).ip = ip_con) = false := by
          simpa using hm
        rw [sr_nat_lookup_tcp_con_loop, if_neg h2, if_neg hm, List.find?, hm2]
        exact ih _ n h3 hn

theorem lookup_tcp_con_miss (fuel : Nat) (nat : sr_nat) (m : Ptr) (cs : List Ptr)
    (ip_con : Nat) (h : IsConns nat m cs) (hf : cs.length < fuel)
    (hmiss : ∀ c ∈ cs, (nat.conn_mem c).ip ≠ ip_con) :
    sr_nat_lookup_tcp_con fuel nat m ip_con = some NULL := by
  unfold sr_nat_lookup_tcp_con
  rw [lookup_tcp_con_loop_spec nat ip_con cs _ fuel h hf]
  have : cs.find? (fun c => decide ((nat.conn_mem c).ip = ip_con)) = none := by
    rw [List.find?_eq_none]
    intro c hc
    simpa using hmiss c hc
  rw [this]
  rfl

/-- C15: `sr_nat_insert_tcp_con` with a block from `malloc` that is not in the
connection list of the mapping returns that block, filled with
`tcp_state = CLOSED`, `last_updated = now` and `ip = ip_con`, and makes it the
head of the connection list in front of all old records, which keep their
content and order, also those of the same peer.  `sr_nat_lookup_tcp_con` for
that peer then returns the new record, and on either state it returns `NULL`
for a peer without a record. -/
theorem conn_insert_then_find (fuel : Nat) (nat : sr_nat) (m : Ptr) (cs : List Ptr)
    (ip_con : Nat) (now : Int) (newConn : Ptr) (hconns : IsConns nat m cs)
    (hnull : newConn ≠ NULL) (hfresh : newConn ∉ cs) (hf : cs.length + 1 < fuel) :
    ∃ nat1, sr_nat_insert_tcp_con nat m ip_con now newConn = some (newConn, nat1)
      ∧ (nat1.conn_mem newConn).tcp_state = CLOSED
      ∧ (nat1.conn_mem newConn).last_updated = now
      ∧ (nat1.conn_mem newConn).ip = ip_con
      ∧ IsConns nat1 m (newConn :: cs)
      ∧ (∀ c, c ≠ newConn → nat1.conn_mem c = nat.conn_mem c)
      ∧ sr_nat_lookup_tcp_con fuel nat1 m ip_con = some newConn
      ∧ (∀ ip2, (∀ c ∈ newConn :: cs, (nat1.conn_mem c).ip ≠ ip2) →
          sr_nat_lookup_tcp_con fuel nat1 m ip2 = some NULL)
      ∧ (∀ ip2, (∀ c ∈ cs, (nat.conn_mem c).ip ≠ ip2) →
          sr_nat_lookup_tcp_con fuel nat m ip2 = some NULL) := by
  have h : ∃ nat1, sr_nat_insert_tcp_con nat m ip_con now newConn = some (newConn, nat1) := by
    unfold sr_nat_insert_tcp_con
    rw [if_neg hnull]
    exact ⟨_, rfl⟩
  obtain ⟨nat1, h1⟩ := h
  have hst := h1
  unfold sr_nat_insert_tcp_con at hst
  rw [if_neg hnull] at hst
  simp only [Option.some.injEq, Prod.mk.injEq, true_and] at hst
  have hmem : ∀ c, c ≠ newConn → nat1.conn_mem c = nat.conn_mem c := by
    intro c hc
    rw [← hst]
    simp [set_mapping_conns, hc]
  have hnew : nat1.conn_mem newConn
      = { ip := ip_con, tcp_state := CLOSED, last_updated := now,
          next := (nat.mapping_mem m).conns } := by
    rw [← hst]
    simp [set_mapping_conns]
  have hhead : (nat1.mapping_mem m).conns = newConn := by
    rw [← hst]
    simp [set_mapping_conns]
  have hc1 : IsConns nat1 m (newConn :: cs) := by
    refine ⟨hhead, hnull, ?_⟩
    have hn : cnext nat1 newConn = (nat.mapping_mem m).conns := by
      simp [cnext, hnew]
    rw [hn]
    apply Seg_congr _ hconns
    intro a ha
    have hne : a ≠ newConn := fun e => hfresh (e ▸ ha)
    simp [cnext, hmem a hne]
  have hf1 : (newConn :: cs).length < fuel := by simpa using hf
  refine ⟨nat1, h1, by rw [hnew], by rw [hnew], by rw [hnew], hc1, hmem, ?_, ?_, ?_⟩
  · unfold sr_nat_lookup_tcp_con
    rw [lookup_tcp_con_loop_spec nat1 ip_con _ _ fuel hc1 hf1]
    simp [List.find?, hnew]
  · intro ip2 hmiss
    exact lookup_tcp_con_miss fuel nat1 m _ ip2 hc1 hf1 hmiss
  · intro ip2 hmiss
    exact lookup_tcp_con_miss fuel nat m cs ip2 hconns (by omega) hmiss

/-- C15 on a concrete state: a second record for the peer `99` is added to the
TCP mapping of `example_nat8`, which already has one. -/
theorem conn_insert_then_find_witness :
    ∃ nat1, sr_nat_insert_tcp_con example_nat8 3 99 150 8 = some (8, nat1)
      ∧ (nat1.conn_mem 8).tcp_state = CLOSED
      ∧ (nat1.conn_mem 8).last_updated = 150
      ∧ (nat1.conn_mem 8).ip = 99
      ∧ IsConns nat1 3 (8 :: [7])
      ∧ (∀ c, c ≠ 8 → nat1.conn_mem c = example_nat8.conn_mem c)
      ∧ sr_nat_lookup_tcp_con 5 nat1 3 99 = some 8
      ∧ (∀ ip2, (∀ c ∈ 8 :: [7], (nat1.conn_mem c).ip ≠ ip2) →
          sr_nat_lookup_tcp_con 5 nat1 3 ip2 = some NULL)
      ∧ (∀ ip2, (∀ c ∈ [7], (example_nat8.conn_mem c).ip ≠ ip2) →
          sr_nat_lookup_tcp_con 5 example_nat8 3 ip2 = some NULL) :=
  conn_insert_then_find 5 example_nat8 3 [7] 99 150 8 (by decide) (by decide) (by decide)
    (by decide)

/-- C16, the code at the failing input.  The connection list of the mapping at
address `3` holds only the record at address `7`; the block at address `8` was
removed from the list before.  A second `destroy_tcp_conn` on the block at `8`
is not a no-op: the search loop stops at the last record, the test
`prevConn == NULL` does not fire, and the `next` link of the record at `7` is
overwritten with the stale link of the block at `8`, which is `7`.  The
connection list is then a cycle, and a lookup of a peer without a record runs
out of any fuel. -/
theorem destroy_tcp_conn_absent_not_noop :
    IsConns conn1_nat 3 [7] ∧ conn1_nat.conn_live 8 = false
      ∧ destroy_tcp_conn 5 conn1_nat 3 8 = some conn_again_nat
      ∧ (conn1_nat.conn_mem 7).next = NULL
      ∧ (conn_again_nat.conn_mem 7).next = 7
      ∧ (∀ cs, ¬ IsConns conn_again_nat 3 cs)
      ∧ (∀ fuel, sr_nat_lookup_tcp_con fuel conn_again_nat 3 55 = none) := by
  refine ⟨by decide, by decide, rfl, by decide, by decide, ?_, ?_⟩
  · intro cs hcs
    cases cs with
    | nil => exact absurd hcs (by decide)
    | cons a cs =>
      have h1 : a = 7 := by
        have : (conn_again_nat.mapping_mem 3).conns = a := hcs.1
        rw [← this]; decide
      subst h1
      have h2 : Seg (cnext conn_again_nat) 7 NULL cs := by
        have h3 : Seg (cnext conn_again_nat) (cnext conn_again_nat 7) NULL cs := hcs.2.2
        have h4 : cnext conn_again_nat 7 = 7 := by decide
        rw [h4] at h3
        exact h3
      cases cs with
      | nil => exact absurd h2 (by decide)
      | cons b cs =>
        have hb : (7 : Ptr) = b := h2.1
        subst hb
        have hl2 : Seg (cnext conn_again_nat) 7 NULL (7 :: 7 :: cs) := ⟨rfl, hcs.2.1, hcs.2.2⟩
        exact Seg_null_not_mem hl2 (by simp)
  · intro fuel
    unfold sr_nat_lookup_tcp_con
    have hm : (conn_again_nat.mapping_mem 3).conns = 7 := by decide
    rw [hm]
    induction fuel with
    | zero => rfl
    | succ n ih =>
      rw [sr_nat_lookup_tcp_con_loop]
      have h1 : ¬ ((7 : Ptr) = NULL) := by decide
      have h2 : ¬ ((conn_again_nat.conn_mem 7).ip = 55) := by decide
      have h3 : (conn_again_nat.conn_mem 7).next = 7 := by decide
      rw [if_neg h1, if_neg h2, h3]
      exact ih

/-- C17, the code at the failing input.  The lookups of the TCP mapping of
`example_nat3` and the insert that created it all return the address `3`,
which is the head block of the table itself, not a copy.  A connection insert
through the table changes what that address shows; `free` on the returned
address leaves the table holding a block that is not live; and after
`destroy_nat_mapping` on the mapping the returned address is a freed block. -/
theorem lookup_returns_table_node :
    sr_nat_lookup_internal 5 example_nat3 12 22 nat_mapping_tcp = some 3
      ∧ sr_nat_lookup_external 5 example_nat3 0 nat_mapping_tcp = some 3
      ∧ sr_nat_insert_mapping example_nat2 12 22 nat_mapping_tcp 100 3
          = some (3, example_nat3)
      ∧ example_nat3.mappings = 3 ∧ IsTable example_nat3 [3, 2, 1]
      ∧ (example_nat3.mapping_mem 3).conns = NULL
      ∧ (example_nat8.mapping_mem 3).conns = 7
      ∧ IsTable (free_mapping example_nat3 3) [3, 2, 1]
      ∧ (free_mapping example_nat3 3).mapping_live 3 = false
      ∧ (state_after_destroy 5 example_nat3 3).mapping_live 3 = false :=
  ⟨by decide, by decide, rfl, by decide, by decide, by decide, by decide, by decide,
    by decide, by decide⟩

/-! ## Serial orders of inserts and reaper passes -/

/-- C19 as stated fails in its last part.  The table holds two ICMP mappings
with the same `aux_ext = 5`, marked used.  At time `100` the first is expired
and the second is not: the pass removes the first and keeps the second, and in
removing the first it writes `available_icmp_identifiers[5] = 0`, the slot of
the mapping that survives. -/
theorem reaper_pass_slot_counterexample :
    WellFormed shared_nat [2, 1] (fun _ => [])
      ∧ sr_nat_timeout_pass 5 100 (fun _ => 100) shared_nat = some shared_nat1
      ∧ IsTable shared_nat1 [1]
      ∧ mapping_expired shared_nat 100 (sweep_clock (fun _ => 100) [2, 1]) (fun _ => []) 2
        = true
      ∧ mapping_expired shared_nat 100 (sweep_clock (fun _ => 100) [2, 1]) (fun _ => []) 1
        = false
      ∧ shared_nat.available_icmp_identifiers (shared_nat.mapping_mem 1).aux_ext = 1
      ∧ shared_nat1.available_icmp_identifiers (shared_nat1.mapping_mem 1).aux_ext = 0 :=
  ⟨⟨by decide, by decide, by decide⟩, rfl, by decide, by decide, by decide, by decide,
    by decide⟩

theorem mapping_expired_iff (nat : sr_nat) (curtime : Int) (tm : Ptr → Int)
    (cs : Ptr → List Ptr) (p : Ptr) :
    mapping_expired nat curtime tm cs p = true ↔
      ((nat.mapping_mem p).type = nat_mapping_icmp
          ∧ curtime - (nat.mapping_mem p).last_updated > nat.icmp_query_timeout)
        ∨ ((nat.mapping_mem p).type = nat_mapping_tcp
          ∧ conns_kept nat (tm p) (cs p) = []
          ∧ 2 * (curtime - (nat.mapping_mem p).last_updated) > 1) := by
  unfold mapping_expired difftime
  cases ht : (nat.mapping_mem p).type <;> simp

/-- C19, amended: one reaper pass on a well-formed heap returns with enough
fuel, whatever run of mappings expires; the table after the pass is the old
list filtered to the mappings that do not meet their expiry rule, in the old
order; and the pool entry of a surviving mapping is what it was, provided no
expired mapping of the same type has the same `aux_ext`.  The expiry rule of a
TCP mapping at `p` takes the connection list that `check_tcp_conns` keeps at
its own clock read `sweep_clock clock l p`, and the idle time of every mapping
at the clock read `curtime` of the pass. -/
theorem reaper_pass_filter (fuel : Nat) (curtime : Int) (clock : Nat → Int) (nat : sr_nat)
    (l : List Ptr) (cs : Ptr → List Ptr) (hwf : WellFormed nat l cs) (hf : l.length < fuel)
    (hcs : ∀ p ∈ l, (cs p).length < fuel) :
    ∃ nat1, sr_nat_timeout_pass fuel curtime clock nat = some nat1
      ∧ IsTable nat1
          (l.filter (fun p => !mapping_expired nat curtime (sweep_clock clock l) cs p))
      ∧ (∀ p, mapping_expired nat curtime (sweep_clock clock l) cs p = true ↔
          ((nat.mapping_mem p).type = nat_mapping_icmp
              ∧ curtime - (nat.mapping_mem p).last_updated > nat.icmp_query_timeout)
            ∨ ((nat.mapping_mem p).type = nat_mapping_tcp
              ∧ conns_kept nat (sweep_clock clock l p) (cs p) = []
              ∧ 2 * (curtime - (nat.mapping_mem p).last_updated) > 1))
      ∧ (∀ p, same_static (nat1.mapping_mem p) (nat.mapping_mem p))
      ∧ (∀ p ∈ l, mapping_expired nat curtime (sweep_clock clock l) cs p = false →
          (nat.mapping_mem p).type = nat_mapping_tcp →
          (∀ q ∈ l, mapping_expired nat curtime (sweep_clock clock l) cs q = true →
            (nat.mapping_mem q).type = nat_mapping_tcp →
            (nat.mapping_mem q).aux_ext ≠ (nat.mapping_mem p).aux_ext) →
          nat1.available_ports (nat.mapping_mem p).aux_ext
            = nat.available_ports (nat.mapping_mem p).aux_ext)
      ∧ (∀ p ∈ l, mapping_expired nat curtime (sweep_clock clock l) cs p = false →
          (nat.mapping_mem p).type = nat_mapping_icmp →
          (∀ q ∈ l, mapping_expired nat curtime (sweep_clock clock l) cs q = true →
            (nat.mapping_mem q).type = nat_mapping_icmp →
            (nat.mapping_mem q).aux_ext ≠ (nat.mapping_mem p).aux_ext) →
          nat1.available_icmp_identifiers (nat.mapping_mem p).aux_ext
            = nat.available_icmp_identifiers (nat.mapping_mem p).aux_ext) := by
  obtain ⟨nat1, h1, h2, h3, h4⟩ :=
    sr_nat_timeout_pass_spec fuel curtime clock nat l cs hwf hf hcs
  obtain ⟨_, _, _, a4, _, a6⟩ := h4
  refine ⟨nat1, h1, h2.table, mapping_expired_iff nat curtime (sweep_clock clock l) cs,
    h3.1, ?_, ?_⟩
  · intro p _ _ _ hq
    apply a4
    rintro ⟨q, hql, hex, ht, he⟩
    exact hq q hql hex ht he
  · intro p _ _ _ hq
    apply a6
    rintro ⟨q, hql, hex, ht, he⟩
    exact hq q hql hex ht he

/-- C19 amended, on a concrete state: at time `161` the two ICMP mappings of
`example_nat8` expire one after the other and the TCP mapping in front of them
stays; the sweep of the TCP mapping reads the clock one second later. -/
theorem reaper_pass_filter_witness :
    [3, 2, 1].filter
        (fun p => !mapping_expired example_nat8 161 (sweep_clock (fun _ => 162) [3, 2, 1])
          (fun p => if p = 3 then [7] else []) p)
        = [3]
      ∧ ∃ nat1, sr_nat_timeout_pass 5 161 (fun _ => 162) example_nat8 = some nat1
        ∧ IsTable nat1
            ([3, 2, 1].filter
              (fun p => !mapping_expired example_nat8 161 (sweep_clock (fun _ => 162) [3, 2, 1])
                (fun p => if p = 3 then [7] else []) p)) :=
  ⟨by decide,
    (reaper_pass_filter 5 161 (fun _ => 162) example_nat8 [3, 2, 1]
      (fun p => if p = 3 then [7] else [])
      ⟨by decide, by decide, by decide⟩ (by decide) (by decide)).imp
      (fun _ h => ⟨h.1, h.2.1⟩)⟩

/-! ## A second pass at the same time -/

theorem check_tcp_conns_loop_noop (F : Nat) (curtime : Int) (m : Ptr) (nat : sr_nat) :
    ∀ (rest : List Ptr) (curr : Ptr) (fuel : Nat), Seg (cnext nat) curr NULL rest →
      (∀ c ∈ rest, conn_expired nat curtime c = false) → rest.length < fuel →
      check_tcp_conns_loop F curtime m fuel nat curr = some nat := by
  intro rest
  induction rest with
  | nil =>
    intro curr fuel hs _ hf
    have hp : curr = NULL := hs
    subst hp
    cases fuel with
    | zero => simp at hf
    | succ n => simp [check_tcp_conns_loop]
  | cons c rest ih =>
    intro curr fuel hs hne hf
    obtain ⟨h1, h2, h3⟩ := hs
    subst h1
    cases fuel with
    | zero => simp at hf
    | succ n =>
      have hn : rest.length < n := by simpa using hf
      have hex : ¬ conn_expired nat curtime curr = true := by
        rw [hne curr (List.mem_cons_self _ _)]
        simp
      rw [check_tcp_conns_loop_step F curtime m n nat curr h2, if_neg hex]
      exact ih _ n h3 (fun c hc => hne c (List.mem_cons_of_mem _ hc)) hn

/-- The function `check_tcp_conns` writes nothing when no record of the mapping
meets the removal rule. -/
theorem check_tcp_conns_noop (fuel : Nat) (curtime : Int) (nat : sr_nat) (m : Ptr)
    (cs : List Ptr) (h : IsConns nat m cs) (hne : ∀ c ∈ cs, conn_expired nat curtime c = false)
    (hf : cs.length < fuel) : check_tcp_conns fuel curtime nat m = some nat :=
  check_tcp_conns_loop_noop fuel curtime m nat cs _ fuel h hne hf

theorem sr_nat_timeout_loop_noop (F : Nat) (curtime : Int) (nat : sr_nat)
    (cs : Ptr → List Ptr) :
    ∀ (rest : List Ptr) (curr : Ptr) (fuel i : Nat), Seg (mnext nat) curr NULL rest →
      (∀ p ∈ rest, IsConns nat p (cs p) ∧ (cs p).length < F
        ∧ ((nat.mapping_mem p).type = nat_mapping_tcp →
          ∀ c ∈ cs p, conn_expired nat curtime c = false)
        ∧ mapping_expired nat curtime (fun _ => curtime) cs p = false) →
      rest.length < fuel →
      sr_nat_timeout_loop F curtime (fun _ => curtime) fuel i nat curr = some nat := by
  intro rest
  induction rest with
  | nil =>
    intro curr fuel i hs _ hf
    have hp : curr = NULL := hs
    subst hp
    cases fuel with
    | zero => simp at hf
    | succ n => simp [sr_nat_timeout_loop]
  | cons p rest ih =>
    intro curr fuel i hs hall hf
    obtain ⟨h1, h2, h3⟩ := hs
    subst h1
    obtain ⟨g1, g2, g3, g4⟩ := hall curr (List.mem_cons_self _ _)
    have hrest := ih _ (fuel - 1) (i + 1) h3
      (fun q hq => hall q (List.mem_cons_of_mem _ hq))
    cases fuel with
    | zero => simp at hf
    | succ n =>
      have hn : rest.length < n := by simpa using hf
      have hrest2 := hrest (by simpa using hn)
      simp only [Nat.add_sub_cancel] at hrest2
      rw [sr_nat_timeout_loop, if_neg h2]
      simp only []
      cases ht : (nat.mapping_mem curr).type with
      | nat_mapping_icmp =>
        have hex : ¬ difftime curtime (nat.mapping_mem curr).last_updated
            > nat.icmp_query_timeout := by
          simpa [mapping_expired, ht] using g4
        simp only [if_true]
        rw [if_neg hex]
        exact hrest2
      | nat_mapping_tcp =>
        simp only [reduceCtorEq, if_false, if_true]
        rw [check_tcp_conns_noop F curtime nat curr (cs curr) g1 (g3 ht) g2]
        simp only []
        have hk : conns_kept nat curtime (cs curr) = cs curr := by
          unfold conns_kept
          rw [List.filter_eq_self]
          intro c hc
          simp [g3 ht c hc]
        have hex : ¬ ((nat.mapping_mem curr).conns = NULL
            ∧ 2 * difftime curtime (nat.mapping_mem curr).last_updated > 1) := by
          rintro ⟨e1, e2⟩
          have hnil := (isConns_nil_iff nat curr _ g1).mp e1
          simp [mapping_expired, ht, hk, hnil, e2] at g4
          exact g4 (by simp [conns_kept])
        rw [if_neg hex]
        exact hrest2

/-- C20: on a well-formed heap a reaper pass returns with enough fuel, and a
second pass at the same time on its result returns that result unchanged:
the mapping list, the connection lists, both pools and all the rest of the
state are what the first pass left.  The same holds for `check_tcp_conns` on
each held mapping.  At a fixed time every clock read of the two passes, those
of the sweeps included, is `curtime`. -/
theorem reaper_pass_idempotent (fuel : Nat) (curtime : Int) (nat : sr_nat) (l : List Ptr)
    (cs : Ptr → List Ptr) (hwf : WellFormed nat l cs) (hf : l.length < fuel)
    (hcs : ∀ p ∈ l, (cs p).length < fuel) :
    (∃ nat1, sr_nat_timeout_pass fuel curtime (fun _ => curtime) nat = some nat1
        ∧ sr_nat_timeout_pass fuel curtime (fun _ => curtime) nat1 = some nat1)
      ∧ (∀ m ∈ l, ∃ nat1, check_tcp_conns fuel curtime nat m = some nat1
        ∧ check_tcp_conns fuel curtime nat1 m = some nat1) := by
  constructor
  · obtain ⟨nat1, h1, h2, h3, _⟩ :=
      sr_nat_timeout_pass_spec fuel curtime (fun _ => curtime) nat l cs hwf hf hcs
    have hsc : sweep_clock (fun _ => curtime) l = fun _ => curtime := rfl
    rw [hsc] at h2
    refine ⟨nat1, h1, ?_⟩
    unfold sr_nat_timeout_pass
    apply sr_nat_timeout_loop_noop fuel curtime nat1
      (fun p => if p ∈ l then conns_after_pass nat (fun _ => curtime) cs p else cs p) _ _ fuel 0
      h2.table
    · intro p hp
      obtain ⟨hpl, hpe⟩ := List.mem_filter.mp hp
      have hpe2 : mapping_expired nat curtime (fun _ => curtime) cs p = false := by simpa using hpe
      have hsub : ∀ c ∈ conns_after_pass nat (fun _ => curtime) cs p, c ∈ cs p := by
        intro c hc
        unfold conns_after_pass at hc
        split_ifs at hc
        · exact (List.mem_filter.mp hc).1
        · exact hc
      have hlen : (conns_after_pass nat (fun _ => curtime) cs p).length ≤ (cs p).length := by
        unfold conns_after_pass
        split_ifs
        · exact List.length_filter_le _ _
        · exact le_refl _
      have hkk : conns_kept nat curtime (conns_after_pass nat (fun _ => curtime) cs p)
          = conns_kept nat curtime (cs p) := by
        unfold conns_after_pass
        split_ifs
        · unfold conns_kept
          rw [List.filter_filter]
          simp
        · rfl
      have hty := (h3.1 p).1
      have hne : ∀ c ∈ conns_after_pass nat (fun _ => curtime) cs p,
          (nat.mapping_mem p).type = nat_mapping_tcp → conn_expired nat curtime c = false := by
        intro c hc ht
        unfold conns_after_pass at hc
        rw [if_pos ht] at hc
        simpa using (List.mem_filter.mp hc).2
      refine ⟨?_, ?_, ?_, ?_⟩
      · have := h2.conns p hp
        simpa [hpl] using this
      · simp only [hpl, if_true]
        exact lt_of_le_of_lt hlen (hcs p hpl)
      · intro ht c hc
        simp only [hpl, if_true] at hc
        rw [hty] at ht
        rw [conn_expired_static nat nat1 curtime h3 c]
        exact hne c hc ht
      · obtain ⟨f1, _, _, _, f5⟩ := h3.1 p
        have hme : mapping_expired nat1 curtime (fun _ => curtime)
            (fun p => if p ∈ l then conns_after_pass nat (fun _ => curtime) cs p else cs p) p
            = mapping_expired nat curtime (fun _ => curtime) cs p := by
          unfold mapping_expired
          rw [f1, f5, h3.2.2.1, conns_kept_static nat nat1 curtime h3]
          simp only [hpl, if_true, hkk]
        rw [hme]
        exact hpe2
    · exact lt_of_le_of_lt (List.length_filter_le _ _) hf
  · intro m hm
    obtain ⟨nat1, e1, e2, e3, _, _, _, e7, _⟩ :=
      check_tcp_conns_spec fuel curtime nat m (cs m) (hwf.conns m hm) (hcs m hm)
    refine ⟨nat1, e1, ?_⟩
    apply check_tcp_conns_noop fuel curtime nat1 m _ e2
    · intro c hc
      have hst : conn_expired nat1 curtime c = conn_expired nat curtime c := by
        apply conn_expired_congr _ _ _ _ (e7 c)
        · rw [e3]
        · rw [e3]
      rw [hst]
      simpa using (List.mem_filter.mp hc).2
    · exact lt_of_le_of_lt (List.length_filter_le _ _) (hcs m hm)

/-- C20 on a concrete state: two passes over `example_nat8` at time `161`, and
two sweeps of each of its mappings. -/
theorem reaper_pass_idempotent_witness :
    (∃ nat1, sr_nat_timeout_pass 5 161 (fun _ => 161) example_nat8 = some nat1
        ∧ sr_nat_timeout_pass 5 161 (fun _ => 161) nat1 = some nat1)
      ∧ (∀ m ∈ [3, 2, 1], ∃ nat1, check_tcp_conns 5 161 example_nat8 m = some nat1
        ∧ check_tcp_conns 5 161 nat1 m = some nat1) :=
  reaper_pass_idempotent 5 161 example_nat8 [3, 2, 1] (fun p => if p = 3 then [7] else [])
    ⟨by decide, by decide, by decide⟩ (by decide) (by decide)

end SrNat
